import Mathlib

/-!
# BFHL API (`server.js`): a shallow embedding of the request dispatcher

The numeric helpers (`fibonacci`, `isPrime`, `primesFromArray`, `gcd`,
`hcfOfArray`, `lcm`, `lcmOfArray`), the Answer Resolver `getSingleWordAIAnswer`
and the `POST /bfhl` handler are embedded as Lean functions over a small model of
JavaScript values.

Modelling conventions.
* A JavaScript number is `JsNum`: either `NaN` or a rational value. The results
  of `+`, `*` and `/` are rounded as IEEE-754 binary64 arithmetic rounds them: to
  a 53-bit significand, to nearest, ties to even (`JsNum.roundToDouble`).
  `Math.floor`, `Math.abs`, `%` and the comparisons are exact on doubles and are
  embedded exactly. The exponent range is not bounded: overflow to an infinity,
  gradual underflow and negative zero are outside the model; a division by zero
  is represented by `NaN`.
* A JavaScript value is `JsVal` (the JSON values, plus `undefined`). A string is
  a Lean `String`, a sequence of Unicode scalar values (lone surrogates are
  outside the model); its `length` counts UTF-16 code units.
* `while`/`for` loops are recursive functions on a step budget computed from the
  loop bound; the section on the adequacy of the budgets shows that no loop ever
  stops because its budget is used up.
* The Answer Resolver `getSingleWordAIAnswer` enters the handler through its
  outcome: a function from the question to the returned word or to the message
  of the thrown error. The resolver itself is embedded over `Credentials` (the
  two environment variables) and `Network` (what each external request does);
  a `Run` records its outcome and the network requests it issued, in order.
* Resource limits (stack depth on deeply nested arrays, time, memory) are
  outside the model.
* The engine's own `Number::toString` and `StringToNumber` are not code of this
  program and are taken as parameters (`Builtins`).
* A JavaScript exception is the `error` of `Except String`, carrying the message.
  The conversions `String(v)`, `parseInt(v, 10)` and `Number(v)` throw a
  `TypeError` on an object that has an own property named `toString` (whose
  value, coming from JSON, is never callable); the handler's outer `try`/`catch`
  turns an exception into the 500 response.
-/

namespace Bfhl

/-! ## JavaScript numbers -/

/-- A JavaScript number: `NaN` or a rational value. -/
inductive JsNum where
  | nan
  | fin (q : ℚ)
deriving DecidableEq

namespace JsNum

/-- The number with integer value `n`. -/
def ofInt (n : ℤ) : JsNum := fin (n : ℚ)

/-- The number with natural value `n` (loop counters, literals). -/
def ofNat (n : ℕ) : JsNum := fin (n : ℚ)

/-- Global `isNaN` on a number. -/
def isNaN : JsNum → Bool
  | nan => true
  | fin _ => false

/-- `Number.isInteger` on a number. -/
def isInteger : JsNum → Bool
  | nan => false
  | fin q => decide (((⌊q⌋ : ℤ) : ℚ) = q)

/-- `Math.floor`. -/
def floor : JsNum → JsNum
  | nan => nan
  | fin q => fin ((⌊q⌋ : ℤ) : ℚ)

/-- `Math.abs`. -/
def abs : JsNum → JsNum
  | nan => nan
  | fin q => fin |q|

/-- The loop behind `log2Floor`: halve `n` until it is below `2`. -/
def log2Loop : ℕ → ℕ → ℕ
  | 0, _ => 0
  | steps + 1, n => if n < 2 then 0 else log2Loop steps (n / 2) + 1

/-- The position of the leading binary digit of `n ≥ 1`: the `k` with
`2 ^ k ≤ n < 2 ^ (k + 1)`. -/
def log2Floor (n : ℕ) : ℕ := log2Loop n n

/-- The double that an arithmetic operation returns when its exact result is `q`
(IEEE-754 binary64, rounding to nearest, ties to even). With `q = ± a / b` and
`2 ^ e ≤ a / b < 2 ^ (e + 1)`, the significand `a / b * 2 ^ (52 - e)`, which lies
in `[2 ^ 52, 2 ^ 53)`, is rounded to an integer `n`: down below one half, up above
one half, to the even neighbour at exactly one half; the result is
`± n * 2 ^ (e - 52)`. The exponent `e` is not bounded. -/
def roundToDouble (q : ℚ) : ℚ :=
  if q = 0 then 0
  else
    let a : ℕ := q.num.natAbs
    let b : ℕ := q.den
    let s : ℤ := (log2Floor a : ℤ) - (log2Floor b : ℤ)
    let e : ℤ := if b * 2 ^ s.toNat ≤ a * 2 ^ (-s).toNat then s else s - 1
    let A : ℕ := a * 2 ^ (52 - e).toNat
    let B : ℕ := b * 2 ^ (e - 52).toNat
    let f : ℕ := A / B
    let r : ℕ := A % B
    let n : ℕ :=
      if 2 * r < B then f
      else if B < 2 * r then f + 1
      else if f % 2 = 0 then f else f + 1
    let v : ℚ := ((n * 2 ^ (e - 52).toNat : ℕ) : ℚ) / ((2 ^ (52 - e).toNat : ℕ) : ℚ)
    if q < 0 then -v else v

/-- The operator `+` on numbers: the exact sum, rounded to the nearest double. -/
def add : JsNum → JsNum → JsNum
  | fin a, fin b => fin (roundToDouble (a + b))
  | _, _ => nan

/-- The operator `*` on numbers: the exact product, rounded to the nearest
double. -/
def mul : JsNum → JsNum → JsNum
  | fin a, fin b => fin (roundToDouble (a * b))
  | _, _ => nan

/-- The operator `/` on numbers: the exact quotient, rounded to the nearest
double. A zero divisor gives `NaN`: the program divides only in `lcm`, by
`gcd(a, b)`, which is zero only when the dividend is zero too, and `0 / 0` is
`NaN`. -/
def div : JsNum → JsNum → JsNum
  | fin a, fin b => if b = 0 then nan else fin (roundToDouble (a / b))
  | _, _ => nan

/-- Rounding toward zero, as used by the remainder operator. -/
def truncQ (q : ℚ) : ℤ := if 0 ≤ q then ⌊q⌋ else ⌈q⌉

/-- The operator `%` on numbers: the remainder takes the sign of the dividend. -/
def mod : JsNum → JsNum → JsNum
  | fin a, fin b => if b = 0 then nan else fin (a - b * (truncQ (a / b) : ℚ))
  | _, _ => nan

/-- The operator `<`; every comparison with `NaN` is false. -/
def lt : JsNum → JsNum → Bool
  | fin a, fin b => decide (a < b)
  | _, _ => false

/-- The operator `<=`; every comparison with `NaN` is false. -/
def le : JsNum → JsNum → Bool
  | fin a, fin b => decide (a ≤ b)
  | _, _ => false

/-- The operator `===` on numbers; `NaN` equals nothing. -/
def strictEq : JsNum → JsNum → Bool
  | fin a, fin b => decide (a = b)
  | _, _ => false

/-- Truthiness of a number in a condition: false for `0` and `NaN`. -/
def truthy : JsNum → Bool
  | nan => false
  | fin q => decide (q ≠ 0)

/-- Number of loop steps that certainly reach a counter bound `n`. -/
def budget : JsNum → ℕ
  | nan => 0
  | fin q => (⌈q⌉ : ℤ).toNat + 1

end JsNum

/-! ## Numeric kernel -/

/-- The `for (let i = 2; i < n; i++) out.push(out[i - 1] + out[i - 2])` loop of
`fibonacci`; an index outside `out` reads `undefined`, whose sum is `NaN`. -/
def fibonacciLoop (n : JsNum) : ℕ → ℕ → List JsNum → List JsNum
  | 0, _, out => out
  | steps + 1, i, out =>
    if JsNum.lt (JsNum.ofNat i) n then
      fibonacciLoop n steps (i + 1)
        (out ++ [JsNum.add (out.getD (i - 1) JsNum.nan) (out.getD (i - 2) JsNum.nan)])
    else out

/-- The function `fibonacci(n)` of `server.js`. -/
def fibonacci (n : JsNum) : List JsNum :=
  if JsNum.le n (JsNum.ofNat 0) then []
  else if JsNum.strictEq n (JsNum.ofNat 1) then [JsNum.ofNat 0]
  else fibonacciLoop n (JsNum.budget n) 2 [JsNum.ofNat 0, JsNum.ofNat 1]

/-- The `for (let i = 2; i * i <= num; i++) if (num % i === 0) return false` loop
of `isPrime`, followed by `return true`, with the product `i * i` as the engine
computes it, rounded to the nearest double. -/
def isPrimeLoopRounded (num : JsNum) : ℕ → ℕ → Bool
  | 0, _ => true
  | steps + 1, i =>
    if JsNum.le (JsNum.mul (JsNum.ofNat i) (JsNum.ofNat i)) num then
      if JsNum.strictEq (JsNum.mod num (JsNum.ofNat i)) (JsNum.ofNat 0) then false
      else isPrimeLoopRounded num steps (i + 1)
    else true

/-- The same loop with the exact square of the counter in the comparison
`i * i <= num`. The rounded product is used for this comparison only, and on
every `num` that is a double the two loops give the same answer
(`isPrimeLoop_eq_rounded`): below `2 ^ 53` every square that matters is exact, and
from `2 ^ 53` on every double is an even integer, which the first step rejects. -/
def isPrimeLoop (num : JsNum) : ℕ → ℕ → Bool
  | 0, _ => true
  | steps + 1, i =>
    if JsNum.le (JsNum.ofNat (i * i)) num then
      if JsNum.strictEq (JsNum.mod num (JsNum.ofNat i)) (JsNum.ofNat 0) then false
      else isPrimeLoop num steps (i + 1)
    else true

/-- The function `isPrime(num)` of `server.js`, with the loop `isPrimeLoop`. On
every double it is the function `isPrimeRounded` (`isPrime_eq_rounded`). -/
def isPrime (num : JsNum) : Bool :=
  if JsNum.lt num (JsNum.ofNat 2) || !JsNum.isInteger num then false
  else isPrimeLoop num (JsNum.budget num) 2

/-- The function `isPrime(num)` of `server.js`, with the loop `isPrimeLoopRounded`. -/
def isPrimeRounded (num : JsNum) : Bool :=
  if JsNum.lt num (JsNum.ofNat 2) || !JsNum.isInteger num then false
  else isPrimeLoopRounded num (JsNum.budget num) 2

/-- The `while (b) [a, b] = [b, a % b]` loop of `gcd`, followed by `return a`. -/
def gcdLoop : ℕ → JsNum → JsNum → JsNum
  | 0, a, _ => a
  | steps + 1, a, b => if JsNum.truthy b then gcdLoop steps b (JsNum.mod a b) else a

/-- The function `gcd(a, b)` of `server.js`. -/
def gcd (a b : JsNum) : JsNum :=
  let a1 := JsNum.abs (JsNum.floor a)
  let b1 := JsNum.abs (JsNum.floor b)
  gcdLoop (JsNum.budget b1) a1 b1

/-- The function `lcm(a, b)` of `server.js`. -/
def lcm (a b : JsNum) : JsNum :=
  if JsNum.strictEq a (JsNum.ofNat 0) || JsNum.strictEq b (JsNum.ofNat 0) then JsNum.ofNat 0
  else JsNum.div (JsNum.abs (JsNum.mul (JsNum.floor a) (JsNum.floor b))) (gcd a b)

/-! ## JavaScript values -/

/-- A JavaScript value as it can reach the handler: the JSON values and
`undefined`. An object is the list of its own properties in key order. -/
inductive JsVal where
  | undefined
  | null
  | bool (b : Bool)
  | num (x : JsNum)
  | str (s : String)
  | arr (xs : List JsVal)
  | obj (kvs : List (String × JsVal))

/-- The engine operations the program calls that are not code of the program:
`Number::toString` and `StringToNumber` (the string case of `Number(v)`). -/
structure Builtins where
  numberToString : JsNum → String
  stringToNumber : String → JsNum

/-- The message of the `TypeError` thrown by `OrdinaryToPrimitive`. -/
def typeErrorMessage : String := "Cannot convert object to primitive value"

/-- The callback-taking method `arr.map(f)` for a callback that may throw: the
first exception aborts the map. -/
def mapThrowing {α β : Type} (f : α → Except String β) : List α → Except String (List β)
  | [] => .ok []
  | x :: r => do
    let y ← f x
    let ys ← mapThrowing f r
    pure (y :: ys)

mutual
/-- The abstract operation `ToString` (`String(v)`), on the values of `JsVal`.
On an object, `OrdinaryToPrimitive` looks up `toString`, then `valueOf`: an own
property `toString` shadows `Object.prototype.toString` and is not callable,
`Object.prototype.valueOf` returns the object itself, so a `TypeError` is
thrown; without such a property the result is `"[object Object]"`. -/
def toStr (E : Builtins) : JsVal → Except String String
  | .undefined => .ok "undefined"
  | .null => .ok "null"
  | .bool b => .ok (if b then "true" else "false")
  | .num x => .ok (E.numberToString x)
  | .str s => .ok s
  | .arr xs => joinElems E xs
  | .obj kvs =>
    if (kvs.map Prod.fst).contains "toString" then .error typeErrorMessage
    else .ok "[object Object]"
termination_by structural v => v
/-- The function `Array.prototype.join` with separator `","`, which `ToString`
uses on arrays: `undefined` and `null` elements print as the empty string, the
other elements go through `ToString`. -/
def joinElems (E : Builtins) : List JsVal → Except String String
  | [] => .ok ""
  | x :: r => do
    let first ←
      (match x with
        | .undefined => .ok ""
        | .null => .ok ""
        | v => toStr E v)
    let rest ← joinElems E r
    pure (first
      ++ (match r with
        | [] => ""
        | _ => ",")
      ++ rest)
termination_by structural l => l
end

/-- The abstract operation `ToNumber` (`Number(v)`); arrays and objects go
through `ToString` first (their `valueOf` returns the object itself). -/
def toNumber (E : Builtins) : JsVal → Except String JsNum
  | .undefined => .ok JsNum.nan
  | .null => .ok (JsNum.ofNat 0)
  | .bool b => .ok (if b then JsNum.ofNat 1 else JsNum.ofNat 0)
  | .num x => .ok x
  | .str s => .ok (E.stringToNumber s)
  | .arr xs => do
    let s ← toStr E (.arr xs)
    pure (E.stringToNumber s)
  | .obj kvs => do
    let s ← toStr E (.obj kvs)
    pure (E.stringToNumber s)

/-! ## Strings -/

/-- The characters removed by `trim` and skipped by `parseInt`: ECMAScript
`WhiteSpace` and `LineTerminator`. -/
def isWhiteSpace (c : Char) : Bool :=
  decide (c.toNat ∈ [0x9, 0xA, 0xB, 0xC, 0xD, 0x20, 0xA0, 0x1680, 0x2028, 0x2029,
    0x202F, 0x205F, 0x3000, 0xFEFF]) || (decide (0x2000 ≤ c.toNat) && decide (c.toNat ≤ 0x200A))

/-- The method `String.prototype.trim`. -/
def trim (s : String) : String :=
  String.mk (((s.data.dropWhile isWhiteSpace).reverse.dropWhile isWhiteSpace).reverse)

/-- The property `length` of a string: the number of UTF-16 code units. -/
def jsLength (s : String) : ℕ :=
  (s.data.map (fun c => if c.toNat < 0x10000 then 1 else 2)).sum

/-- The value of a run of decimal digits, most significant first. -/
def digitsValue (ds : List Char) : ℕ :=
  ds.foldl (fun acc c => 10 * acc + (c.toNat - 48)) 0

/-- The function `parseInt(s, 10)` on a string: skip leading white space, read
an optional sign, then the longest run of decimal digits; `NaN` if there is
none. -/
def parseInt (s : String) : JsNum :=
  let t := s.data.dropWhile isWhiteSpace
  let signed : Bool × List Char :=
    match t with
    | '-' :: r => (true, r)
    | '+' :: r => (false, r)
    | _ => (false, t)
  let ds := signed.2.takeWhile Char.isDigit
  if ds.isEmpty then JsNum.nan
  else if signed.1 then JsNum.ofInt (-(digitsValue ds : ℤ))
  else JsNum.ofInt (digitsValue ds : ℤ)

/-! ## Array helpers of the numeric kernel -/

/-- The filter predicate of `primesFromArray`:
`Number.isInteger(n) && n >= 0 && isPrime(n)`. -/
def primeElem : JsVal → Bool
  | .num x => JsNum.isInteger x && JsNum.le (JsNum.ofNat 0) x && isPrime x
  | _ => false

/-- The function `primesFromArray(arr)` of `server.js`. -/
def primesFromArray : JsVal → List JsVal
  | .arr xs => xs.filter primeElem
  | _ => []

/-- The operand list `nums` of `hcfOfArray` and `lcmOfArray`:
`arr.map((n) => Math.abs(Math.floor(Number(n)))).filter((n) => !isNaN(n) && n >= 0)`. -/
def operands (E : Builtins) (xs : List JsVal) : Except String (List JsNum) := do
  let mapped ← mapThrowing
    (fun n => do
      let v ← toNumber E n
      pure (JsNum.abs (JsNum.floor v))) xs
  pure (mapped.filter (fun n => !JsNum.isNaN n && JsNum.le (JsNum.ofNat 0) n))

/-- The function `hcfOfArray(arr)` of `server.js`; `none` is `null`. -/
def hcfOfArray (E : Builtins) : JsVal → Except String (Option JsNum)
  | .arr xs =>
    if xs.length = 0 then .ok none
    else do
      let nums ← operands E xs
      match nums with
      | [] => pure none
      | n0 :: rest => pure (some (rest.foldl gcd n0))
  | _ => .ok none

/-- The function `lcmOfArray(arr)` of `server.js`; `none` is `null`. -/
def lcmOfArray (E : Builtins) : JsVal → Except String (Option JsNum)
  | .arr xs =>
    if xs.length = 0 then .ok none
    else do
      let nums ← operands E xs
      match nums with
      | [] => pure none
      | n0 :: rest => pure (some (rest.foldl lcm n0))
  | _ => .ok none

/-! ## The `POST /bfhl` handler -/

/-- The response envelope together with its HTTP status; an absent `data` or
`error` field is `none`. -/
structure Response where
  status : ℕ
  is_success : Bool
  official_email : String
  data : Option JsVal
  error : Option String

/-- The error envelope: `res.status(code).json(...)` with `is_success: false`,
the configured e-mail and `error: msg`. -/
def failure (email : String) (code : ℕ) (msg : String) : Response :=
  { status := code, is_success := false, official_email := email, data := none, error := some msg }

/-- The success envelope: `res.status(200).json(...)` with `is_success: true`,
the configured e-mail and `data: d`. -/
def success (email : String) (d : JsVal) : Response :=
  { status := 200, is_success := true, official_email := email, data := some d, error := none }

/-- The property read `body[k]`: `undefined` when the key is absent. -/
def getProp (body : List (String × JsVal)) (k : String) : JsVal :=
  (body.lookup k).getD .undefined

/-- The test `v !== undefined && v !== ''` of the key filter. -/
def nonEmptyValue : JsVal → Bool
  | .undefined => false
  | .str s => s != ""
  | _ => true

/-- The list `allowed` of the handler. -/
def allowed : List String := ["fibonacci", "prime", "lcm", "hcf", "AI"]

/-- The list `present` of the handler: the keys with a non-empty value that are
recognized operation names. -/
def present (body : List (String × JsVal)) : List String :=
  ((body.map Prod.fst).filter (fun k => nonEmptyValue (getProp body k))).filter
    (fun k => allowed.contains k)

/-- The integer coercion of the handler:
`typeof x === 'number' ? Math.floor(x) : parseInt(String(x), 10)`. -/
def coerceInt (E : Builtins) (x : JsVal) : Except String JsNum :=
  match x with
  | .num v => .ok (JsNum.floor v)
  | v => do
    let s ← toStr E v
    pure (parseInt s)

/-- The `fibonacci` branch of the handler. -/
def fibonacciBranch (email : String) (E : Builtins) (val : JsVal) : Except String Response := do
  let n ← coerceInt E val
  if JsNum.isNaN n || JsNum.lt n (JsNum.ofNat 0) || JsNum.lt (JsNum.ofNat 1000) n then
    pure (failure email 400 "fibonacci must be a non-negative integer (max 1000)")
  else pure (success email (.arr ((fibonacci n).map .num)))

/-- The list `nums` of the `prime` branch. -/
def primeNums (E : Builtins) (xs : List JsVal) : Except String (List JsNum) := do
  let mapped ← mapThrowing (coerceInt E) xs
  pure (mapped.filter (fun n => !JsNum.isNaN n))

/-- The `prime` branch of the handler. -/
def primeBranch (email : String) (E : Builtins) (val : JsVal) : Except String Response :=
  match val with
  | .arr xs => do
    let nums ← primeNums E xs
    if nums.length > 100 then pure (failure email 400 "prime array too large (max 100)")
    else pure (success email (.arr (primesFromArray (.arr (nums.map .num)))))
  | _ => .ok (failure email 400 "prime must be an array of integers")

/-- The test `!Array.isArray(val) || val.length === 0` of the `lcm` and `hcf`
branches. -/
def notNonEmptyArray : JsVal → Bool
  | .arr xs => xs.length == 0
  | _ => true

/-- The `lcm` branch of the handler. -/
def lcmBranch (email : String) (E : Builtins) (val : JsVal) : Except String Response :=
  if notNonEmptyArray val then
    .ok (failure email 400 "lcm must be a non-empty array of integers")
  else do
    let lcmVal ← lcmOfArray E val
    match lcmVal with
    | none => pure (failure email 400 "lcm array must contain valid integers")
    | some v => pure (success email (.num v))

/-- The `hcf` branch of the handler. -/
def hcfBranch (email : String) (E : Builtins) (val : JsVal) : Except String Response :=
  if notNonEmptyArray val then
    .ok (failure email 400 "hcf must be a non-empty array of integers")
  else do
    let hcfVal ← hcfOfArray E val
    match hcfVal with
    | none => pure (failure email 400 "hcf array must contain valid integers")
    | some v => pure (success email (.num v))

/-- The `AI` branch of the handler, with its inner `try`/`catch`. The parameter
`resolver` is the outcome of `await getSingleWordAIAnswer(q)`: the returned word,
or the message of the thrown error. -/
def aiBranch (email : String) (resolver : String → Except String String) (val : JsVal) :
    Response :=
  match val with
  | .str question =>
    if trim question = "" then failure email 400 "AI must be a non-empty string (question)"
    else if jsLength question > 500 then failure email 400 "AI question too long"
    else
      match resolver (trim question) with
      | .ok word => success email (.str word)
      | .error m =>
        let msg := if m = "" then "Unknown AI error" else m
        failure email 503
          ("AI service unavailable: " ++ msg ++ ". Check OPENROUTER_API_KEY or GEMINI_API_KEY.")
  | _ => failure email 400 "AI must be a non-empty string (question)"

/-- The body of the outer `try` block of the handler. `email` is
`OFFICIAL_EMAIL`, `body` the own properties of the request body (of the empty
object when there is none), in key order. -/
def postBfhlTry (email : String) (E : Builtins) (resolver : String → Except String String)
    (body : List (String × JsVal)) : Except String Response :=
  let pres := present body
  if pres.length ≠ 1 then
    .ok (failure email 400 "Request must contain exactly one of: fibonacci, prime, lcm, hcf, AI")
  else
    let key := pres.headD ""
    if key = "fibonacci" then fibonacciBranch email E (getProp body "fibonacci")
    else if key = "prime" then primeBranch email E (getProp body "prime")
    else if key = "lcm" then lcmBranch email E (getProp body "lcm")
    else if key = "hcf" then hcfBranch email E (getProp body "hcf")
    else if key = "AI" then .ok (aiBranch email resolver (getProp body "AI"))
    else .ok (success email .undefined)

/-- The handler of `POST /bfhl`: the `try` block, and the `catch` that answers
every exception with status 500. -/
def postBfhl (email : String) (E : Builtins) (resolver : String → Except String String)
    (body : List (String × JsVal)) : Response :=
  match postBfhlTry email E resolver body with
  | .ok r => r
  | .error _ => failure email 500 "Internal server error"

/-! ## The Answer Resolver `getSingleWordAIAnswer` -/

/-- The two environment variables read by the resolver; `none` is an unset
variable. -/
structure Credentials where
  openRouterKey : Option String
  geminiKey : Option String

/-- A network request issued by the resolver. -/
inductive NetCall where
  | openRouterChat (bearer : String) (prompt : String)
  | geminiListModels (key : String)
  | geminiGenerate (key : String) (model : String) (prompt : String)
deriving DecidableEq

/-- What the OpenRouter chat-completion request does: the `fetch`, `res.text()`
or `res.json()` promise rejects, or reading the reply throws (`threw`); the
response is not `ok` (`notOk`, with its status and body text); or the response is
`ok` and `data?.choices?.[0]?.message?.content` is the given string, `none` when
it is `undefined` or `null` (`reply`). -/
inductive ChatOutcome where
  | threw (message : String)
  | notOk (status : ℕ) (text : String)
  | reply (content : Option String)

/-- What the Gemini model-listing request does: anything throws inside the
`try` block (`threw`), or `listJson.models` is read: `none` when it is not an
array, else the `name` of each entry, a falsy name being the empty string. -/
inductive ListOutcome where
  | threw
  | listed (names : Option (List String))

/-- What the Gemini generate-content query does: `generateContent` rejects or
`response.text()` throws (`threw`); `response` or `response.text` is missing
(`noResponse`); or `response.text()` is the given string (`reply`). -/
inductive GenerateOutcome where
  | threw (message : String)
  | noResponse
  | reply (text : String)

/-- The behaviour of the external providers, as a function of each request. -/
structure Network where
  openRouterChat : String → String → ChatOutcome
  geminiListModels : String → ListOutcome
  geminiGenerate : String → String → String → GenerateOutcome

/-- One run of the resolver: what it returns or throws, and the network requests
it issued, in order. -/
structure Run where
  outcome : Except String String
  calls : List NetCall

/-- The prompt sent to either provider. -/
def promptFor (question : String) : String :=
  "Answer the following question with exactly ONE word only. No explanation. Question: "
    ++ question

/-- The characters kept by `replace(/[^\w-]/g, '')`: letters, digits, `_`, `-`. -/
def isWordOrHyphen (c : Char) : Bool :=
  (decide ('a' ≤ c) && decide (c ≤ 'z')) || (decide ('A' ≤ c) && decide (c ≤ 'Z'))
    || (decide ('0' ≤ c) && decide (c ≤ '9')) || c == '_' || c == '-'

/-- The expression `text.split(/\s+/)[0]`: the characters before the first white
space. -/
def splitFirst (text : String) : String :=
  String.mk (text.data.takeWhile (fun c => !isWhiteSpace c))

/-- The last two statements of either provider path, on the trimmed reply:
`singleWord = text.split(/\s+/)[0] || text`, then
`singleWord.replace(/[^\w-]/g, '')`. -/
def singleWordOf (text : String) : String :=
  let singleWord := if splitFirst text = "" then text else splitFirst text
  String.mk (singleWord.data.filter isWordOrHyphen)

/-- The message thrown when the OpenRouter variable holds a Google API key. -/
def keyMismatchMessage : String :=
  "OPENROUTER_API_KEY appears to be a Google API key (starts with \"AIza\"). Move that key into GEMINI_API_KEY and set OPENROUTER_API_KEY to your OpenRouter key (starts with \"sk-or-\") if you have one."

/-- The message thrown when neither variable is usable. -/
def noProviderMessage : String := "Set OPENROUTER_API_KEY or GEMINI_API_KEY in .env"

/-- The OpenRouter block of the resolver, entered with the raw value of
`OPENROUTER_API_KEY`. -/
def primaryPath (net : Network) (rawKey : String) (question : String) : Run :=
  let key := trim rawKey
  if "AIza".data.isPrefixOf key.data then { outcome := .error keyMismatchMessage, calls := [] }
  else
    let prompt := promptFor question
    let calls := [NetCall.openRouterChat key prompt]
    match net.openRouterChat key prompt with
    | .threw m => { outcome := .error m, calls := calls }
    | .notOk status text =>
      { outcome := .error (if text = "" then "OpenRouter " ++ toString status else text),
        calls := calls }
    | .reply content =>
      match content with
      | none => { outcome := .error "No AI response", calls := calls }
      | some raw =>
        let text := trim raw
        if text = "" then { outcome := .error "No AI response", calls := calls }
        else { outcome := .ok (singleWordOf text), calls := calls }

/-- The list `preferred` of the Gemini block. -/
def preferred : List String :=
  ["models/gemini-1.5-flash", "models/gemini-1.5", "models/gemini-1.0", "models/text-bison-001"]

/-- The list `availableModels` after the `try` block of the Gemini block: the
truthy names, or the empty list when the listing threw or gave no array. -/
def availableModels : ListOutcome → List String
  | .threw => []
  | .listed none => []
  | .listed (some names) => names.filter (fun m => m != "")

/-- The expression
`availableModels.find((m) => preferred.includes(m)) || availableModels[0]`;
`none` is `undefined`. -/
def chooseModel (catalog : List String) : Option String :=
  match catalog.find? (fun m => preferred.contains m) with
  | some m => if m = "" then catalog.head? else some m
  | none => catalog.head?

/-- The message thrown when no model was chosen. -/
def noModelMessage (catalog : List String) : String :=
  "[GoogleGenerativeAI Error]: models/gemini-1.5-flash is not available for this key. Available models: "
    ++ (if catalog.length = 0 then "none (model list failed or key lacks permissions)"
        else ", ".intercalate catalog)

/-- The Gemini block of the resolver, entered with the raw value of
`GEMINI_API_KEY`. -/
def secondaryPath (net : Network) (rawKey : String) (question : String) : Run :=
  let key := trim rawKey
  let prompt := promptFor question
  let catalog := availableModels (net.geminiListModels key)
  let listCall := NetCall.geminiListModels key
  match chooseModel catalog with
  | none => { outcome := .error (noModelMessage catalog), calls := [listCall] }
  | some chosen =>
    if chosen = "" then { outcome := .error (noModelMessage catalog), calls := [listCall] }
    else
      let calls := [listCall, NetCall.geminiGenerate key chosen prompt]
      match net.geminiGenerate key chosen prompt with
      | .threw m => { outcome := .error m, calls := calls }
      | .noResponse => { outcome := .error "No AI response", calls := calls }
      | .reply raw => { outcome := .ok (singleWordOf (trim raw)), calls := calls }

/-- The test `key && key.trim()` on an environment variable. -/
def usable : Option String → Bool
  | none => false
  | some s => s != "" && trim s != ""

/-- The provider whose block the resolver enters. -/
inductive Provider where
  | primary
  | secondary
  | unconfigured
deriving DecidableEq

/-- The provider selected by the two `if` statements of the resolver, in order. -/
def selectedProvider (c : Credentials) : Provider :=
  if usable c.openRouterKey then .primary
  else if usable c.geminiKey then .secondary
  else .unconfigured

/-- The function `getSingleWordAIAnswer(question)` of `server.js`. -/
def getSingleWordAIAnswer (c : Credentials) (net : Network) (question : String) : Run :=
  match selectedProvider c with
  | .primary => primaryPath net (c.openRouterKey.getD "") question
  | .secondary => secondaryPath net (c.geminiKey.getD "") question
  | .unconfigured => { outcome := .error noProviderMessage, calls := [] }

/-- The handler with the resolver of `server.js` in place: the response to a
request under the given credentials and provider behaviour. -/
def handle (email : String) (E : Builtins) (c : Credentials) (net : Network)
    (body : List (String × JsVal)) : Response :=
  postBfhl email E (fun question => (getSingleWordAIAnswer c net question).outcome) body

/-! ## Reference definitions used in statements and proofs -/

/-- The sequence that the recurrence of `fibonacci` produces in double
arithmetic: `0`, `1`, and then each term is the double nearest to the sum of the
two terms before it. -/
def fibDouble : ℕ → ℚ
  | 0 => 0
  | 1 => 1
  | i + 2 => JsNum.roundToDouble (fibDouble (i + 1) + fibDouble i)

/-- The first `k` terms of `fibDouble` as JavaScript numbers. -/
def fibList (k : ℕ) : List JsNum := (List.range k).map (fun j => JsNum.fin (fibDouble j))

/-- The products that the fold of `lcm` forms over the list, entered with the
least common multiple `l` of the elements so far, are all at most `2 ^ 53`: `l`
times the absolute value of the next element, and then the same for the rest of
the list, entered with the least common multiple of the two. -/
def productsWithinFrom (l : ℕ) : List ℤ → Bool
  | [] => true
  | x :: r => decide (l * x.natAbs ≤ 2 ^ 53) && productsWithinFrom (Nat.lcm l x.natAbs) r

/-- Specification-side notion for C5 and C16: every product that the left-to-right
fold of `lcm` over the list forms, the least common multiple of the elements so
far times the absolute value of the next element, is at most `2 ^ 53`. The fold
starts from the absolute value of the first element. -/
def productsWithin : List ℤ → Bool
  | [] => true
  | x :: r => productsWithinFrom x.natAbs r

/-- Specification-side notion for C6: the value is a number whose value is a
prime integer (primality in the sense of `Nat.Prime`). -/
def isPrimeIntegerValue : JsVal → Bool
  | .num (.fin q) => decide (q.den = 1 ∧ 0 ≤ q.num ∧ Nat.Prime q.num.toNat)
  | _ => false

/-- Specification-side notion for C7: the decimal string of an integer, digits
most significant first, with a leading `-` for a negative one. -/
def decimalString (n : ℤ) : String :=
  String.mk ((if n < 0 then ['-'] else [])
    ++ (if n = 0 then ['0'] else ((Nat.digits 10 n.natAbs).reverse.map Nat.digitChar)))

/-- A sample engine for closed examples, exact on integers only: it prints the
integer part of a number in decimal and reads a string with `parseInt`. -/
def sampleBuiltins : Builtins where
  numberToString := fun x =>
    match x with
    | .nan => "NaN"
    | .fin q => decimalString ⌊q⌋
  stringToNumber := parseInt

/-- A sample resolver for closed examples: it answers every question with the
word `Paris`. -/
def sampleResolver : String → Except String String := fun _ => .ok "Paris"

/-- Specification-side notion for C1: the property counts toward the
exactly-one-key rule, that is, its key is a recognized operation name and its
value is neither `undefined` nor the empty string. -/
def countsAsOperation (kv : String × JsVal) : Bool :=
  decide (kv.1 = "fibonacci" ∨ kv.1 = "prime" ∨ kv.1 = "lcm" ∨ kv.1 = "hcf" ∨ kv.1 = "AI")
    && (match kv.2 with
      | .undefined => false
      | .str s => decide (s ≠ "")
      | _ => true)

/-- The error message of the exactly-one-key rule. -/
def exactlyOneError : String :=
  "Request must contain exactly one of: fibonacci, prime, lcm, hcf, AI"

/-- A question of 501 characters, the letter `a` followed by 500 spaces, whose
trimmed form is the single letter `a`. -/
def paddedQuestion : String := String.mk ('a' :: List.replicate 500 ' ')

mutual
/-- Specification-side notion: the value is not, and does not contain inside
arrays, an object with an own property named `toString`. -/
def convertible : JsVal → Bool
  | .arr xs => convertibleElems xs
  | .obj kvs => !(kvs.map Prod.fst).contains "toString"
  | _ => true
termination_by structural v => v
/-- Every element of the list is `convertible`. -/
def convertibleElems : List JsVal → Bool
  | [] => true
  | x :: r => convertible x && convertibleElems r
termination_by structural l => l
end

/-- What `ToString` does on a value: either it completes, or it throws the
`TypeError`. -/
def ToStrSpec (E : Builtins) (v : JsVal) : Prop :=
  (convertible v = true ∧ ∃ s, toStr E v = .ok s)
    ∨ (convertible v = false ∧ toStr E v = .error typeErrorMessage)

/-- What `join` does on a list of elements: either it completes, or it throws
the `TypeError`. -/
def JoinSpec (E : Builtins) (l : List JsVal) : Prop :=
  (convertibleElems l = true ∧ ∃ s, joinElems E l = .ok s)
    ∨ (convertibleElems l = false ∧ joinElems E l = .error typeErrorMessage)


/-- The value of a computation that completes, and `d` for one that throws. -/
def completed {α : Type} (d : α) : Except String α → α
  | .ok a => a
  | .error _ => d

/-- Specification-side notion for C14: the whitespace-delimited tokens of a
string, that is, its maximal runs of characters that are not white space. -/
def tokens (s : String) : List (List Char) :=
  (s.data.splitOnP isWhiteSpace).filter (fun t => !t.isEmpty)

/-- Specification-side notion for C14: the first whitespace-delimited token of the
trimmed reply, with every character outside `[A-Za-z0-9_-]` deleted. -/
def normalizedReply (reply : String) : String :=
  String.mk (((tokens (trim reply)).headD []).filter
    (fun c => c.isAlphanum || c == '_' || c == '-'))

/-- Specification-side notion for C11: the envelope invariant of a response under
the configured identity `email`. -/
def EnvelopeOk (email : String) (r : Response) : Prop :=
  r.official_email = email
  ∧ (r.is_success = true →
      r.status = 200 ∧ (∃ d, r.data = some d ∧ d ≠ JsVal.undefined) ∧ r.error = none)
  ∧ (r.is_success = false →
      (r.status = 400 ∨ r.status = 503 ∨ r.status = 500) ∧ (∃ e, r.error = some e)
        ∧ r.data = none)

/-- Specification-side notion for C19: the integer obtained by truncating a
number toward zero. -/
def truncateTowardZero (q : ℚ) : ℤ := if 0 ≤ q then ⌊q⌋ else ⌈q⌉

/-- Specification-side function for C19, following the words of the spec for
`filterPrimes`: map each input to an integer, truncating toward zero, and return
the results that are prime, preserving input order. -/
def filterPrimesSpec (qs : List ℚ) : List ℤ :=
  (qs.map truncateTowardZero).filter (fun z => decide (0 ≤ z ∧ Nat.Prime z.toNat))

mutual
/-- Specification-side notion for C20: the value is a JSON value (no `undefined`,
no `NaN`, also inside arrays and objects). -/
def isJson : JsVal → Bool
  | .undefined => false
  | .null => true
  | .bool _ => true
  | .num x => !JsNum.isNaN x
  | .str _ => true
  | .arr xs => isJsonElems xs
  | .obj kvs => isJsonProps kvs
termination_by structural v => v
/-- Every element of the list is a JSON value. -/
def isJsonElems : List JsVal → Bool
  | [] => true
  | x :: r => isJson x && isJsonElems r
termination_by structural l => l
/-- Every property value of the list is a JSON value. -/
def isJsonProps : List (String × JsVal) → Bool
  | [] => true
  | (_, v) :: r => isJson v && isJsonProps r
termination_by structural l => l
end

/-! ## Facts about the model of numbers -/

namespace JsNum

@[simp] theorem lt_ofNat (a b : ℕ) : lt (ofNat a) (ofNat b) = decide (a < b) := by
  simp [lt, ofNat]

@[simp] theorem le_ofNat (a b : ℕ) : le (ofNat a) (ofNat b) = decide (a ≤ b) := by
  simp [le, ofNat]

@[simp] theorem strictEq_ofNat (a b : ℕ) : strictEq (ofNat a) (ofNat b) = decide (a = b) := by
  simp [strictEq, ofNat]

theorem log2Loop_spec :
    ∀ (steps n : ℕ), n ≤ steps → 1 ≤ n →
      2 ^ log2Loop steps n ≤ n ∧ n < 2 ^ (log2Loop steps n + 1) := by
  intro steps
  induction steps with
  | zero => intro n h1 h2; omega
  | succ s ih =>
    intro n hn h1
    by_cases h2 : n < 2
    · have : n = 1 := by omega
      subst this
      simp [log2Loop]
    · have hdiv : n / 2 ≤ s := by omega
      have hpos : 1 ≤ n / 2 := by omega
      obtain ⟨ha, hb⟩ := ih (n / 2) hdiv hpos
      simp only [log2Loop, h2, if_false]
      constructor
      · rw [pow_succ]; omega
      · rw [pow_succ]; omega

theorem log2Floor_spec (n : ℕ) (h : 1 ≤ n) :
    2 ^ log2Floor n ≤ n ∧ n < 2 ^ (log2Floor n + 1) :=
  log2Loop_spec n n (le_refl n) h

theorem log2Floor_one : log2Floor 1 = 0 := by decide

/-- A natural number up to `2 ^ 53` is a double: rounding leaves it unchanged. -/
theorem roundToDouble_natCast (n : ℕ) (h : n ≤ 2 ^ 53) : roundToDouble (n : ℚ) = (n : ℚ) := by
  by_cases h0 : n = 0
  · subst h0; simp [roundToDouble]
  have hq0 : (n : ℚ) ≠ 0 := by exact_mod_cast h0
  have hneg : ¬ (n : ℚ) < 0 := by
    have : (0 : ℚ) ≤ (n : ℚ) := Nat.cast_nonneg n
    exact not_lt.mpr this
  obtain ⟨hlo, hhi⟩ := log2Floor_spec n (by omega)
  have hL : log2Floor n ≤ 53 := by
    by_contra hc
    have : 2 ^ 54 ≤ 2 ^ log2Floor n := Nat.pow_le_pow_right (by norm_num) (by omega)
    omega
  unfold roundToDouble
  simp only [if_neg hq0, if_neg hneg, Rat.num_natCast, Rat.den_natCast, Int.natAbs_ofNat,
    log2Floor_one, Nat.cast_zero, sub_zero, Int.toNat_ofNat, one_mul, Int.toNat_neg_nat, pow_zero,
    mul_one, hlo, if_true]
  generalize log2Floor n = L at hlo hhi hL ⊢
  rcases Nat.lt_or_ge L 53 with hlt | hge
  · have e1 : ((L : ℤ) - 52).toNat = 0 := by omega
    have e2 : (52 - (L : ℤ)).toNat = 52 - L := by omega
    simp only [e1, e2, pow_zero, Nat.mod_one, mul_zero, Nat.div_one, mul_one, Nat.lt_one_iff,
      if_true]
    have hp : ((2 ^ (52 - L) : ℕ) : ℚ) ≠ 0 := by positivity
    rw [Nat.cast_mul]
    field_simp
  · have hL53 : L = 53 := by omega
    subst hL53
    have hn : n = 2 ^ 53 := by omega
    subst hn
    have e1 : (((53 : ℕ) : ℤ) - 52).toNat = 1 := by decide
    have e2 : (52 - ((53 : ℕ) : ℤ)).toNat = 0 := by decide
    simp only [e1, e2]
    norm_num

/-- From `2 ^ 53` on, the double nearest to a natural number `n` is a natural
number `m * 2 ^ k` with `k ≥ 1` and `2 ^ 52 ≤ m ≤ 2 ^ 53`, where
`2 ^ (52 + k) ≤ n < 2 ^ (53 + k)`. -/
theorem roundToDouble_natCast_large (n : ℕ) (h : 2 ^ 53 ≤ n) :
    ∃ m k : ℕ, 1 ≤ k ∧ 2 ^ 52 ≤ m ∧ m ≤ 2 ^ 53 ∧ 2 ^ (52 + k) ≤ n
      ∧ roundToDouble (n : ℚ) = ((m * 2 ^ k : ℕ) : ℚ) := by
  have h0 : n ≠ 0 := by
    intro hn
    rw [hn] at h
    exact absurd h (by norm_num)
  have hq0 : (n : ℚ) ≠ 0 := by exact_mod_cast h0
  have hneg : ¬ (n : ℚ) < 0 := not_lt.mpr (Nat.cast_nonneg n)
  obtain ⟨hlo, hhi⟩ := log2Floor_spec n (by omega)
  have hL : 53 ≤ log2Floor n := by
    by_contra hc
    have : 2 ^ (log2Floor n + 1) ≤ 2 ^ 53 := Nat.pow_le_pow_right (by norm_num) (by omega)
    omega
  unfold roundToDouble
  simp only [if_neg hq0, if_neg hneg, Rat.num_natCast, Rat.den_natCast, Int.natAbs_ofNat,
    log2Floor_one, Nat.cast_zero, sub_zero, Int.toNat_ofNat, one_mul, Int.toNat_neg_nat, pow_zero,
    mul_one, hlo, if_true]
  generalize log2Floor n = L at hlo hhi hL ⊢
  have e1 : ((L : ℤ) - 52).toNat = L - 52 := by omega
  have e2 : (52 - (L : ℤ)).toNat = 0 := by omega
  simp only [e1, e2, pow_zero, mul_one, Nat.cast_one, div_one]
  have hf : 2 ^ 52 ≤ n / 2 ^ (L - 52) := by
    have h1 : 2 ^ L / 2 ^ (L - 52) ≤ n / 2 ^ (L - 52) := Nat.div_le_div_right hlo
    have h2 : 2 ^ L / 2 ^ (L - 52) = 2 ^ 52 := by
      rw [Nat.pow_div (by omega) (by norm_num)]
      congr 1
      omega
    omega
  have hf2 : n / 2 ^ (L - 52) < 2 ^ 53 := by
    rw [Nat.div_lt_iff_lt_mul (by positivity), ← pow_add]
    have e : 53 + (L - 52) = L + 1 := by omega
    rw [e]
    exact hhi
  have hk : 2 ^ (52 + (L - 52)) ≤ n := by
    have e : 52 + (L - 52) = L := by omega
    rw [e]
    exact hlo
  split_ifs
  · exact ⟨_, L - 52, by omega, hf, by omega, hk, rfl⟩
  · exact ⟨_, L - 52, by omega, by omega, by omega, hk, rfl⟩
  · exact ⟨_, L - 52, by omega, hf, by omega, hk, rfl⟩
  · exact ⟨_, L - 52, by omega, by omega, by omega, hk, rfl⟩

theorem roundToDouble_natCast_ge (n : ℕ) (h : 2 ^ 53 ≤ n) :
    ((2 ^ 53 : ℕ) : ℚ) ≤ roundToDouble (n : ℚ) := by
  obtain ⟨m, k, hk, hm, _, _, e⟩ := roundToDouble_natCast_large n h
  rw [e]
  have h1 : 2 ^ 52 * 2 ^ 1 ≤ m * 2 ^ k :=
    Nat.mul_le_mul hm (Nat.pow_le_pow_right (by norm_num) hk)
  exact_mod_cast h1

theorem even_of_roundToDouble_eq (n : ℕ) (h : 2 ^ 53 ≤ n) (hd : roundToDouble (n : ℚ) = (n : ℚ)) :
    n % 2 = 0 := by
  obtain ⟨m, k, hk, _, _, _, e⟩ := roundToDouble_natCast_large n h
  rw [hd] at e
  have e2 : n = m * 2 ^ k := by exact_mod_cast e
  obtain ⟨j, rfl⟩ : ∃ j, k = j + 1 := ⟨k - 1, by omega⟩
  rw [e2, pow_succ, ← mul_assoc]
  exact Nat.mul_mod_left _ 2

/-- Rounding a natural number does not cross a power of two: below `2 ^ K` the
nearest double is a natural number that is at most `2 ^ K`. -/
theorem roundToDouble_natCast_le_pow (n K : ℕ) (h : n < 2 ^ K) :
    ∃ m : ℕ, roundToDouble (n : ℚ) = (m : ℚ) ∧ m ≤ 2 ^ K := by
  rcases Nat.lt_or_ge n (2 ^ 53) with hs | hl
  · exact ⟨n, roundToDouble_natCast n (by omega), by omega⟩
  · obtain ⟨m, k, _, _, hm, hk, e⟩ := roundToDouble_natCast_large n hl
    refine ⟨m * 2 ^ k, e, ?_⟩
    have hlt : 52 + k < K := by
      by_contra hc
      have : 2 ^ K ≤ 2 ^ (52 + k) := Nat.pow_le_pow_right (by norm_num) (by omega)
      omega
    have h1 : m * 2 ^ k ≤ 2 ^ 53 * 2 ^ k := Nat.mul_le_mul_right _ hm
    have h2 : 2 ^ 53 * 2 ^ k = 2 ^ (53 + k) := by rw [← pow_add]
    have h3 : 2 ^ (53 + k) ≤ 2 ^ K := Nat.pow_le_pow_right (by norm_num) (by omega)
    omega

/-- The operator `+` is exact on natural numbers whose sum is at most `2 ^ 53`. -/
theorem add_ofNat (a b : ℕ) (h : a + b ≤ 2 ^ 53) : add (ofNat a) (ofNat b) = ofNat (a + b) := by
  simp only [add, ofNat]
  rw [← Nat.cast_add, roundToDouble_natCast _ h]

/-- The operator `*` is exact on natural numbers whose product is at most
`2 ^ 53`. -/
theorem mul_ofNat (a b : ℕ) (h : a * b ≤ 2 ^ 53) : mul (ofNat a) (ofNat b) = ofNat (a * b) := by
  simp only [mul, ofNat]
  rw [← Nat.cast_mul, roundToDouble_natCast _ h]

@[simp] theorem budget_ofNat (a : ℕ) : budget (ofNat a) = a + 1 := by
  simp [budget, ofNat]

theorem ofNat_injective {a b : ℕ} (h : ofNat a = ofNat b) : a = b := by
  simpa [ofNat] using h

theorem ofInt_natCast (a : ℕ) : ofInt (a : ℤ) = ofNat a := by
  simp [ofInt, ofNat]

theorem truncQ_natCast_div (a b : ℕ) : truncQ ((a : ℚ) / (b : ℚ)) = ((a / b : ℕ) : ℤ) := by
  have h : (0 : ℚ) ≤ (a : ℚ) / (b : ℚ) := by positivity
  rw [truncQ, if_pos h]
  have := Rat.floor_intCast_div_natCast (a : ℤ) b
  simpa using this

/-- On natural operands with a non-zero divisor, `%` is the remainder of
Euclidean division. -/
theorem mod_ofNat (a b : ℕ) (hb : b ≠ 0) : mod (ofNat a) (ofNat b) = ofNat (a % b) := by
  have hb0 : (b : ℚ) ≠ 0 := by exact_mod_cast hb
  simp only [mod, ofNat, if_neg hb0, truncQ_natCast_div]
  congr 1
  have h := Nat.mod_add_div a b
  have h2 : ((a % b : ℕ) : ℚ) + (b : ℚ) * ((a / b : ℕ) : ℚ) = (a : ℚ) := by exact_mod_cast h
  rw [Int.cast_natCast]
  linarith

end JsNum

/-! ## C2: `fibonacci` -/

theorem fibList_length (k : ℕ) : (fibList k).length = k := by
  simp [fibList]

theorem fibList_getD (k j : ℕ) (h : j < k) :
    (fibList k).getD j JsNum.nan = JsNum.fin (fibDouble j) := by
  simp [fibList, List.getD_eq_getElem?_getD, List.getElem?_map, List.getElem?_range h]

theorem fibList_getElem? (k j : ℕ) (h : j < k) :
    (fibList k)[j]? = some (JsNum.fin (fibDouble j)) := by
  simp [fibList, List.getElem?_map, List.getElem?_range h]

theorem fibList_succ (k : ℕ) : fibList (k + 1) = fibList k ++ [JsNum.fin (fibDouble k)] := by
  simp [fibList, List.range_succ]

theorem fibDouble_add_two (k : ℕ) :
    fibDouble (k + 2) = JsNum.roundToDouble (fibDouble (k + 1) + fibDouble k) := rfl

/-- The loop of `fibonacci`, entered at counter `i` with the first `i` terms of
the rounded recurrence, leaves the first `max i N` of them; `steps` only has to
cover the distance to `N`. -/
theorem fibonacciLoop_spec (N : ℕ) :
    ∀ (steps i : ℕ), 2 ≤ i → N ≤ i + steps →
      fibonacciLoop (JsNum.ofNat N) steps i (fibList i) = fibList (max i N) := by
  intro steps
  induction steps with
  | zero =>
    intro i _ h
    have : max i N = i := max_eq_left (by omega)
    simp [fibonacciLoop, this]
  | succ s ih =>
    intro i hi h
    by_cases hlt : i < N
    · have hstep : fibList i ++ [JsNum.add ((fibList i).getD (i - 1) JsNum.nan)
          ((fibList i).getD (i - 2) JsNum.nan)] = fibList (i + 1) := by
        rw [fibList_getD i (i - 1) (by omega), fibList_getD i (i - 2) (by omega), fibList_succ]
        obtain ⟨k, rfl⟩ : ∃ k, i = k + 2 := ⟨i - 2, by omega⟩
        rfl
      have hmax : max (i + 1) N = max i N := by
        rw [max_eq_right (by omega), max_eq_right (by omega)]
      simp only [fibonacciLoop, JsNum.lt_ofNat, hlt, decide_True, if_true, hstep]
      rw [ih (i + 1) (by omega) (by omega), hmax]
    · have : max i N = i := max_eq_left (by omega)
      simp [fibonacciLoop, hlt, this]

/-- On a natural argument, `fibonacci` returns the first `N` terms of the rounded
recurrence. -/
theorem fibonacci_ofNat (N : ℕ) : fibonacci (JsNum.ofNat N) = fibList N := by
  unfold fibonacci
  rcases Nat.lt_or_ge N 2 with h | h
  · interval_cases N
    · simp [fibList]
    · have e : fibList 1 = [JsNum.ofNat 0] := by
        simp [fibList, List.range_succ, fibDouble, JsNum.ofNat]
      rw [e]
      simp
  · have h0 : ¬ N ≤ 0 := by omega
    have h1 : ¬ N = 1 := by omega
    simp only [JsNum.le_ofNat, JsNum.strictEq_ofNat, h0, h1, decide_False, Bool.false_eq_true,
      if_false, JsNum.budget_ofNat]
    have h2 : [JsNum.ofNat 0, JsNum.ofNat 1] = fibList 2 := by
      simp [fibList, List.range_succ, fibDouble, JsNum.ofNat]
    rw [h2, fibonacciLoop_spec N (N + 1) 2 (le_refl 2) (by omega), max_eq_right h]

theorem fib_le_of_le_78 (i : ℕ) (h : i ≤ 78) : Nat.fib i ≤ 2 ^ 53 := by
  have h1 : Nat.fib i ≤ Nat.fib 78 := Nat.fib_mono h
  have h2 : Nat.fib 78 ≤ 2 ^ 53 := by norm_num
  exact le_trans h1 h2

/-- Up to index `78` the Fibonacci numbers are below `2 ^ 53`, so the rounded
recurrence produces them exactly. -/
theorem fibDouble_eq_fib :
    ∀ i : ℕ, i + 1 ≤ 78 →
      fibDouble i = (Nat.fib i : ℚ) ∧ fibDouble (i + 1) = (Nat.fib (i + 1) : ℚ) := by
  intro i
  induction i with
  | zero => intro _; exact ⟨by simp [fibDouble], by simp [fibDouble]⟩
  | succ k ih =>
    intro h
    obtain ⟨e0, e1⟩ := ih (by omega)
    refine ⟨e1, ?_⟩
    rw [fibDouble_add_two, e0, e1, ← Nat.cast_add, Nat.add_comm, ← Nat.fib_add_two]
    exact JsNum.roundToDouble_natCast _ (fib_le_of_le_78 (k + 2) (by omega))

theorem fibDouble_eq_fib_of_le (i : ℕ) (h : i ≤ 78) : fibDouble i = (Nat.fib i : ℚ) := by
  rcases Nat.eq_zero_or_pos i with rfl | hpos
  · simp [fibDouble]
  · obtain ⟨k, rfl⟩ : ∃ k, i = k + 1 := ⟨i - 1, by omega⟩
    exact (fibDouble_eq_fib k h).2

/-- Every term of the rounded recurrence is a natural number, and term `i` is at
most `2 ^ i`. -/
theorem fibDouble_bound :
    ∀ i : ℕ, ∃ m m2 : ℕ, fibDouble i = (m : ℚ) ∧ fibDouble (i + 1) = (m2 : ℚ)
      ∧ m ≤ 2 ^ i ∧ m2 ≤ 2 ^ (i + 1) := by
  intro i
  induction i with
  | zero => exact ⟨0, 1, by simp [fibDouble], by simp [fibDouble], by norm_num, by norm_num⟩
  | succ k ih =>
    obtain ⟨m, m2, e0, e1, hm, hm2⟩ := ih
    have hlt : m2 + m < 2 ^ (k + 1 + 1) := by
      have : 2 ^ (k + 1 + 1) = 2 * (2 * 2 ^ k) := by rw [pow_succ, pow_succ]; ring
      have h2 : 2 ^ (k + 1) = 2 * 2 ^ k := by rw [pow_succ]; ring
      have hpos : 0 < 2 ^ k := by positivity
      omega
    obtain ⟨m3, e3, hm3⟩ := JsNum.roundToDouble_natCast_le_pow (m2 + m) (k + 1 + 1) hlt
    refine ⟨m2, m3, e1, ?_, hm2, hm3⟩
    rw [fibDouble_add_two, e0, e1, ← Nat.cast_add]
    exact e3

/-- The first `1000` terms of the rounded recurrence are below `2 ^ 1024`, the
bound of the finite doubles. -/
theorem fibDouble_lt (i : ℕ) (h : i < 1000) : 0 ≤ fibDouble i ∧ fibDouble i < 2 ^ 1024 := by
  obtain ⟨m, _, e0, _, hm, _⟩ := fibDouble_bound i
  rw [e0]
  refine ⟨Nat.cast_nonneg m, ?_⟩
  have h1 : (2 : ℚ) ^ i < 2 ^ 1024 := pow_lt_pow_right₀ (by norm_num) (by omega)
  have h2 : (m : ℚ) ≤ 2 ^ i := by exact_mod_cast hm
  exact lt_of_le_of_lt h2 h1

theorem fibDouble_77 : fibDouble 77 = 5527939700884757 := by
  rw [fibDouble_eq_fib_of_le 77 (by norm_num)]
  norm_num

theorem fibDouble_78 : fibDouble 78 = 8944394323791464 := by
  rw [fibDouble_eq_fib_of_le 78 (by norm_num)]
  norm_num

theorem roundToDouble_fib_79 :
    JsNum.roundToDouble (8944394323791464 + 5527939700884757) = 14472334024676220 := by
  decide!

theorem fibDouble_79 : fibDouble 79 = 14472334024676220 := by
  rw [fibDouble_add_two 77, fibDouble_78, fibDouble_77, roundToDouble_fib_79]

/-- Counterexample to C2 as stated, at `n = 80` and `i = 79`: terms `77` and `78`
of `fibonacci(80)` are the Fibonacci numbers `5527939700884757` and
`8944394323791464`, whose sum is `14472334024676221`; term `79` is the double
nearest to that sum, `14472334024676220`, and not the sum. -/
theorem fibonacci_exact_sum_counterexample :
    (fibonacci (JsNum.ofInt 80))[77]? = some (JsNum.fin 5527939700884757)
    ∧ (fibonacci (JsNum.ofInt 80))[78]? = some (JsNum.fin 8944394323791464)
    ∧ (fibonacci (JsNum.ofInt 80))[79]? = some (JsNum.fin 14472334024676220)
    ∧ ¬ ∃ a b : ℚ, (fibonacci (JsNum.ofInt 80))[77]? = some (JsNum.fin a)
        ∧ (fibonacci (JsNum.ofInt 80))[78]? = some (JsNum.fin b)
        ∧ (fibonacci (JsNum.ofInt 80))[79]? = some (JsNum.fin (b + a)) := by
  have e : JsNum.ofInt 80 = JsNum.ofNat 80 := JsNum.ofInt_natCast 80
  rw [e, fibonacci_ofNat, fibList_getElem? 80 77 (by norm_num),
    fibList_getElem? 80 78 (by norm_num), fibList_getElem? 80 79 (by norm_num), fibDouble_77,
    fibDouble_78, fibDouble_79]
  refine ⟨rfl, rfl, rfl, ?_⟩
  rintro ⟨a, b, ha, hb, hab⟩
  have ha2 : (5527939700884757 : ℚ) = a := by
    have := Option.some.inj ha
    exact JsNum.fin.inj this
  have hb2 : (8944394323791464 : ℚ) = b := by
    have := Option.some.inj hb
    exact JsNum.fin.inj this
  have hab2 : (14472334024676220 : ℚ) = b + a := by
    have := Option.some.inj hab
    exact JsNum.fin.inj this
  rw [← ha2, ← hb2] at hab2
  norm_num at hab2

/-- Claim C2, amended: for every integer `n` with `0 ≤ n ≤ 1000`, `fibonacci(n)`
has length exactly `n`; `fibonacci(0) = []` and `fibonacci(1) = [0]`; when `n ≥ 2`
its first two terms are `0` and `1`; for every index `i` with `2 ≤ i < n`, term
`i` is the double nearest to the sum of term `i - 1` and term `i - 2`, and for
`i ≤ 78` that sum is itself a double, so that term `i` is the sum; every term of
index `i ≤ 78` is the Fibonacci number `F(i)`; and every term is a non-negative
number below `2 ^ 1024`, so that no sum overflows. -/
theorem fibonacci_length_and_recurrence (n : ℤ) (h0 : 0 ≤ n) (h1 : n ≤ 1000) :
    ((fibonacci (JsNum.ofInt n)).length : ℤ) = n
    ∧ fibonacci (JsNum.ofInt 0) = []
    ∧ fibonacci (JsNum.ofInt 1) = [JsNum.ofInt 0]
    ∧ (2 ≤ n → (fibonacci (JsNum.ofInt n))[0]? = some (JsNum.ofInt 0)
        ∧ (fibonacci (JsNum.ofInt n))[1]? = some (JsNum.ofInt 1))
    ∧ (∀ i : ℕ, 2 ≤ i → (i : ℤ) < n →
        ∃ a b : ℚ, (fibonacci (JsNum.ofInt n))[i - 2]? = some (JsNum.fin a)
          ∧ (fibonacci (JsNum.ofInt n))[i - 1]? = some (JsNum.fin b)
          ∧ (fibonacci (JsNum.ofInt n))[i]? = some (JsNum.fin (JsNum.roundToDouble (b + a)))
          ∧ (i ≤ 78 → JsNum.roundToDouble (b + a) = b + a))
    ∧ (∀ i : ℕ, (i : ℤ) < n → i ≤ 78 →
        (fibonacci (JsNum.ofInt n))[i]? = some (JsNum.ofNat (Nat.fib i)))
    ∧ ∀ i : ℕ, (i : ℤ) < n →
        ∃ q : ℚ, (fibonacci (JsNum.ofInt n))[i]? = some (JsNum.fin q) ∧ 0 ≤ q ∧ q < 2 ^ 1024 := by
  obtain ⟨N, rfl⟩ := Int.eq_ofNat_of_zero_le h0
  have hN1000 : N ≤ 1000 := by exact_mod_cast h1
  have e0 : JsNum.ofInt 0 = JsNum.ofNat 0 := by simp [JsNum.ofInt, JsNum.ofNat]
  have e1 : JsNum.ofInt 1 = JsNum.ofNat 1 := by simp [JsNum.ofInt, JsNum.ofNat]
  rw [JsNum.ofInt_natCast, e0, e1, fibonacci_ofNat, fibonacci_ofNat, fibonacci_ofNat]
  refine ⟨by simp [fibList_length], by simp [fibList],
    by simp [fibList, List.range_succ, fibDouble, JsNum.ofNat], ?_, ?_, ?_, ?_⟩
  · intro h2
    have h2N : 2 ≤ N := by exact_mod_cast h2
    rw [fibList_getElem? N 0 (by omega), fibList_getElem? N 1 (by omega)]
    simp [fibDouble, JsNum.ofNat]
  · intro i hi hiN
    have hiN2 : i < N := by exact_mod_cast hiN
    refine ⟨fibDouble (i - 2), fibDouble (i - 1), ?_, ?_, ?_, ?_⟩
    · rw [fibList_getElem? N (i - 2) (by omega)]
    · rw [fibList_getElem? N (i - 1) (by omega)]
    · rw [fibList_getElem? N i hiN2]
      obtain ⟨k, rfl⟩ : ∃ k, i = k + 2 := ⟨i - 2, by omega⟩
      rfl
    · intro h78
      obtain ⟨k, rfl⟩ : ∃ k, i = k + 2 := ⟨i - 2, by omega⟩
      have ea : fibDouble (k + 2 - 2) = (Nat.fib k : ℚ) := fibDouble_eq_fib_of_le k (by omega)
      have eb : fibDouble (k + 2 - 1) = (Nat.fib (k + 1) : ℚ) :=
        fibDouble_eq_fib_of_le (k + 1) (by omega)
      rw [ea, eb, ← Nat.cast_add, Nat.add_comm, ← Nat.fib_add_two]
      exact JsNum.roundToDouble_natCast _ (fib_le_of_le_78 (k + 2) h78)
  · intro i hiN h78
    have hiN2 : i < N := by exact_mod_cast hiN
    rw [fibList_getElem? N i hiN2, fibDouble_eq_fib_of_le i h78]
    rfl
  · intro i hiN
    have hiN2 : i < N := by exact_mod_cast hiN
    exact ⟨fibDouble i, fibList_getElem? N i hiN2, fibDouble_lt i (by omega)⟩

/-- Witness of C2 at `n = 80`. -/
theorem fibonacci_length_and_recurrence_witness :
    ((fibonacci (JsNum.ofInt 80)).length : ℤ) = 80
    ∧ fibonacci (JsNum.ofInt 0) = []
    ∧ fibonacci (JsNum.ofInt 1) = [JsNum.ofInt 0]
    ∧ ((2 : ℤ) ≤ 80 → (fibonacci (JsNum.ofInt 80))[0]? = some (JsNum.ofInt 0)
        ∧ (fibonacci (JsNum.ofInt 80))[1]? = some (JsNum.ofInt 1))
    ∧ (∀ i : ℕ, 2 ≤ i → (i : ℤ) < 80 →
        ∃ a b : ℚ, (fibonacci (JsNum.ofInt 80))[i - 2]? = some (JsNum.fin a)
          ∧ (fibonacci (JsNum.ofInt 80))[i - 1]? = some (JsNum.fin b)
          ∧ (fibonacci (JsNum.ofInt 80))[i]? = some (JsNum.fin (JsNum.roundToDouble (b + a)))
          ∧ (i ≤ 78 → JsNum.roundToDouble (b + a) = b + a))
    ∧ (∀ i : ℕ, (i : ℤ) < 80 → i ≤ 78 →
        (fibonacci (JsNum.ofInt 80))[i]? = some (JsNum.ofNat (Nat.fib i)))
    ∧ ∀ i : ℕ, (i : ℤ) < 80 →
        ∃ q : ℚ, (fibonacci (JsNum.ofInt 80))[i]? = some (JsNum.fin q) ∧ 0 ≤ q ∧ q < 2 ^ 1024 :=
  fibonacci_length_and_recurrence 80 (by decide) (by decide)

/-! ## C3: `isPrime` -/

/-- The trial-division loop of `isPrime` on a natural number `N`, entered at
counter `i`: it answers `true` exactly when no `d ≥ i` with `d * d ≤ N` divides
`N`; `steps` only has to cover the distance to `N`. -/
theorem isPrimeLoop_spec (N : ℕ) :
    ∀ (steps i : ℕ), 2 ≤ i → N < i + steps →
      (isPrimeLoop (JsNum.ofNat N) steps i = true ↔ ∀ d : ℕ, i ≤ d → d * d ≤ N → ¬ d ∣ N) := by
  intro steps
  induction steps with
  | zero =>
    intro i hi h
    simp only [isPrimeLoop, true_iff]
    intro d hd hdd
    have : d ≤ d * d := Nat.le_mul_self d
    omega
  | succ s ih =>
    intro i hi h
    by_cases hsq : i * i ≤ N
    · by_cases hdiv : N % i = 0
      · have hmod : JsNum.mod (JsNum.ofNat N) (JsNum.ofNat i) = JsNum.ofNat (N % i) :=
          JsNum.mod_ofNat N i (by omega)
        simp only [isPrimeLoop, JsNum.le_ofNat, hsq, decide_True, if_true,
          hmod, JsNum.strictEq_ofNat, hdiv, Bool.false_eq_true, false_iff]
        intro hall
        exact hall i (le_refl i) hsq (Nat.dvd_of_mod_eq_zero hdiv)
      · have hmod : JsNum.mod (JsNum.ofNat N) (JsNum.ofNat i) = JsNum.ofNat (N % i) :=
          JsNum.mod_ofNat N i (by omega)
        simp only [isPrimeLoop, JsNum.le_ofNat, hsq, decide_True, if_true,
          hmod, JsNum.strictEq_ofNat, hdiv, decide_False, Bool.false_eq_true, if_false]
        rw [ih (i + 1) (by omega) (by omega)]
        constructor
        · intro hall d hd hdd
          rcases Nat.eq_or_lt_of_le hd with rfl | hlt
          · intro hdvd
            exact hdiv (Nat.mod_eq_zero_of_dvd hdvd)
          · exact hall d hlt hdd
        · intro hall d hd hdd
          exact hall d (by omega) hdd
    · simp only [isPrimeLoop, JsNum.le_ofNat, hsq, decide_False,
        Bool.false_eq_true, if_false, true_iff]
      intro d hd hdd
      have : i * i ≤ d * d := Nat.mul_le_mul hd hd
      omega

/-- The comparison `i * i <= num` of the loop of `isPrime`, on a natural number
`N` below `2 ^ 53`: the rounded product gives the same answer as the exact
square, because a square above `2 ^ 53` is rounded to a double that is still at
least `2 ^ 53`. -/
theorem le_mul_self_rounded (N i : ℕ) (hN : N < 2 ^ 53) :
    JsNum.le (JsNum.mul (JsNum.ofNat i) (JsNum.ofNat i)) (JsNum.ofNat N)
      = JsNum.le (JsNum.ofNat (i * i)) (JsNum.ofNat N) := by
  by_cases h : i * i ≤ 2 ^ 53
  · rw [JsNum.mul_ofNat i i h]
  · have hge := JsNum.roundToDouble_natCast_ge (i * i) (by omega)
    have hlt : ((N : ℕ) : ℚ) < ((2 ^ 53 : ℕ) : ℚ) := by exact_mod_cast hN
    have h1 : ¬ JsNum.roundToDouble ((i : ℚ) * (i : ℚ)) ≤ (N : ℚ) := by
      rw [← Nat.cast_mul]
      exact not_le.mpr (lt_of_lt_of_le hlt hge)
    have h2 : ¬ i * i ≤ N := by omega
    simp only [JsNum.mul, JsNum.ofNat, JsNum.le, h1, decide_False]
    symm
    simp only [decide_eq_false_iff_not, not_le]
    exact_mod_cast not_le.mp h2

/-- On a natural number that is a double, the loop of `isPrime` with the rounded
product and the loop with the exact square give the same answer, for every
budget of steps. -/
theorem isPrimeLoop_eq_rounded (N : ℕ) (hd : JsNum.roundToDouble (N : ℚ) = (N : ℚ)) :
    ∀ steps : ℕ, isPrimeLoopRounded (JsNum.ofNat N) steps 2 = isPrimeLoop (JsNum.ofNat N) steps 2 := by
  rcases Nat.lt_or_ge N (2 ^ 53) with hN | hN
  · have hall : ∀ steps i : ℕ,
        isPrimeLoopRounded (JsNum.ofNat N) steps i = isPrimeLoop (JsNum.ofNat N) steps i := by
      intro steps
      induction steps with
      | zero => intro i; rfl
      | succ s ih =>
        intro i
        simp only [isPrimeLoopRounded, isPrimeLoop, le_mul_self_rounded N i hN, ih (i + 1)]
    intro steps
    exact hall steps 2
  · have heven : N % 2 = 0 := JsNum.even_of_roundToDouble_eq N hN hd
    have h4 : 2 * 2 ≤ N := by omega
    have hmod : JsNum.mod (JsNum.ofNat N) (JsNum.ofNat 2) = JsNum.ofNat 0 := by
      rw [JsNum.mod_ofNat N 2 (by norm_num), heven]
    intro steps
    cases steps with
    | zero => rfl
    | succ s =>
      simp only [isPrimeLoopRounded, isPrimeLoop, JsNum.mul_ofNat 2 2 (by norm_num),
        JsNum.le_ofNat, h4, decide_True, if_true, hmod, JsNum.strictEq_ofNat]

/-- On every number that is a double, and on `NaN`, `isPrime` is the function
with the rounded product in its loop. -/
theorem isPrime_eq_rounded (q : ℚ) (hd : JsNum.roundToDouble q = q) :
    isPrimeRounded (JsNum.fin q) = isPrime (JsNum.fin q)
    ∧ isPrimeRounded JsNum.nan = isPrime JsNum.nan := by
  refine ⟨?_, rfl⟩
  unfold isPrimeRounded isPrime
  by_cases hguard : (JsNum.lt (JsNum.fin q) (JsNum.ofNat 2) || !JsNum.isInteger (JsNum.fin q)) = true
  · rw [if_pos hguard, if_pos hguard]
  · rw [if_neg hguard, if_neg hguard]
    simp only [Bool.not_eq_true, Bool.or_eq_false_iff, Bool.not_eq_false'] at hguard
    obtain ⟨hlt, hint⟩ := hguard
    have hden : q.den = 1 := by
      simp only [JsNum.isInteger, decide_eq_true_eq] at hint
      rw [← hint]
      exact Rat.den_intCast _
    have hq : ((q.num : ℤ) : ℚ) = q := (Rat.den_eq_one_iff q).mp hden
    have h2 : (2 : ℚ) ≤ q := by
      simpa [JsNum.lt, JsNum.ofNat] using hlt
    have hnum : 0 ≤ q.num := by
      have : (0 : ℚ) ≤ (q.num : ℚ) := by rw [hq]; linarith
      exact_mod_cast this
    obtain ⟨N, hN⟩ := Int.eq_ofNat_of_zero_le hnum
    have hqN : q = (N : ℚ) := by
      rw [← hq, hN]; simp
    have hfin : JsNum.fin q = JsNum.ofNat N := by
      rw [hqN]; rfl
    rw [hfin]
    exact isPrimeLoop_eq_rounded N (by rw [← hqN]; exact hd) _


theorem isInteger_ofNat (N : ℕ) : JsNum.isInteger (JsNum.ofNat N) = true := by
  simp [JsNum.isInteger, JsNum.ofNat]

theorem isInteger_ofInt (x : ℤ) : JsNum.isInteger (JsNum.ofInt x) = true := by
  simp [JsNum.isInteger, JsNum.ofInt]

/-- On a natural number, `isPrime` is trial division up to the square root. -/
theorem isPrime_ofNat_iff (N : ℕ) :
    isPrime (JsNum.ofNat N) = true ↔
      2 ≤ N ∧ ∀ d : ℕ, 2 ≤ d → d ≤ Nat.sqrt N → ¬ d ∣ N := by
  unfold isPrime
  by_cases h2 : N < 2
  · simp [h2]
  · have hN : 2 ≤ N := by omega
    simp only [JsNum.lt_ofNat, h2, decide_False, isInteger_ofNat, Bool.not_true, Bool.or_self,
      Bool.false_eq_true, if_false, JsNum.budget_ofNat]
    rw [isPrimeLoop_spec N (N + 1) 2 (le_refl 2) (by omega)]
    constructor
    · intro hall
      refine ⟨hN, fun d hd hsq => hall d hd ?_⟩
      exact Nat.le_sqrt.mp hsq
    · rintro ⟨_, hall⟩ d hd hdd
      exact hall d hd (Nat.le_sqrt.mpr hdd)

theorem isPrime_ofNat_iff_prime (N : ℕ) : isPrime (JsNum.ofNat N) = true ↔ Nat.Prime N := by
  rw [isPrime_ofNat_iff, Nat.prime_def_le_sqrt]

theorem isPrime_ofInt_of_lt_two (x : ℤ) (h : x < 2) : isPrime (JsNum.ofInt x) = false := by
  have : ((x : ℚ) < 2) := by exact_mod_cast h
  simp [isPrime, JsNum.ofInt, JsNum.ofNat, JsNum.lt, this]

/-- Claim C3: for every integer `x`, `isPrime(x)` is `true` if and only if `x ≥ 2`
and no `d` with `2 ≤ d ≤ ⌊√x⌋` divides `x`; equivalently, if and only if `x` is a
prime number; and for every `x < 2` (negative integers, `0` and `1`) it returns
`false`. -/
theorem isPrime_iff (x : ℤ) :
    (isPrime (JsNum.ofInt x) = true ↔
      2 ≤ x ∧ ∀ d : ℕ, 2 ≤ d → d ≤ Nat.sqrt x.toNat → ¬ (d : ℤ) ∣ x)
    ∧ (isPrime (JsNum.ofInt x) = true ↔ 0 ≤ x ∧ Nat.Prime x.toNat)
    ∧ (x < 2 → isPrime (JsNum.ofInt x) = false) := by
  refine ⟨?_, ?_, isPrime_ofInt_of_lt_two x⟩
  · rcases lt_or_le x 0 with hneg | hpos
    · rw [isPrime_ofInt_of_lt_two x (by omega)]
      simp
      omega
    · obtain ⟨N, rfl⟩ := Int.eq_ofNat_of_zero_le hpos
      rw [JsNum.ofInt_natCast, isPrime_ofNat_iff]
      simp only [Int.toNat_ofNat, Int.natCast_dvd_natCast]
      constructor
      · rintro ⟨h, hall⟩
        exact ⟨by exact_mod_cast h, hall⟩
      · rintro ⟨h, hall⟩
        exact ⟨by exact_mod_cast h, hall⟩
  · rcases lt_or_le x 0 with hneg | hpos
    · rw [isPrime_ofInt_of_lt_two x (by omega)]
      simp
      omega
    · obtain ⟨N, rfl⟩ := Int.eq_ofNat_of_zero_le hpos
      rw [JsNum.ofInt_natCast, isPrime_ofNat_iff_prime]
      simp

/-! ## Exceptions and conversions -/

@[simp] theorem ok_bind {α β : Type} (a : α) (f : α → Except String β) :
    (Except.ok a >>= f) = f a := rfl

@[simp] theorem error_bind {α β : Type} (e : String) (f : α → Except String β) :
    ((Except.error e : Except String α) >>= f) = Except.error e := rfl

@[simp] theorem pure_eq_ok {α : Type} (a : α) : (pure a : Except String α) = Except.ok a := rfl

theorem joinSpec_cons (E : Builtins) (x : JsVal) (r : List JsVal) (hx : ToStrSpec E x)
    (hr : JoinSpec E r) : JoinSpec E (x :: r) := by
  have hfirst : (convertible x = true ∧ ∃ s, (match x with
        | .undefined => Except.ok ""
        | .null => Except.ok ""
        | v => toStr E v) = Except.ok s)
      ∨ (convertible x = false ∧ (match x with
        | .undefined => Except.ok ""
        | .null => Except.ok ""
        | v => toStr E v) = Except.error typeErrorMessage) := by
    cases x with
    | undefined => exact Or.inl ⟨rfl, _, rfl⟩
    | null => exact Or.inl ⟨rfl, _, rfl⟩
    | _ => exact hx
  rcases hfirst with ⟨hc, s, hs⟩ | ⟨hc, hs⟩
  · rcases hr with ⟨hcr, t, ht⟩ | ⟨hcr, ht⟩
    · left
      constructor
      · simp [convertibleElems, hc, hcr]
      · cases x <;> simp_all [joinElems, toStr]
    · right
      constructor
      · simp [convertibleElems, hc, hcr]
      · cases x <;> simp_all [joinElems, toStr]
  · right
    constructor
    · simp [convertibleElems, hc]
    · cases x <;> simp_all [joinElems, toStr]

/-- The conversion `ToString` completes on a convertible value and throws the
`TypeError` on any other. -/
theorem toStr_spec (E : Builtins) (v : JsVal) : ToStrSpec E v := by
  refine JsVal.rec (motive_1 := fun v => ToStrSpec E v) (motive_2 := fun l => JoinSpec E l)
    (motive_3 := fun _ => True) (motive_4 := fun _ => True)
    ?_ ?_ ?_ ?_ ?_ ?_ ?_ ?_ ?_ ?_ ?_ ?_ v
  · exact Or.inl ⟨rfl, _, rfl⟩
  · exact Or.inl ⟨rfl, _, rfl⟩
  · intro b; exact Or.inl ⟨rfl, _, rfl⟩
  · intro x; exact Or.inl ⟨rfl, _, rfl⟩
  · intro s; exact Or.inl ⟨rfl, _, rfl⟩
  · intro xs ih
    rcases ih with h | h
    · exact Or.inl (by simpa [convertible, toStr] using h)
    · exact Or.inr (by simpa [convertible, toStr] using h)
  · intro kvs _
    by_cases h : (kvs.map Prod.fst).contains "toString" = true
    · exact Or.inr ⟨by simp only [convertible, h]; rfl, by simp only [toStr, h]; rfl⟩
    · exact Or.inl ⟨by simp only [convertible, h]; rfl, ⟨_, by simp only [toStr, h]; rfl⟩⟩
  · exact Or.inl ⟨rfl, _, rfl⟩
  · intro x r hx hr; exact joinSpec_cons E x r hx hr
  · trivial
  · intro _ _ _ _; trivial
  · intro _ _ _; trivial

theorem toStr_of_convertible (E : Builtins) (v : JsVal) (h : convertible v = true) :
    ∃ s, toStr E v = .ok s := by
  rcases toStr_spec E v with ⟨_, hs⟩ | ⟨hc, _⟩
  · exact hs
  · rw [h] at hc; cases hc

theorem toStr_of_not_convertible (E : Builtins) (v : JsVal) (h : convertible v = false) :
    toStr E v = .error typeErrorMessage := by
  rcases toStr_spec E v with ⟨hc, _⟩ | ⟨_, hs⟩
  · rw [h] at hc; cases hc
  · exact hs

/-- The integer coercion of the handler completes on a convertible value and
throws the `TypeError` on any other. -/
theorem coerceInt_spec (E : Builtins) (x : JsVal) :
    (convertible x = true → ∃ n, coerceInt E x = .ok n)
    ∧ (convertible x = false → coerceInt E x = .error typeErrorMessage) := by
  constructor
  · intro h
    obtain ⟨s, hs⟩ := toStr_of_convertible E x h
    cases x <;> simp_all [coerceInt]
  · intro h
    have hs := toStr_of_not_convertible E x h
    cases x <;> simp_all [coerceInt, convertible]

/-- The conversion `Number(v)` completes on a convertible value and throws the
`TypeError` on any other. -/
theorem toNumber_spec (E : Builtins) (x : JsVal) :
    (convertible x = true → ∃ n, toNumber E x = .ok n)
    ∧ (convertible x = false → toNumber E x = .error typeErrorMessage) := by
  constructor
  · intro h
    obtain ⟨s, hs⟩ := toStr_of_convertible E x h
    cases x <;> simp_all [toNumber]
  · intro h
    have hs := toStr_of_not_convertible E x h
    cases x <;> simp_all [toNumber, convertible]

theorem mapThrowing_ok {α β : Type} (f : α → Except String β) (g : α → β) :
    ∀ xs : List α, (∀ x ∈ xs, f x = .ok (g x)) → mapThrowing f xs = .ok (xs.map g) := by
  intro xs
  induction xs with
  | nil => intro _; rfl
  | cons x r ih =>
    intro h
    simp [mapThrowing, h x (List.mem_cons_self x r),
      ih (fun y hy => h y (List.mem_cons_of_mem x hy))]

theorem mapThrowing_error {α β : Type} (f : α → Except String β) (e : String) :
    ∀ xs : List α, (∀ x ∈ xs, f x = .error e ∨ ∃ y, f x = .ok y) →
      (∃ x ∈ xs, f x = .error e) → mapThrowing f xs = .error e := by
  intro xs
  induction xs with
  | nil => rintro _ ⟨x, hx, _⟩; cases hx
  | cons x r ih =>
    intro hall hex
    rcases hall x (List.mem_cons_self x r) with hx | ⟨y, hy⟩
    · simp [mapThrowing, hx]
    · have hex2 : ∃ z ∈ r, f z = .error e := by
        obtain ⟨z, hz, hze⟩ := hex
        rcases List.mem_cons.mp hz with rfl | hzr
        · rw [hy] at hze; cases hze
        · exact ⟨z, hzr, hze⟩
      simp [mapThrowing, hy, ih (fun z hz => hall z (List.mem_cons_of_mem x hz)) hex2]

theorem completed_of_ok {α : Type} (d : α) (r : Except String α) (a : α) (h : r = .ok a) :
    completed d r = a := by
  rw [h]; rfl

/-! ## C4: `gcd` and `hcfOfArray` -/

/-- The Euclid loop of `gcd` on natural operands computes `Nat.gcd`; `steps` only
has to exceed the second operand. -/
theorem gcdLoop_spec :
    ∀ (steps a b : ℕ), b < steps → gcdLoop steps (JsNum.ofNat a) (JsNum.ofNat b)
      = JsNum.ofNat (Nat.gcd a b) := by
  intro steps
  induction steps with
  | zero => intro a b h; omega
  | succ s ih =>
    intro a b h
    by_cases hb : b = 0
    · subst hb
      simp [gcdLoop, JsNum.truthy, JsNum.ofNat]
    · have ht : JsNum.truthy (JsNum.ofNat b) = true := by
        simp [JsNum.truthy, JsNum.ofNat, hb]
      have hlt : a % b < b := Nat.mod_lt a (Nat.pos_of_ne_zero hb)
      simp only [gcdLoop, ht, if_true, JsNum.mod_ofNat a b hb]
      rw [ih b (a % b) (by omega), Nat.gcd_comm a b, Nat.gcd_rec b a, Nat.gcd_comm]

theorem abs_floor_ofInt (x : ℤ) :
    JsNum.abs (JsNum.floor (JsNum.ofInt x)) = JsNum.ofNat x.natAbs := by
  simp only [JsNum.abs, JsNum.floor, JsNum.ofInt, JsNum.ofNat, Int.floor_intCast]
  congr 1
  rw [← Int.cast_abs, Int.abs_eq_natAbs, Int.cast_natCast]

theorem abs_floor_ofNat (a : ℕ) :
    JsNum.abs (JsNum.floor (JsNum.ofNat a)) = JsNum.ofNat a := by
  rw [← JsNum.ofInt_natCast, abs_floor_ofInt, Int.natAbs_ofNat]
  exact (JsNum.ofInt_natCast a).symm

/-- On natural operands `gcd` is the greatest common divisor. -/
theorem gcd_ofNat (a b : ℕ) : gcd (JsNum.ofNat a) (JsNum.ofNat b) = JsNum.ofNat (Nat.gcd a b) := by
  simp only [gcd, abs_floor_ofNat, JsNum.budget_ofNat]
  exact gcdLoop_spec (b + 1) a b (by omega)

theorem toNumber_num (E : Builtins) (x : JsNum) : toNumber E (.num x) = .ok x := rfl

/-- The operand list of an array of integers: the absolute values. -/
theorem operands_ints (E : Builtins) (xs : List ℤ) :
    operands E (xs.map (fun x => JsVal.num (JsNum.ofInt x)))
      = .ok (xs.map (fun x => JsNum.ofNat x.natAbs)) := by
  have hmap : mapThrowing
      (fun n => do
        let v ← toNumber E n
        pure (JsNum.abs (JsNum.floor v))) (xs.map (fun x => JsVal.num (JsNum.ofInt x)))
      = .ok (xs.map (fun x => JsNum.ofNat x.natAbs)) := by
    induction xs with
    | nil => rfl
    | cons x r ih =>
      rw [List.map_cons, mapThrowing, ih]
      simp only [toNumber_num, ok_bind, pure_eq_ok, abs_floor_ofInt, List.map_cons]
  have hfilter : (xs.map (fun x => JsNum.ofNat x.natAbs)).filter
      (fun n => !JsNum.isNaN n && JsNum.le (JsNum.ofNat 0) n)
      = xs.map (fun x => JsNum.ofNat x.natAbs) := by
    apply List.filter_eq_self.mpr
    intro n hn
    obtain ⟨x, _, rfl⟩ := List.mem_map.mp hn
    simp [JsNum.isNaN, JsNum.ofNat, JsNum.le]
  rw [operands, hmap]
  simp only [ok_bind, pure_eq_ok, hfilter]

theorem foldl_gcd_ofNat (r : List ℤ) :
    ∀ g : ℕ, (r.map (fun x => JsNum.ofNat x.natAbs)).foldl gcd (JsNum.ofNat g)
      = JsNum.ofNat (r.foldl (fun acc x => Nat.gcd acc x.natAbs) g) := by
  induction r with
  | nil => intro g; rfl
  | cons x r ih =>
    intro g
    simp only [List.map_cons, List.foldl_cons, gcd_ofNat, ih]

theorem dvd_foldl_gcd_iff (r : List ℤ) :
    ∀ (g d : ℕ), d ∣ r.foldl (fun acc x => Nat.gcd acc x.natAbs) g
      ↔ d ∣ g ∧ ∀ x ∈ r, d ∣ x.natAbs := by
  induction r with
  | nil => intro g d; simp
  | cons x r ih =>
    intro g d
    simp only [List.foldl_cons, ih, Nat.dvd_gcd_iff, List.mem_cons, forall_eq_or_imp]
    tauto

/-- The value of `hcfOfArray` on a non-empty array of integers. -/
theorem hcfOfArray_ints (E : Builtins) (xs : List ℤ) (hne : xs ≠ []) :
    hcfOfArray E (.arr (xs.map (fun x => JsVal.num (JsNum.ofInt x))))
      = .ok (some (JsNum.ofNat (xs.foldl (fun acc x => Nat.gcd acc x.natAbs) 0))) := by
  cases xs with
  | nil => exact absurd rfl hne
  | cons x r =>
    have hlen : ¬ ((x :: r).map (fun x => JsVal.num (JsNum.ofInt x))).length = 0 := by simp
    simp only [hcfOfArray, hlen, if_false, operands_ints, ok_bind]
    simp only [List.map_cons, List.foldl_cons, foldl_gcd_ofNat, Nat.gcd_zero_left, pure_eq_ok]

/-- Claim C4: for every non-empty list `xs` of integers, `hcfOfArray(xs)` is a
non-negative integer `g` that divides every element of `xs`, that every common
divisor of the elements divides, and that is `0` only when every element is `0`;
and `hcfOfArray([12, 18]) = 6`. -/
theorem hcfOfArray_greatest_common_divisor (E : Builtins) (xs : List ℤ) (hne : xs ≠ []) :
    (∃ g : ℕ, hcfOfArray E (.arr (xs.map (fun x => JsVal.num (JsNum.ofInt x))))
        = .ok (some (JsNum.ofNat g))
      ∧ (∀ x ∈ xs, (g : ℤ) ∣ x)
      ∧ (∀ d : ℤ, (∀ x ∈ xs, d ∣ x) → d ∣ (g : ℤ))
      ∧ (g = 0 ↔ ∀ x ∈ xs, x = 0))
    ∧ hcfOfArray E (.arr [.num (JsNum.ofInt 12), .num (JsNum.ofInt 18)])
        = .ok (some (JsNum.ofInt 6)) := by
  constructor
  · refine ⟨xs.foldl (fun acc x => Nat.gcd acc x.natAbs) 0, hcfOfArray_ints E xs hne, ?_, ?_, ?_⟩
    · intro x hx
      have h := (dvd_foldl_gcd_iff xs 0 _).mp (dvd_refl _)
      exact Int.natCast_dvd.mpr (h.2 x hx)
    · intro d hd
      have h := (dvd_foldl_gcd_iff xs 0 d.natAbs).mpr
        ⟨dvd_zero _, fun x hx => Int.natAbs_dvd_natAbs.mpr (hd x hx)⟩
      exact Int.dvd_natCast.mpr h
    · rw [← zero_dvd_iff, dvd_foldl_gcd_iff]
      simp
  · have h := hcfOfArray_ints E [12, 18] (by simp)
    simpa [JsNum.ofInt, JsNum.ofNat] using h

/-! ## C5: `lcm` and `lcmOfArray` -/

theorem floor_ofNat (a : ℕ) : JsNum.floor (JsNum.ofNat a) = JsNum.ofNat a := by
  simp [JsNum.floor, JsNum.ofNat]

theorem abs_ofNat (a : ℕ) : JsNum.abs (JsNum.ofNat a) = JsNum.ofNat a := by
  simp [JsNum.abs, JsNum.ofNat]

/-- The division `x / y` on natural operands with `y` a non-zero divisor of `x`
is the exact quotient, when the quotient is at most `2 ^ 53`. -/
theorem div_ofNat_of_dvd (x y : ℕ) (hy : y ≠ 0) (hdvd : y ∣ x) (h : x / y ≤ 2 ^ 53) :
    JsNum.div (JsNum.ofNat x) (JsNum.ofNat y) = JsNum.ofNat (x / y) := by
  have hy0 : (y : ℚ) ≠ 0 := by exact_mod_cast hy
  simp only [JsNum.div, JsNum.ofNat, if_neg hy0]
  rw [← Nat.cast_div hdvd hy0, JsNum.roundToDouble_natCast _ h]

/-- On natural operands whose product is at most `2 ^ 53`, `lcm` is the least
common multiple. -/
theorem lcm_ofNat (a b : ℕ) (h : a * b ≤ 2 ^ 53) :
    lcm (JsNum.ofNat a) (JsNum.ofNat b) = JsNum.ofNat (Nat.lcm a b) := by
  unfold lcm
  by_cases ha : a = 0
  · subst ha; simp
  by_cases hb : b = 0
  · subst hb; simp
  have hg : Nat.gcd a b ≠ 0 := fun h => ha (Nat.eq_zero_of_gcd_eq_zero_left h)
  have hdvd : Nat.gcd a b ∣ a * b := Dvd.dvd.mul_right (Nat.gcd_dvd_left a b) b
  have hq : a * b / Nat.gcd a b ≤ 2 ^ 53 := le_trans (Nat.div_le_self _ _) h
  simp only [JsNum.strictEq_ofNat, ha, hb, decide_False, Bool.or_self, Bool.false_eq_true,
    if_false, floor_ofNat, JsNum.mul_ofNat a b h, abs_ofNat, gcd_ofNat,
    div_ofNat_of_dvd (a * b) (Nat.gcd a b) hg hdvd hq]
  rfl

/-- An operand that is zero gives zero, whatever the other operand is. -/
theorem lcm_zero_right (x : JsNum) : lcm x (JsNum.ofNat 0) = JsNum.ofNat 0 := by
  simp [lcm]

theorem lcm_zero_left (y : JsNum) : lcm (JsNum.ofNat 0) y = JsNum.ofNat 0 := by
  simp [lcm]

theorem foldl_lcm_zero (l : List JsNum) : l.foldl lcm (JsNum.ofNat 0) = JsNum.ofNat 0 := by
  induction l with
  | nil => rfl
  | cons y r ih => rw [List.foldl_cons, lcm_zero_left, ih]

/-- A zero anywhere among the operands makes the fold of `lcm` zero. -/
theorem foldl_lcm_of_mem_zero (l : List JsNum) :
    ∀ acc : JsNum, JsNum.ofNat 0 ∈ l → l.foldl lcm acc = JsNum.ofNat 0 := by
  induction l with
  | nil => intro acc h; simp at h
  | cons y r ih =>
    intro acc h
    rw [List.foldl_cons]
    rcases List.mem_cons.mp h with h0 | hr
    · rw [← h0, lcm_zero_right, foldl_lcm_zero]
    · exact ih _ hr

/-- The divisor of `lcm`: with a non-zero natural second operand, `gcd` is a
non-zero natural number, whatever rational the first operand is. -/
theorem gcd_fin_ofNat (q : ℚ) (b : ℕ) :
    gcd (JsNum.fin q) (JsNum.ofNat b) = JsNum.ofNat (Nat.gcd (⌊q⌋ : ℤ).natAbs b) := by
  have ha : JsNum.abs (JsNum.floor (JsNum.fin q)) = JsNum.ofNat (⌊q⌋ : ℤ).natAbs := by
    have := abs_floor_ofInt ⌊q⌋
    simpa [JsNum.ofInt] using this
  simp only [gcd, ha, abs_floor_ofNat, JsNum.budget_ofNat]
  exact gcdLoop_spec (b + 1) _ b (by omega)

theorem foldl_lcm_ofNat (r : List ℤ) :
    ∀ l : ℕ, productsWithinFrom l r = true →
      (r.map (fun x => JsNum.ofNat x.natAbs)).foldl lcm (JsNum.ofNat l)
        = JsNum.ofNat (r.foldl (fun acc x => Nat.lcm acc x.natAbs) l) := by
  induction r with
  | nil => intro l _; rfl
  | cons x r ih =>
    intro l h
    simp only [productsWithinFrom, Bool.and_eq_true, decide_eq_true_eq] at h
    simp only [List.map_cons, List.foldl_cons, lcm_ofNat l x.natAbs h.1, ih _ h.2]

theorem foldl_lcm_dvd_iff (r : List ℤ) :
    ∀ (l m : ℕ), r.foldl (fun acc x => Nat.lcm acc x.natAbs) l ∣ m
      ↔ l ∣ m ∧ ∀ x ∈ r, x.natAbs ∣ m := by
  induction r with
  | nil => intro l m; simp
  | cons x r ih =>
    intro l m
    simp only [List.foldl_cons, ih, Nat.lcm_dvd_iff, List.mem_cons, forall_eq_or_imp]
    tauto

theorem foldl_lcm_ne_zero (r : List ℤ) :
    ∀ l : ℕ, l ≠ 0 → (∀ x ∈ r, x ≠ 0) → r.foldl (fun acc x => Nat.lcm acc x.natAbs) l ≠ 0 := by
  induction r with
  | nil => intro l hl _; simpa using hl
  | cons x r ih =>
    intro l hl hall
    simp only [List.foldl_cons]
    apply ih
    · exact Nat.lcm_ne_zero hl (Int.natAbs_ne_zero.mpr (hall x (List.mem_cons_self x r)))
    · intro y hy
      exact hall y (List.mem_cons_of_mem x hy)

/-- The value of `lcmOfArray` on a non-empty array of integers is the
left-to-right fold of `lcm` over the absolute values. -/
theorem lcmOfArray_fold (E : Builtins) (x : ℤ) (r : List ℤ) :
    lcmOfArray E (.arr ((x :: r).map (fun x => JsVal.num (JsNum.ofInt x))))
      = .ok (some ((r.map (fun x => JsNum.ofNat x.natAbs)).foldl lcm (JsNum.ofNat x.natAbs))) := by
  have hlen : ¬ ((x :: r).map (fun x => JsVal.num (JsNum.ofInt x))).length = 0 := by simp
  simp only [lcmOfArray, hlen, if_false, operands_ints, ok_bind]
  simp only [List.map_cons, pure_eq_ok]

/-- The value of `lcmOfArray` on a non-empty array of integers all of whose fold
products are at most `2 ^ 53`. -/
theorem lcmOfArray_ints (E : Builtins) (xs : List ℤ) (hne : xs ≠ [])
    (h : productsWithin xs = true) :
    lcmOfArray E (.arr (xs.map (fun x => JsVal.num (JsNum.ofInt x))))
      = .ok (some (JsNum.ofNat (xs.foldl (fun acc x => Nat.lcm acc x.natAbs) 1))) := by
  cases xs with
  | nil => exact absurd rfl hne
  | cons x r =>
    rw [lcmOfArray_fold, foldl_lcm_ofNat r _ h]
    simp only [List.foldl_cons, Nat.lcm_one_left]

/-- A zero among the elements makes `lcmOfArray` zero, wherever it occurs. -/
theorem lcmOfArray_zero (E : Builtins) (xs : List ℤ) (hz : ∃ x ∈ xs, x = 0) :
    lcmOfArray E (.arr (xs.map (fun x => JsVal.num (JsNum.ofInt x))))
      = .ok (some (JsNum.ofNat 0)) := by
  obtain ⟨z, hzmem, rfl⟩ := hz
  cases xs with
  | nil => simp at hzmem
  | cons x r =>
    rw [lcmOfArray_fold]
    rcases List.mem_cons.mp hzmem with h0 | hr
    · rw [← h0]
      simp only [Int.natAbs_zero, foldl_lcm_zero]
    · have hmem : JsNum.ofNat 0 ∈ r.map (fun x => JsNum.ofNat x.natAbs) :=
        List.mem_map.mpr ⟨0, hr, rfl⟩
      rw [foldl_lcm_of_mem_zero _ _ hmem]

theorem productsWithinFrom_of_prod (r : List ℤ) :
    ∀ l : ℕ, (∀ x ∈ r, x ≠ 0) → l * (r.map Int.natAbs).prod ≤ 2 ^ 53 →
      productsWithinFrom l r = true := by
  induction r with
  | nil => intro l _ _; rfl
  | cons x r ih =>
    intro l hall h
    have hx : x.natAbs ≠ 0 := Int.natAbs_ne_zero.mpr (hall x (List.mem_cons_self x r))
    have hpos : 0 < (r.map Int.natAbs).prod := by
      apply Nat.pos_of_ne_zero
      intro h0
      obtain ⟨y, hy, hy0⟩ := List.mem_map.mp (List.prod_eq_zero_iff.mp h0)
      exact hall y (List.mem_cons_of_mem x hy) (Int.natAbs_eq_zero.mp hy0)
    simp only [List.map_cons, List.prod_cons] at h
    have h1 : l * x.natAbs ≤ l * x.natAbs * (r.map Int.natAbs).prod :=
      Nat.le_mul_of_pos_right _ hpos
    have h2 : l * x.natAbs * (r.map Int.natAbs).prod ≤ 2 ^ 53 := by
      rw [Nat.mul_assoc]; exact h
    have h3 : Nat.lcm l x.natAbs ≤ l * x.natAbs := by
      rcases Nat.eq_zero_or_pos l with hl | hl
      · subst hl; simp
      · exact Nat.le_of_dvd (Nat.mul_pos hl (Nat.pos_of_ne_zero hx)) (Nat.lcm_dvd_mul l x.natAbs)
    simp only [productsWithinFrom, Bool.and_eq_true, decide_eq_true_eq]
    refine ⟨le_trans h1 h2, ih _ (fun y hy => hall y (List.mem_cons_of_mem x hy)) ?_⟩
    exact le_trans (Nat.mul_le_mul_right _ h3) h2

/-- When no element is zero and the product of the absolute values is at most
`2 ^ 53`, every product that the fold forms is at most `2 ^ 53`. -/
theorem productsWithin_of_prod (xs : List ℤ) (hall : ∀ x ∈ xs, x ≠ 0)
    (h : (xs.map Int.natAbs).prod ≤ 2 ^ 53) : productsWithin xs = true := by
  cases xs with
  | nil => rfl
  | cons x r =>
    simp only [List.map_cons, List.prod_cons] at h
    exact productsWithinFrom_of_prod r x.natAbs (fun y hy => hall y (List.mem_cons_of_mem x hy)) h

theorem lcm_step_rounds :
    lcm (JsNum.ofNat 9000012000003) (JsNum.ofNat 1005) = JsNum.fin (6030008040002011 / 2) := by
  decide!

/-- The value of `lcmOfArray([3000001, 3000003, 1005])`: the fold first gives
`9000012000003`, then forms the product `9000012000003 * 1005 = 9045012060003015`,
which is rounded to the double `9045012060003016`, and divides it by `gcd = 3`. -/
theorem lcmOfArray_rounds (E : Builtins) :
    lcmOfArray E
        (.arr (([3000001, 3000003, 1005] : List ℤ).map (fun x => JsVal.num (JsNum.ofInt x))))
      = .ok (some (JsNum.fin (6030008040002011 / 2))) := by
  have h1 : lcm (JsNum.ofNat 3000001) (JsNum.ofNat 3000003) = JsNum.ofNat 9000012000003 := by
    rw [lcm_ofNat 3000001 3000003 (by norm_num)]
    congr 1
  rw [lcmOfArray_fold]
  simp only [List.map_cons, List.map_nil, List.foldl_cons, List.foldl_nil]
  have e1 : (3000001 : ℤ).natAbs = 3000001 := rfl
  have e2 : (3000003 : ℤ).natAbs = 3000003 := rfl
  have e3 : (1005 : ℤ).natAbs = 1005 := rfl
  rw [e1, e2, e3, h1, lcm_step_rounds]

/-- Counterexample to C5 as stated, at `xs = [3000001, 3000003, 1005]`, a list of
non-zero integers: `lcmOfArray(xs)` is `3015004020001005.5`, which is not an
integer, while the least common multiple of the elements is `3015004020001005`. -/
theorem lcm_rounding_counterexample :
    lcmOfArray sampleBuiltins
        (.arr (([3000001, 3000003, 1005] : List ℤ).map (fun x => JsVal.num (JsNum.ofInt x))))
      = .ok (some (JsNum.fin (6030008040002011 / 2)))
    ∧ JsNum.isInteger (JsNum.fin (6030008040002011 / 2)) = false
    ∧ (¬ ∃ l : ℕ, lcmOfArray sampleBuiltins
        (.arr (([3000001, 3000003, 1005] : List ℤ).map (fun x => JsVal.num (JsNum.ofInt x))))
          = .ok (some (JsNum.ofNat l)))
    ∧ Nat.lcm (Nat.lcm 3000001 3000003) 1005 = 3015004020001005 := by
  have hval := lcmOfArray_rounds sampleBuiltins
  have hint : JsNum.isInteger (JsNum.fin (6030008040002011 / 2)) = false := by decide!
  refine ⟨hval, hint, ?_, by norm_num⟩
  rintro ⟨l, hl⟩
  rw [hval] at hl
  have e : JsNum.fin (6030008040002011 / 2) = JsNum.ofNat l := by
    have := Except.ok.inj hl
    exact Option.some.inj this
  rw [e, isInteger_ofNat] at hint
  exact absurd hint (by decide)

/-- Claim C5, amended: for every non-empty list `xs` of integers, `lcmOfArray(xs)`
is `0` whenever some element of `xs` is `0`, wherever it occurs; when every
product that the left-to-right fold forms (the least common multiple of the
elements so far times the absolute value of the next element) is at most
`2 ^ 53`, which holds in particular when no element is `0` and the product of
the absolute values of the elements is at most `2 ^ 53`, it is a non-negative
integer `l` that, when no element is `0`, is the smallest positive integer
divisible by every element. The divisor `gcd(a, b)` of `lcm` is a non-zero
integer whenever the second operand is a non-zero integer; on non-zero natural
operands it divides `a * b` exactly, and the result is the exact quotient when
`a * b` is at most `2 ^ 53`. `lcmOfArray([4, 6]) = 12` and
`lcmOfArray([0, 5]) = 0`. -/
theorem lcmOfArray_least_common_multiple (E : Builtins) (xs : List ℤ) (hne : xs ≠ []) :
    ((∃ x ∈ xs, x = 0) →
        lcmOfArray E (.arr (xs.map (fun x => JsVal.num (JsNum.ofInt x))))
          = .ok (some (JsNum.ofNat 0)))
    ∧ (productsWithin xs = true →
        ∃ l : ℕ, lcmOfArray E (.arr (xs.map (fun x => JsVal.num (JsNum.ofInt x))))
            = .ok (some (JsNum.ofNat l))
          ∧ ((∃ x ∈ xs, x = 0) → l = 0)
          ∧ ((∀ x ∈ xs, x ≠ 0) →
              0 < l ∧ (∀ x ∈ xs, x ∣ (l : ℤ))
                ∧ ∀ m : ℕ, 0 < m → (∀ x ∈ xs, x ∣ (m : ℤ)) → l ≤ m))
    ∧ ((∀ x ∈ xs, x ≠ 0) → (xs.map Int.natAbs).prod ≤ 2 ^ 53 → productsWithin xs = true)
    ∧ (∀ (q : ℚ) (b : ℕ), b ≠ 0 →
        ∃ g : ℕ, gcd (JsNum.fin q) (JsNum.ofNat b) = JsNum.ofNat g ∧ g ≠ 0)
    ∧ (∀ a b : ℕ, a ≠ 0 → b ≠ 0 →
        ∃ g : ℕ, gcd (JsNum.ofNat a) (JsNum.ofNat b) = JsNum.ofNat g ∧ g ≠ 0 ∧ g ∣ a * b
          ∧ (a * b ≤ 2 ^ 53 → lcm (JsNum.ofNat a) (JsNum.ofNat b) = JsNum.ofNat (a * b / g)))
    ∧ lcmOfArray E (.arr [.num (JsNum.ofInt 4), .num (JsNum.ofInt 6)])
        = .ok (some (JsNum.ofInt 12))
    ∧ lcmOfArray E (.arr [.num (JsNum.ofInt 0), .num (JsNum.ofInt 5)])
        = .ok (some (JsNum.ofInt 0)) := by
  refine ⟨lcmOfArray_zero E xs, ?_, ?_, ?_, ?_, ?_, ?_⟩
  · intro hw
    refine ⟨xs.foldl (fun acc x => Nat.lcm acc x.natAbs) 1, lcmOfArray_ints E xs hne hw, ?_, ?_⟩
    · rintro ⟨x, hx, rfl⟩
      have h := ((foldl_lcm_dvd_iff xs 1 _).mp (dvd_refl _)).2 0 hx
      simpa using h
    intro hall
    have hnz := foldl_lcm_ne_zero xs 1 one_ne_zero hall
    refine ⟨Nat.pos_of_ne_zero hnz, ?_, ?_⟩
    · intro x hx
      have h := ((foldl_lcm_dvd_iff xs 1 _).mp (dvd_refl _)).2 x hx
      exact Int.natAbs_dvd.mp (Int.natCast_dvd_natCast.mpr h)
    · intro m hm hdiv
      have h := (foldl_lcm_dvd_iff xs 1 m).mpr
        ⟨one_dvd _, fun x hx => by
          have := Int.natAbs_dvd_natAbs.mpr (hdiv x hx)
          simpa using this⟩
      exact Nat.le_of_dvd hm h
  · intro hall hprod
    exact productsWithin_of_prod xs hall hprod
  · intro q b hb
    exact ⟨_, gcd_fin_ofNat q b, fun h => hb (Nat.eq_zero_of_gcd_eq_zero_right h)⟩
  · intro a b ha hb
    refine ⟨Nat.gcd a b, gcd_ofNat a b, fun h => ha (Nat.eq_zero_of_gcd_eq_zero_left h),
      Dvd.dvd.mul_right (Nat.gcd_dvd_left a b) b, ?_⟩
    intro hab
    rw [lcm_ofNat a b hab]
    rfl
  · have h := lcmOfArray_ints E [4, 6] (by simp) (by decide)
    have e : Nat.lcm 4 6 = 12 := by decide
    simpa [JsNum.ofInt, JsNum.ofNat, e] using h
  · have h := lcmOfArray_zero E [0, 5] ⟨0, by simp, rfl⟩
    simpa [JsNum.ofInt, JsNum.ofNat] using h

/-! ## C6: `primesFromArray` -/

theorem isInteger_fin_iff (q : ℚ) : JsNum.isInteger (JsNum.fin q) = true ↔ q.den = 1 := by
  simp only [JsNum.isInteger, decide_eq_true_eq]
  constructor
  · intro h
    rw [← h]
    exact Rat.den_intCast _
  · intro h
    have hq : ((q.num : ℤ) : ℚ) = q := (Rat.den_eq_one_iff q).mp h
    rw [← hq, Int.floor_intCast]

/-- The filter predicate of `primesFromArray` accepts exactly the numbers whose
value is a prime integer. -/
theorem primeElem_eq (v : JsVal) : primeElem v = isPrimeIntegerValue v := by
  cases v with
  | num x =>
    cases x with
    | nan => simp [primeElem, isPrimeIntegerValue, JsNum.isInteger]
    | fin q =>
      by_cases hden : q.den = 1
      · have hq : ((q.num : ℤ) : ℚ) = q := (Rat.den_eq_one_iff q).mp hden
        have hint : JsNum.isInteger (JsNum.fin q) = true := (isInteger_fin_iff q).mpr hden
        by_cases hneg : 0 ≤ q.num
        · obtain ⟨N, hN⟩ := Int.eq_ofNat_of_zero_le hneg
          have hqN : JsNum.fin q = JsNum.ofNat N := by
            rw [← hq, hN]; simp [JsNum.ofNat]
          have hle : JsNum.le (JsNum.ofNat 0) (JsNum.ofNat N) = true := by simp
          have hp := isPrime_ofNat_iff_prime N
          simp only [primeElem, isPrimeIntegerValue, hqN] at *
          rw [isInteger_ofNat, hle]
          by_cases hprime : Nat.Prime N
          · simp [hp.mpr hprime, hden, hN, hprime]
          · have : isPrime (JsNum.ofNat N) = false := by
              cases hc : isPrime (JsNum.ofNat N) with
              | true => exact absurd (hp.mp hc) hprime
              | false => rfl
            simp [this, hN, hprime]
        · have hlt : q < 0 := by
            rw [← hq]; exact_mod_cast (not_le.mp hneg)
          have hle : JsNum.le (JsNum.ofNat 0) (JsNum.fin q) = false := by
            simp [JsNum.le, JsNum.ofNat, hlt]
          simp [primeElem, isPrimeIntegerValue, hle, hneg]
      · have hint : JsNum.isInteger (JsNum.fin q) = false := by
          cases hc : JsNum.isInteger (JsNum.fin q) with
          | true => exact absurd ((isInteger_fin_iff q).mp hc) hden
          | false => rfl
        simp [primeElem, isPrimeIntegerValue, hint, hden]
  | _ => rfl

theorem isPrimeIntegerValue_iff (v : JsVal) :
    isPrimeIntegerValue v = true ↔ ∃ p : ℕ, Nat.Prime p ∧ v = .num (JsNum.ofNat p) := by
  constructor
  · intro h
    cases v with
    | num x =>
      cases x with
      | nan => simp [isPrimeIntegerValue] at h
      | fin q =>
        simp only [isPrimeIntegerValue, decide_eq_true_eq] at h
        obtain ⟨hden, hnn, hp⟩ := h
        refine ⟨q.num.toNat, hp, ?_⟩
        have hq : ((q.num : ℤ) : ℚ) = q := (Rat.den_eq_one_iff q).mp hden
        have hz : ((q.num.toNat : ℕ) : ℤ) = q.num := Int.toNat_of_nonneg hnn
        have hcast : ((q.num.toNat : ℕ) : ℚ) = q := by
          rw [← hq]
          exact_mod_cast hz
        simp only [JsNum.ofNat, hcast]
    | _ => simp [isPrimeIntegerValue] at h
  · rintro ⟨p, hp, rfl⟩
    simp [isPrimeIntegerValue, JsNum.ofNat, hp]

/-- When exactly one recognized key is present, the `try` block runs the branch
of that key. -/
theorem postBfhlTry_of_present (email : String) (E : Builtins)
    (resolver : String → Except String String) (body : List (String × JsVal)) (k : String)
    (h : present body = [k]) :
    postBfhlTry email E resolver body =
      if k = "fibonacci" then fibonacciBranch email E (getProp body "fibonacci")
      else if k = "prime" then primeBranch email E (getProp body "prime")
      else if k = "lcm" then lcmBranch email E (getProp body "lcm")
      else if k = "hcf" then hcfBranch email E (getProp body "hcf")
      else if k = "AI" then .ok (aiBranch email resolver (getProp body "AI"))
      else .ok (success email .undefined) := by
  simp [postBfhlTry, h]

/-- The handler answers with the response of the `try` block when it completes. -/
theorem postBfhl_of_ok (email : String) (E : Builtins)
    (resolver : String → Except String String) (body : List (String × JsVal)) (r : Response)
    (h : postBfhlTry email E resolver body = .ok r) : postBfhl email E resolver body = r := by
  simp [postBfhl, h]

/-- The handler answers with status 500 when the `try` block throws. -/
theorem postBfhl_of_error (email : String) (E : Builtins)
    (resolver : String → Except String String) (body : List (String × JsVal)) (e : String)
    (h : postBfhlTry email E resolver body = .error e) :
    postBfhl email E resolver body = failure email 500 "Internal server error" := by
  simp [postBfhl, h]

theorem coerceInt_ofInt (E : Builtins) (z : ℤ) :
    coerceInt E (.num (JsNum.ofInt z)) = .ok (JsNum.ofInt z) := by
  simp [coerceInt, JsNum.floor, JsNum.ofInt]

theorem isPrimeIntegerValue_of_coerceInt_nan (E : Builtins) (v : JsVal)
    (h : coerceInt E v = .ok JsNum.nan) : isPrimeIntegerValue v = false := by
  cases v with
  | num x =>
    cases x with
    | nan => rfl
    | fin q => simp [coerceInt, JsNum.floor] at h
  | _ => rfl

/-- On an array of integers and values whose integer coercion is `NaN`, the
`prime` branch keeps exactly the prime integers. -/
theorem primeNums_filter (E : Builtins) (xs : List JsVal)
    (h : ∀ v ∈ xs, (∃ z : ℤ, v = .num (JsNum.ofInt z)) ∨ coerceInt E v = .ok JsNum.nan) :
    ∃ nums, primeNums E xs = .ok nums
      ∧ (nums.map JsVal.num).filter primeElem = xs.filter isPrimeIntegerValue := by
  have hok : ∀ v ∈ xs, coerceInt E v = .ok (completed JsNum.nan (coerceInt E v)) := by
    intro v hv
    rcases h v hv with ⟨z, rfl⟩ | hnan
    · rw [coerceInt_ofInt]; rfl
    · rw [hnan]; rfl
  refine ⟨_, by rw [primeNums, mapThrowing_ok _ _ xs hok]; rfl, ?_⟩
  clear hok
  induction xs with
  | nil => rfl
  | cons v r ih =>
    have ihr := ih (fun w hw => h w (List.mem_cons_of_mem v hw))
    rcases h v (List.mem_cons_self v r) with ⟨z, rfl⟩ | hnan
    · rw [List.map_cons, coerceInt_ofInt, completed,
        List.filter_cons_of_pos (by simp [JsNum.isNaN, JsNum.ofInt]), List.map_cons]
      simp only [List.filter_cons, primeElem_eq (.num (JsNum.ofInt z))]
      rw [ihr]
    · rw [List.map_cons, hnan, completed, List.filter_cons_of_neg (by simp [JsNum.isNaN]),
        List.filter_cons_of_neg (by simp [isPrimeIntegerValue_of_coerceInt_nan E v hnan])]
      exact ihr

/-- Claim C6: `primesFromArray` returns exactly the elements of its input that
are prime integers, in input order and with their multiplicities: the result is
the input filtered by "is a prime integer", hence a subsequence of the input all
of whose elements are prime and in which every prime element of the input
occurs; `[1, 2, 3, 4, 17, "x"]` gives `[2, 3, 17]`; and the `prime` branch of the
handler returns the same list for an array of integers and of values whose
integer coercion is `NaN`, when at most 100 elements coerce. -/
theorem primesFromArray_exact (email : String) (E : Builtins)
    (resolver : String → Except String String) (body : List (String × JsVal))
    (xs : List JsVal) :
    primesFromArray (.arr xs) = xs.filter isPrimeIntegerValue
    ∧ (primesFromArray (.arr xs)).Sublist xs
    ∧ (∀ v ∈ primesFromArray (.arr xs), ∃ p : ℕ, Nat.Prime p ∧ v = .num (JsNum.ofNat p))
    ∧ (∀ v ∈ xs, (∃ p : ℕ, Nat.Prime p ∧ v = .num (JsNum.ofNat p)) →
        v ∈ primesFromArray (.arr xs))
    ∧ primesFromArray (.arr [.num (JsNum.ofInt 1), .num (JsNum.ofInt 2), .num (JsNum.ofInt 3),
          .num (JsNum.ofInt 4), .num (JsNum.ofInt 17), .str "x"])
        = [.num (JsNum.ofInt 2), .num (JsNum.ofInt 3), .num (JsNum.ofInt 17)]
    ∧ (present body = ["prime"] → getProp body "prime" = .arr xs →
        (∀ v ∈ xs, (∃ z : ℤ, v = .num (JsNum.ofInt z)) ∨ coerceInt E v = .ok JsNum.nan) →
        (completed [] (primeNums E xs)).length ≤ 100 →
        postBfhl email E resolver body = success email (.arr (xs.filter isPrimeIntegerValue))) := by
  have hfilter : primesFromArray (.arr xs) = xs.filter isPrimeIntegerValue := by
    simp only [primesFromArray]
    exact List.filter_congr (fun v _ => primeElem_eq v)
  refine ⟨hfilter, ?_, ?_, ?_, ?_, ?_⟩
  · rw [hfilter]; exact List.filter_sublist xs
  · intro v hv
    rw [hfilter] at hv
    exact (isPrimeIntegerValue_iff v).mp (List.mem_filter.mp hv).2
  · intro v hv hp
    rw [hfilter]
    exact List.mem_filter.mpr ⟨hv, (isPrimeIntegerValue_iff v).mpr hp⟩
  · with_unfolding_all rfl
  · intro hpres hval hdom hcap
    obtain ⟨nums, hnums, hfil⟩ := primeNums_filter E xs hdom
    rw [hnums, completed] at hcap
    have hcap2 : ¬ nums.length > 100 := by omega
    apply postBfhl_of_ok
    rw [postBfhlTry_of_present email E resolver body "prime" hpres, hval]
    simp [primeBranch, hnums, hcap2, primesFromArray, hfil]

/-! ## C1: the exactly-one-key rule -/

/-- In an object (no key occurs twice), reading a key gives the value stored
with it. -/
theorem getProp_of_mem :
    ∀ (body : List (String × JsVal)), (body.map Prod.fst).Nodup →
      ∀ kv ∈ body, getProp body kv.1 = kv.2 := by
  intro body
  induction body with
  | nil => intro _ kv h; cases h
  | cons hd r ih =>
    intro hnd kv hkv
    obtain ⟨k0, v0⟩ := hd
    simp only [List.map_cons, List.nodup_cons] at hnd
    rcases List.mem_cons.mp hkv with rfl | hmem
    · simp [getProp, List.lookup]
    · have hne : kv.1 ≠ k0 := by
        intro heq
        exact hnd.1 (heq ▸ List.mem_map_of_mem Prod.fst hmem)
      have hbeq : (kv.1 == k0) = false := by simpa using hne
      have := ih hnd.2 kv hmem
      simpa [getProp, List.lookup, hbeq] using this

theorem filter_keys_eq (f : String → JsVal) (p : JsVal → Bool) :
    ∀ (l : List (String × JsVal)), (∀ kv ∈ l, f kv.1 = kv.2) →
      (l.map Prod.fst).filter (fun k => p (f k)) = (l.filter (fun kv => p kv.2)).map Prod.fst := by
  intro l
  induction l with
  | nil => intro _; rfl
  | cons hd r ih =>
    intro h
    have h1 := h hd (List.mem_cons_self hd r)
    have ihr := ih (fun kv hkv => h kv (List.mem_cons_of_mem hd hkv))
    simp only [List.map_cons, List.filter_cons, h1, ihr]
    split <;> simp

theorem countsAsOperation_eq (kv : String × JsVal) :
    countsAsOperation kv = (nonEmptyValue kv.2 && allowed.contains kv.1) := by
  obtain ⟨k, v⟩ := kv
  have h1 : allowed.contains k
      = decide (k = "fibonacci" ∨ k = "prime" ∨ k = "lcm" ∨ k = "hcf" ∨ k = "AI") := by
    simp [allowed]
  rw [h1, Bool.and_comm]
  cases v with
  | str s => by_cases hs : s = "" <;> simp [countsAsOperation, nonEmptyValue, hs]
  | _ => simp [countsAsOperation, nonEmptyValue]

/-- In an object, the list `present` of the handler is the list of the keys of
the properties that count toward the exactly-one-key rule, in key order. So the
hypothesis `present body = [k]` of the branch theorems says that `k` is the only
recognized key of the request. -/
theorem present_eq (body : List (String × JsVal)) (hnd : (body.map Prod.fst).Nodup) :
    present body = (body.filter countsAsOperation).map Prod.fst := by
  have h1 := filter_keys_eq (getProp body) nonEmptyValue body (getProp_of_mem body hnd)
  simp only [present, h1, List.filter_map, List.filter_filter]
  congr 1
  apply List.filter_congr
  intro kv _
  simp [countsAsOperation_eq, Bool.and_comm]

theorem present_length (body : List (String × JsVal)) (hnd : (body.map Prod.fst).Nodup) :
    (present body).length = (body.filter countsAsOperation).length := by
  rw [present_eq body hnd, List.length_map]

theorem failure_ne_exactlyOne (email : String) (code : ℕ) (msg : String)
    (h : msg ≠ exactlyOneError) : failure email code msg ≠ failure email 400 exactlyOneError := by
  intro heq
  have := congrArg Response.error heq
  simp only [failure, Option.some.injEq] at this
  exact h this

theorem success_ne_failure (email : String) (d : JsVal) (code : ℕ) (msg : String) :
    success email d ≠ failure email code msg := by
  intro heq
  have := congrArg Response.is_success heq
  simp [success, failure] at this

theorem fibonacciBranch_ne (email : String) (E : Builtins) (v : JsVal) (r : Response)
    (h : fibonacciBranch email E v = .ok r) : r ≠ failure email 400 exactlyOneError := by
  unfold fibonacciBranch at h
  cases hc : coerceInt E v with
  | error e => rw [hc] at h; cases h
  | ok n =>
    rw [hc] at h
    simp only [ok_bind, pure_eq_ok] at h
    split at h
    · cases h; exact failure_ne_exactlyOne _ _ _ (by decide)
    · cases h; exact success_ne_failure _ _ _ _

theorem primeBranch_ne (email : String) (E : Builtins) (v : JsVal) (r : Response)
    (h : primeBranch email E v = .ok r) : r ≠ failure email 400 exactlyOneError := by
  unfold primeBranch at h
  split at h
  · rename_i xs
    cases hc : primeNums E xs with
    | error e => rw [hc] at h; cases h
    | ok nums =>
      rw [hc] at h
      simp only [ok_bind, pure_eq_ok] at h
      split at h
      · cases h; exact failure_ne_exactlyOne _ _ _ (by decide)
      · cases h; exact success_ne_failure _ _ _ _
  · cases h; exact failure_ne_exactlyOne _ _ _ (by decide)

theorem lcmBranch_ne (email : String) (E : Builtins) (v : JsVal) (r : Response)
    (h : lcmBranch email E v = .ok r) : r ≠ failure email 400 exactlyOneError := by
  unfold lcmBranch at h
  split at h
  · cases h; exact failure_ne_exactlyOne _ _ _ (by decide)
  · cases hc : lcmOfArray E v with
    | error e => rw [hc] at h; cases h
    | ok val =>
      rw [hc] at h
      cases val with
      | none => cases h; exact failure_ne_exactlyOne _ _ _ (by decide)
      | some w => cases h; exact success_ne_failure _ _ _ _

theorem hcfBranch_ne (email : String) (E : Builtins) (v : JsVal) (r : Response)
    (h : hcfBranch email E v = .ok r) : r ≠ failure email 400 exactlyOneError := by
  unfold hcfBranch at h
  split at h
  · cases h; exact failure_ne_exactlyOne _ _ _ (by decide)
  · cases hc : hcfOfArray E v with
    | error e => rw [hc] at h; cases h
    | ok val =>
      rw [hc] at h
      cases val with
      | none => cases h; exact failure_ne_exactlyOne _ _ _ (by decide)
      | some w => cases h; exact success_ne_failure _ _ _ _

theorem aiBranch_ne (email : String) (resolver : String → Except String String) (v : JsVal) :
    aiBranch email resolver v ≠ failure email 400 exactlyOneError := by
  unfold aiBranch
  split
  · split
    · exact failure_ne_exactlyOne _ _ _ (by decide)
    · split
      · exact failure_ne_exactlyOne _ _ _ (by decide)
      · split
        · exact success_ne_failure _ _ _ _
        · intro heq
          have := congrArg Response.status heq
          simp [failure] at this
  · exact failure_ne_exactlyOne _ _ _ (by decide)

/-- With exactly one recognized key, the response is never the error of the
exactly-one-key rule. -/
theorem postBfhl_ne_of_present (email : String) (E : Builtins)
    (resolver : String → Except String String) (body : List (String × JsVal)) (k : String)
    (hk : present body = [k]) :
    postBfhl email E resolver body ≠ failure email 400 exactlyOneError := by
  cases ht : postBfhlTry email E resolver body with
  | error e =>
    rw [postBfhl_of_error email E resolver body e ht]
    exact failure_ne_exactlyOne _ _ _ (by decide)
  | ok r =>
    rw [postBfhl_of_ok email E resolver body r ht]
    rw [postBfhlTry_of_present email E resolver body k hk] at ht
    split_ifs at ht
    · exact fibonacciBranch_ne email E _ r ht
    · exact primeBranch_ne email E _ r ht
    · exact lcmBranch_ne email E _ r ht
    · exact hcfBranch_ne email E _ r ht
    · cases ht; exact aiBranch_ne email resolver _
    · cases ht; exact success_ne_failure _ _ _ _

/-- Claim C1: for every request body (an object, so no key occurs twice), the
handler answers with the 400 error "Request must contain exactly one of:
fibonacci, prime, lcm, hcf, AI" if and only if the number of properties whose key
is one of the five operation names and whose value is neither `undefined` nor the
empty string is different from 1; the empty body and the body with `fibonacci: 5`
and `lcm: [2, 3]` are rejected, the body with only `fibonacci: 5` succeeds. -/
theorem exactly_one_key_rule (email : String) (E : Builtins)
    (resolver : String → Except String String) (body : List (String × JsVal))
    (hnd : (body.map Prod.fst).Nodup) :
    (postBfhl email E resolver body = failure email 400 exactlyOneError
        ↔ (body.filter countsAsOperation).length ≠ 1)
    ∧ postBfhl email E resolver [] = failure email 400 exactlyOneError
    ∧ postBfhl email E resolver
        [("fibonacci", .num (JsNum.ofInt 5)),
          ("lcm", .arr [.num (JsNum.ofInt 2), .num (JsNum.ofInt 3)])]
        = failure email 400 exactlyOneError
    ∧ postBfhl email E resolver [("fibonacci", .num (JsNum.ofInt 5))]
        = success email (.arr [.num (JsNum.ofInt 0), .num (JsNum.ofInt 1), .num (JsNum.ofInt 1),
            .num (JsNum.ofInt 2), .num (JsNum.ofInt 3)]) := by
  refine ⟨?_, ?_, ?_, ?_⟩
  · rw [← present_length body hnd]
    constructor
    · intro h hlen
      obtain ⟨k, hk⟩ := List.length_eq_one.mp hlen
      exact postBfhl_ne_of_present email E resolver body k hk h
    · intro hlen
      simp [postBfhl, postBfhlTry, hlen, exactlyOneError]
  · with_unfolding_all rfl
  · with_unfolding_all rfl
  · with_unfolding_all rfl

/-- Witness of C1 at the body with the single property `prime: [2]`. -/
theorem exactly_one_key_rule_witness :
    ([("prime", JsVal.arr [.num (JsNum.ofInt 2)])].map Prod.fst).Nodup
    ∧ (postBfhl "a@b.c" sampleBuiltins sampleResolver [("prime", .arr [.num (JsNum.ofInt 2)])]
          = failure "a@b.c" 400 exactlyOneError
        ↔ ([("prime", JsVal.arr [.num (JsNum.ofInt 2)])].filter countsAsOperation).length ≠ 1) :=
  ⟨by decide, (exactly_one_key_rule "a@b.c" sampleBuiltins sampleResolver
    [("prime", .arr [.num (JsNum.ofInt 2)])] (by decide)).1⟩

/-! ## C7: the `fibonacci` branch -/

theorem digitChar_facts (d : ℕ) (h : d < 10) :
    (Nat.digitChar d).isDigit = true ∧ (Nat.digitChar d).toNat - 48 = d
      ∧ isWhiteSpace (Nat.digitChar d) = false
      ∧ Nat.digitChar d ≠ '-' ∧ Nat.digitChar d ≠ '+' := by
  interval_cases d <;> decide

theorem digitsValue_append (ds : List Char) (c : Char) :
    digitsValue (ds ++ [c]) = 10 * digitsValue ds + (c.toNat - 48) := by
  simp [digitsValue, List.foldl_append]

/-- Reading back the decimal digits of a number gives the number. -/
theorem digitsValue_digits (L : List ℕ) (h : ∀ d ∈ L, d < 10) :
    digitsValue (L.reverse.map Nat.digitChar) = Nat.ofDigits 10 L := by
  induction L with
  | nil => rfl
  | cons d r ih =>
    have hd := (digitChar_facts d (h d (List.mem_cons_self d r))).2.1
    rw [List.reverse_cons, List.map_append, List.map_singleton, digitsValue_append,
      ih (fun e he => h e (List.mem_cons_of_mem d he)), hd, Nat.ofDigits_cons]
    omega

theorem takeWhile_isDigit_digits (L : List ℕ) (h : ∀ d ∈ L, d < 10) :
    (L.map Nat.digitChar).takeWhile Char.isDigit = L.map Nat.digitChar := by
  induction L with
  | nil => rfl
  | cons d r ih =>
    have hd := (digitChar_facts d (h d (List.mem_cons_self d r))).1
    simp only [List.map_cons, List.takeWhile_cons, hd, if_true]
    rw [ih (fun e he => h e (List.mem_cons_of_mem d he))]

/-- The decimal digits of a positive number, as characters: a non-empty run of
digits that `parseInt` reads back. -/
theorem decimalDigits_facts (m : ℕ) (hm : m ≠ 0) :
    ∃ c cs, (Nat.digits 10 m).reverse.map Nat.digitChar = c :: cs
      ∧ isWhiteSpace c = false ∧ c ≠ '-' ∧ c ≠ '+'
      ∧ (c :: cs).takeWhile Char.isDigit = c :: cs
      ∧ digitsValue (c :: cs) = m := by
  have hlt : ∀ d ∈ Nat.digits 10 m, d < 10 := fun d hd => Nat.digits_lt_base (by norm_num) hd
  have hlt2 : ∀ d ∈ (Nat.digits 10 m).reverse, d < 10 := fun d hd =>
    hlt d (List.mem_reverse.mp hd)
  have hne : (Nat.digits 10 m).reverse ≠ [] := by
    simpa using (Nat.digits_ne_nil_iff_ne_zero.mpr hm)
  obtain ⟨d, ds, hds⟩ := List.exists_cons_of_ne_nil hne
  have hd := digitChar_facts d (hlt2 d (by rw [hds]; exact List.mem_cons_self d ds))
  refine ⟨Nat.digitChar d, ds.map Nat.digitChar, by rw [hds]; rfl, hd.2.2.1, hd.2.2.2.1,
    hd.2.2.2.2, ?_, ?_⟩
  · have := takeWhile_isDigit_digits (d :: ds) (by rw [← hds]; exact hlt2)
    simpa using this
  · have h1 := digitsValue_digits (Nat.digits 10 m) hlt
    rw [hds, Nat.ofDigits_digits] at h1
    simpa using h1

theorem parseInt_minus_digits (c : Char) (cs : List Char)
    (htake : (c :: cs).takeWhile Char.isDigit = c :: cs) :
    parseInt (String.mk ('-' :: c :: cs)) = JsNum.ofInt (-(digitsValue (c :: cs) : ℤ)) := by
  have hw : isWhiteSpace '-' = false := by decide
  have hdrop : List.dropWhile isWhiteSpace ('-' :: c :: cs) = '-' :: c :: cs := by
    rw [List.dropWhile_cons, hw]; rfl
  unfold parseInt
  simp only [hdrop, htake]
  rfl

theorem parseInt_digits (c : Char) (cs : List Char) (hws : isWhiteSpace c = false)
    (hminus : c ≠ '-') (hplus : c ≠ '+')
    (htake : (c :: cs).takeWhile Char.isDigit = c :: cs) :
    parseInt (String.mk (c :: cs)) = JsNum.ofInt (digitsValue (c :: cs) : ℤ) := by
  have hdrop : List.dropWhile isWhiteSpace (c :: cs) = c :: cs := by
    rw [List.dropWhile_cons, hws]; rfl
  have hmatch : (match c :: cs with
      | '-' :: r => (true, r)
      | '+' :: r => (false, r)
      | _ => (false, c :: cs)) = (false, c :: cs) := by
    split
    · rename_i heq; exact absurd (List.cons.inj heq).1 hminus
    · rename_i heq; exact absurd (List.cons.inj heq).1 hplus
    · rfl
  unfold parseInt
  simp only [hdrop, hmatch, htake]
  rfl

/-- The function `parseInt` reads the decimal string of an integer back. -/
theorem parseInt_decimalString (n : ℤ) : parseInt (decimalString n) = JsNum.ofInt n := by
  rcases lt_trichotomy n 0 with hneg | rfl | hpos
  · have hm : n.natAbs ≠ 0 := Int.natAbs_ne_zero.mpr (ne_of_lt hneg)
    obtain ⟨c, cs, hcs, hws, hminus, hplus, htake, hval⟩ := decimalDigits_facts n.natAbs hm
    have hn : -(n.natAbs : ℤ) = n := by omega
    have hdata : decimalString n = String.mk ('-' :: c :: cs) := by
      unfold decimalString
      rw [if_pos hneg, if_neg (ne_of_lt hneg), hcs]
      rfl
    rw [hdata, parseInt_minus_digits c cs htake, hval, hn]
  · with_unfolding_all rfl
  · have hm : n.natAbs ≠ 0 := Int.natAbs_ne_zero.mpr (ne_of_gt hpos)
    obtain ⟨c, cs, hcs, hws, hminus, hplus, htake, hval⟩ := decimalDigits_facts n.natAbs hm
    have hn : (n.natAbs : ℤ) = n := by omega
    have hdata : decimalString n = String.mk (c :: cs) := by
      unfold decimalString
      rw [if_neg (not_lt.mpr (le_of_lt hpos)), if_neg (ne_of_gt hpos), hcs]
      rfl
    rw [hdata, parseInt_digits c cs hws hminus hplus htake, hval, hn]

/-- The `fibonacci` branch on an integer payload, given as a number or as its
decimal string. -/
theorem fibonacciBranch_ofInt (email : String) (E : Builtins) (val : JsVal) (n : ℤ)
    (hval : val = .num (JsNum.ofInt n) ∨ val = .str (decimalString n)) :
    fibonacciBranch email E val =
      .ok (if n < 0 ∨ 1000 < n then
        failure email 400 "fibonacci must be a non-negative integer (max 1000)"
      else success email (.arr ((fibonacci (JsNum.ofInt n)).map .num))) := by
  have hco : coerceInt E val = .ok (JsNum.ofInt n) := by
    rcases hval with rfl | rfl
    · exact coerceInt_ofInt E n
    · simp only [coerceInt, toStr, ok_bind, pure_eq_ok]
      rw [parseInt_decimalString n]
  have h1 : JsNum.lt (JsNum.ofInt n) (JsNum.ofNat 0) = decide (n < 0) := by
    simp [JsNum.lt, JsNum.ofInt, JsNum.ofNat]
  have h2 : JsNum.lt (JsNum.ofNat 1000) (JsNum.ofInt n) = decide (1000 < n) := by
    simp only [JsNum.lt, JsNum.ofInt, JsNum.ofNat]
    congr 1
    rw [eq_iff_iff]
    constructor
    · intro h; exact_mod_cast h
    · intro h; exact_mod_cast h
  have h3 : JsNum.isNaN (JsNum.ofInt n) = false := rfl
  unfold fibonacciBranch
  rw [hco]
  simp only [ok_bind, pure_eq_ok, h1, h2, h3, Bool.false_or, Bool.or_eq_true, decide_eq_true_eq]
  by_cases hr : n < 0 ∨ 1000 < n
  · have hc : (false = true ∨ n < 0) ∨ 1000 < n := by tauto
    rw [if_pos hc, if_pos hr]
  · have hc : ¬ ((false = true ∨ n < 0) ∨ 1000 < n) := by simpa using hr
    rw [if_neg hc, if_neg hr]

/-- Claim C7: for every request whose only recognized key is `fibonacci`, with an
integer payload `n` given as a number or as its decimal string: if
`0 ≤ n ≤ 1000` the response is status 200 with `is_success` true and
`data = fibonacci(n)`; if `n < 0` or `n > 1000` it is the 400 error "fibonacci
must be a non-negative integer (max 1000)"; the bodies with `fibonacci: 1001` and
`fibonacci: -1` are such client errors. -/
theorem fibonacci_request (email : String) (E : Builtins)
    (resolver : String → Except String String) (body : List (String × JsVal)) (n : ℤ)
    (hpres : present body = ["fibonacci"])
    (hval : getProp body "fibonacci" = .num (JsNum.ofInt n)
      ∨ getProp body "fibonacci" = .str (decimalString n)) :
    (0 ≤ n ∧ n ≤ 1000 →
        postBfhl email E resolver body =
          { status := 200, is_success := true, official_email := email,
            data := some (.arr ((fibonacci (JsNum.ofInt n)).map .num)), error := none })
    ∧ (n < 0 ∨ 1000 < n →
        postBfhl email E resolver body =
          { status := 400, is_success := false, official_email := email, data := none,
            error := some "fibonacci must be a non-negative integer (max 1000)" })
    ∧ postBfhl email E resolver [("fibonacci", .num (JsNum.ofInt 1001))] =
        failure email 400 "fibonacci must be a non-negative integer (max 1000)"
    ∧ postBfhl email E resolver [("fibonacci", .num (JsNum.ofInt (-1)))] =
        failure email 400 "fibonacci must be a non-negative integer (max 1000)" := by
  have htry := postBfhlTry_of_present email E resolver body "fibonacci" hpres
  rw [if_pos rfl, fibonacciBranch_ofInt email E _ n hval] at htry
  have hmain := postBfhl_of_ok email E resolver body _ htry
  refine ⟨?_, ?_, ?_, ?_⟩
  · rintro ⟨h0, h1⟩
    rw [hmain, if_neg (by omega)]
    rfl
  · intro h
    rw [hmain, if_pos h]
    rfl
  · with_unfolding_all rfl
  · with_unfolding_all rfl

/-- Witness of C7 at the body with the single property `fibonacci: "5"`. -/
theorem fibonacci_request_witness :
    present [("fibonacci", JsVal.str "5")] = ["fibonacci"]
    ∧ getProp [("fibonacci", JsVal.str "5")] "fibonacci" = .str (decimalString 5)
    ∧ postBfhl "a@b.c" sampleBuiltins sampleResolver [("fibonacci", .str "5")] =
        { status := 200, is_success := true, official_email := "a@b.c",
          data := some (.arr ((fibonacci (JsNum.ofInt 5)).map .num)), error := none } :=
  ⟨by decide, by with_unfolding_all rfl,
    (fibonacci_request "a@b.c" sampleBuiltins sampleResolver [("fibonacci", .str "5")] 5
      (by decide) (Or.inr (by with_unfolding_all rfl))).1 ⟨by decide, by decide⟩⟩

/-! ## C8: the `AI` branch -/

theorem postBfhl_ai (email : String) (E : Builtins)
    (resolver : String → Except String String) (body : List (String × JsVal))
    (hpres : present body = ["AI"]) :
    postBfhl email E resolver body = aiBranch email resolver (getProp body "AI") := by
  apply postBfhl_of_ok
  rw [postBfhlTry_of_present email E resolver body "AI" hpres]
  simp

/-- The response of the `AI` branch once validation has passed: the word of the
resolver, or status 503 wrapping the resolver's message. -/
theorem aiBranch_valid (email : String) (resolver : String → Except String String)
    (s : String) (h1 : trim s ≠ "") (h2 : jsLength s ≤ 500) :
    aiBranch email resolver (.str s) =
      match resolver (trim s) with
      | .ok word => success email (.str word)
      | .error m =>
        failure email 503
          ("AI service unavailable: " ++ (if m = "" then "Unknown AI error" else m)
            ++ ". Check OPENROUTER_API_KEY or GEMINI_API_KEY.") := by
  have e2 : ¬ jsLength s > 500 := by omega
  simp only [aiBranch, h1, e2, if_false]

theorem aiBranch_status (email : String) (resolver : String → Except String String)
    (s : String) (h1 : trim s ≠ "") (h2 : jsLength s ≤ 500) :
    (aiBranch email resolver (.str s)).status ≠ 400 := by
  rw [aiBranch_valid email resolver s h1 h2]
  cases resolver (trim s) <;> simp [success, failure]

set_option maxRecDepth 100000 in
/-- Counterexample to C8 as stated: the question `a` followed by 500 spaces has a
trimmed form of one character, yet the request is rejected with the 400 error
"AI question too long" and the resolver is not consulted. -/
theorem ai_trimmed_length_counterexample :
    present [("AI", JsVal.str paddedQuestion)] = ["AI"]
    ∧ trim paddedQuestion = "a"
    ∧ jsLength (trim paddedQuestion) = 1
    ∧ postBfhl "a@b.c" sampleBuiltins sampleResolver [("AI", .str paddedQuestion)]
        = failure "a@b.c" 400 "AI question too long" := by
  refine ⟨?_, ?_, ?_, ?_⟩
  · with_unfolding_all rfl
  · with_unfolding_all rfl
  · with_unfolding_all rfl
  · with_unfolding_all rfl

/-- Claim C8, amended: for every request whose only recognized key is `AI`, the
request is rejected with a 400 client error if and only if the payload is not a
string, or is empty after trimming, or has more than 500 characters before
trimming; every string payload that is non-empty after trimming and has at most
500 characters untrimmed passes validation and is handed, trimmed, to the Answer
Resolver, whose word (status 200) or failure (status 503) is the response. -/
theorem ai_request_validation (email : String) (E : Builtins)
    (resolver : String → Except String String) (body : List (String × JsVal))
    (payload : JsVal) (hpres : present body = ["AI"]) (hval : getProp body "AI" = payload) :
    ((postBfhl email E resolver body).status = 400 ↔
        ((∀ s, payload ≠ .str s) ∨ ∃ s, payload = .str s ∧ (trim s = "" ∨ 500 < jsLength s)))
    ∧ (∀ s, payload = .str s → trim s ≠ "" → jsLength s ≤ 500 →
        postBfhl email E resolver body =
          match resolver (trim s) with
          | .ok word => success email (.str word)
          | .error m =>
            failure email 503
              ("AI service unavailable: " ++ (if m = "" then "Unknown AI error" else m)
                ++ ". Check OPENROUTER_API_KEY or GEMINI_API_KEY.")) := by
  have hmain : postBfhl email E resolver body = aiBranch email resolver payload := by
    apply postBfhl_of_ok
    rw [postBfhlTry_of_present email E resolver body "AI" hpres, hval]
    simp
  rw [hmain]
  constructor
  · cases payload with
    | str s =>
      by_cases h1 : trim s = ""
      · have : aiBranch email resolver (.str s)
            = failure email 400 "AI must be a non-empty string (question)" := by
          simp [aiBranch, h1]
        rw [this]
        simp [failure, h1]
      · by_cases h2 : 500 < jsLength s
        · have : aiBranch email resolver (.str s) = failure email 400 "AI question too long" := by
            simp [aiBranch, h1, h2]
          rw [this]
          simp [failure, h2]
        · have hst := aiBranch_status email resolver s h1 (by omega)
          simp [hst, h1, h2]
    | _ => simp [aiBranch, failure]
  · rintro s rfl h1 h2
    exact aiBranch_valid email resolver s h1 h2

/-- Witness of C8 (amended) at the body with the single property `AI: " hi "`. -/
theorem ai_request_validation_witness :
    present [("AI", JsVal.str " hi ")] = ["AI"]
    ∧ getProp [("AI", JsVal.str " hi ")] "AI" = .str " hi "
    ∧ postBfhl "a@b.c" sampleBuiltins sampleResolver [("AI", .str " hi ")]
        = success "a@b.c" (.str "Paris") :=
  ⟨by decide, by with_unfolding_all rfl,
    (ai_request_validation "a@b.c" sampleBuiltins sampleResolver [("AI", .str " hi ")]
      (.str " hi ") (by decide) (by with_unfolding_all rfl)).2 " hi " rfl (by decide)
        (by decide)⟩

/-! ## C9: the `prime` branch -/

/-- When every element is convertible, the list `nums` of the `prime` branch is
the list of the coerced elements that are not `NaN`. -/
theorem primeNums_of_convertible (E : Builtins) (xs : List JsVal)
    (h : ∀ x ∈ xs, convertible x = true) :
    primeNums E xs = .ok ((xs.map (fun x => completed JsNum.nan (coerceInt E x))).filter
      (fun n => !JsNum.isNaN n)) := by
  have hok : ∀ x ∈ xs, coerceInt E x = .ok (completed JsNum.nan (coerceInt E x)) := by
    intro x hx
    obtain ⟨n, hn⟩ := (coerceInt_spec E x).1 (h x hx)
    rw [hn]; rfl
  rw [primeNums, mapThrowing_ok _ _ xs hok]
  rfl

/-- When some element is not convertible, computing `nums` throws. -/
theorem primeNums_of_not_convertible (E : Builtins) (xs : List JsVal)
    (h : ∃ x ∈ xs, convertible x = false) :
    primeNums E xs = .error typeErrorMessage := by
  have hall : ∀ x ∈ xs, coerceInt E x = .error typeErrorMessage ∨ ∃ y, coerceInt E x = .ok y := by
    intro x _
    cases hc : convertible x with
    | true => exact Or.inr ((coerceInt_spec E x).1 hc)
    | false => exact Or.inl ((coerceInt_spec E x).2 hc)
  have hex : ∃ x ∈ xs, coerceInt E x = .error typeErrorMessage := by
    obtain ⟨x, hx, hc⟩ := h
    exact ⟨x, hx, (coerceInt_spec E x).2 hc⟩
  rw [primeNums, mapThrowing_error _ _ xs hall hex]
  rfl

theorem primeNums_length (E : Builtins) (xs : List JsVal)
    (h : ∀ x ∈ xs, convertible x = true) :
    (completed [] (primeNums E xs)).length
      = xs.countP (fun x => !(completed JsNum.nan (coerceInt E x)).isNaN) := by
  rw [primeNums_of_convertible E xs h, completed]
  simp only [List.countP_eq_length_filter, List.filter_map, List.length_map]
  rfl

theorem postBfhl_prime (email : String) (E : Builtins)
    (resolver : String → Except String String) (body : List (String × JsVal))
    (hpres : present body = ["prime"]) :
    postBfhl email E resolver body =
      match primeBranch email E (getProp body "prime") with
      | .ok r => r
      | .error _ => failure email 500 "Internal server error" := by
  have h := postBfhlTry_of_present email E resolver body "prime" hpres
  simp only [String.reduceEq, if_false, if_true] at h
  rw [postBfhl, h]

/-- Counterexample to C9 as stated: the array whose only element is an object
with an own property `toString` has no element that survives integer coercion,
yet the request is not accepted with status 200: `String(x)` throws and the
handler answers with status 500. -/
theorem prime_toString_counterexample :
    present [("prime", JsVal.arr [.obj [("toString", .num (JsNum.ofInt 1))]])] = ["prime"]
    ∧ primeNums sampleBuiltins [.obj [("toString", .num (JsNum.ofInt 1))]]
        = .error typeErrorMessage
    ∧ postBfhl "a@b.c" sampleBuiltins sampleResolver
        [("prime", .arr [.obj [("toString", .num (JsNum.ofInt 1))]])]
        = failure "a@b.c" 500 "Internal server error"
    ∧ (postBfhl "a@b.c" sampleBuiltins sampleResolver
        [("prime", .arr [.obj [("toString", .num (JsNum.ofInt 1))]])]).status ≠ 200 := by
  refine ⟨by decide, by with_unfolding_all rfl, by with_unfolding_all rfl, ?_⟩
  have h : postBfhl "a@b.c" sampleBuiltins sampleResolver
      [("prime", .arr [.obj [("toString", .num (JsNum.ofInt 1))]])]
      = failure "a@b.c" 500 "Internal server error" := by with_unfolding_all rfl
  rw [h]
  decide

/-- Claim C9, amended: for every request whose only recognized key is `prime`:
with an array payload all of whose elements are convertible (none is, or contains
inside arrays, an object with an own property `toString`), the request is
rejected with the 400 error "prime array too large (max 100)" if and only if more
than 100 elements survive integer coercion (elements whose coercion is `NaN` are
not counted), and an array with at most 100 coercible elements is accepted with
status 200, even when its raw length exceeds 100 (an array of 101 strings `x` is
accepted); with an array payload one of whose elements is not convertible, the
coercion throws and the response is the 500 error; a non-array payload is
rejected with a 400 error. -/
theorem prime_request (email : String) (E : Builtins)
    (resolver : String → Except String String) (body : List (String × JsVal))
    (payload : JsVal) (hpres : present body = ["prime"])
    (hval : getProp body "prime" = payload) :
    (∀ xs, payload = .arr xs → (∀ x ∈ xs, convertible x = true) →
        (postBfhl email E resolver body = failure email 400 "prime array too large (max 100)"
          ↔ 100 < xs.countP (fun x => !(completed JsNum.nan (coerceInt E x)).isNaN))
        ∧ (xs.countP (fun x => !(completed JsNum.nan (coerceInt E x)).isNaN) ≤ 100 →
            postBfhl email E resolver body =
              { status := 200, is_success := true, official_email := email,
                data := some (.arr (primesFromArray
                  (.arr ((completed [] (primeNums E xs)).map .num)))),
                error := none }))
    ∧ (∀ xs, payload = .arr xs → (∃ x ∈ xs, convertible x = false) →
        postBfhl email E resolver body = failure email 500 "Internal server error")
    ∧ ((∀ xs, payload ≠ .arr xs) →
        postBfhl email E resolver body = failure email 400 "prime must be an array of integers")
    ∧ (postBfhl email E resolver [("prime", .arr (List.replicate 101 (.str "x")))]).status = 200
        := by
  have hmain := postBfhl_prime email E resolver body hpres
  rw [hval] at hmain
  refine ⟨?_, ?_, ?_, ?_⟩
  · rintro xs rfl hconv
    rw [← primeNums_length E xs hconv]
    have hnums := primeNums_of_convertible E xs hconv
    generalize hN : (xs.map (fun x => completed JsNum.nan (coerceInt E x))).filter
      (fun n => !JsNum.isNaN n) = nums at hnums
    rw [hnums, completed]
    by_cases hcap : 100 < nums.length
    · have : postBfhl email E resolver body
          = failure email 400 "prime array too large (max 100)" := by
        rw [hmain]
        simp [primeBranch, hnums, hcap]
      rw [this]
      exact ⟨⟨fun _ => hcap, fun _ => rfl⟩, fun h => absurd h (by omega)⟩
    · have : postBfhl email E resolver body
          = success email (.arr (primesFromArray (.arr (nums.map .num)))) := by
        rw [hmain]
        simp [primeBranch, hnums, hcap]
      rw [this]
      refine ⟨⟨fun h => absurd h (success_ne_failure _ _ _ _), fun h => absurd h hcap⟩,
        fun _ => rfl⟩
  · rintro xs rfl hex
    rw [hmain]
    simp [primeBranch, primeNums_of_not_convertible E xs hex]
  · intro hna
    rw [hmain]
    cases payload with
    | arr xs => exact absurd rfl (hna xs)
    | _ => rfl
  · have hnan : coerceInt E (.str "x") = .ok JsNum.nan := by with_unfolding_all rfl
    have hok : ∀ v ∈ List.replicate 101 (JsVal.str "x"),
        coerceInt E v = .ok ((fun _ => JsNum.nan) v) := by
      intro v hv
      rw [List.eq_of_mem_replicate hv]
      exact hnan
    have hnums : primeNums E (List.replicate 101 (.str "x")) = .ok [] := by
      rw [primeNums, mapThrowing_ok _ _ _ hok]
      simp [List.map_replicate, JsNum.isNaN, List.filter_replicate]
    have hp : present [("prime", JsVal.arr (List.replicate 101 (.str "x")))] = ["prime"] := by
      with_unfolding_all rfl
    have hg : getProp [("prime", JsVal.arr (List.replicate 101 (.str "x")))] "prime"
        = .arr (List.replicate 101 (.str "x")) := by with_unfolding_all rfl
    rw [postBfhl_prime email E resolver _ hp, hg]
    simp only [primeBranch, hnums]
    rfl

/-- Witness of C9 (amended) at the body with the single property
`prime: [2, "x"]`. -/
theorem prime_request_witness :
    present [("prime", JsVal.arr [.num (JsNum.ofInt 2), .str "x"])] = ["prime"]
    ∧ getProp [("prime", JsVal.arr [.num (JsNum.ofInt 2), .str "x"])] "prime"
        = .arr [.num (JsNum.ofInt 2), .str "x"]
    ∧ (∀ x ∈ [JsVal.num (JsNum.ofInt 2), .str "x"], convertible x = true)
    ∧ postBfhl "a@b.c" sampleBuiltins sampleResolver
        [("prime", .arr [.num (JsNum.ofInt 2), .str "x"])]
        = { status := 200, is_success := true, official_email := "a@b.c",
            data := some (.arr (primesFromArray (.arr ((completed [] (primeNums sampleBuiltins
              [.num (JsNum.ofInt 2), .str "x"])).map .num)))),
            error := none } :=
  ⟨by decide, by with_unfolding_all rfl, by decide,
    ((prime_request "a@b.c" sampleBuiltins sampleResolver
      [("prime", .arr [.num (JsNum.ofInt 2), .str "x"])] (.arr [.num (JsNum.ofInt 2), .str "x"])
      (by decide) (by with_unfolding_all rfl)).1 [.num (JsNum.ofInt 2), .str "x"] rfl
        (by decide)).2 (by with_unfolding_all decide)⟩

/-! ## C10: the `lcm` and `hcf` branches -/

theorem postBfhl_lcm (email : String) (E : Builtins)
    (resolver : String → Except String String) (body : List (String × JsVal))
    (hpres : present body = ["lcm"]) :
    postBfhl email E resolver body =
      match lcmBranch email E (getProp body "lcm") with
      | .ok r => r
      | .error _ => failure email 500 "Internal server error" := by
  have h := postBfhlTry_of_present email E resolver body "lcm" hpres
  simp only [String.reduceEq, if_false, if_true] at h
  rw [postBfhl, h]

theorem postBfhl_hcf (email : String) (E : Builtins)
    (resolver : String → Except String String) (body : List (String × JsVal))
    (hpres : present body = ["hcf"]) :
    postBfhl email E resolver body =
      match hcfBranch email E (getProp body "hcf") with
      | .ok r => r
      | .error _ => failure email 500 "Internal server error" := by
  have h := postBfhlTry_of_present email E resolver body "hcf" hpres
  simp only [String.reduceEq, if_false, if_true] at h
  rw [postBfhl, h]

/-- An element survives the operand filter exactly when `Number(n)` is not `NaN`. -/
theorem operand_survives (x : JsNum) :
    (!JsNum.isNaN (JsNum.abs (JsNum.floor x))
      && JsNum.le (JsNum.ofNat 0) (JsNum.abs (JsNum.floor x))) = !JsNum.isNaN x := by
  cases x with
  | nan => rfl
  | fin q => simp [JsNum.isNaN, JsNum.abs, JsNum.floor, JsNum.le, JsNum.ofNat]

/-- When every element is convertible, the operand list only depends on the
elements that coerce to a number. -/
theorem operands_of_convertible (E : Builtins) (xs : List JsVal)
    (h : ∀ x ∈ xs, convertible x = true) :
    operands E xs = .ok ((xs.filter (fun x => !(completed JsNum.nan (toNumber E x)).isNaN)).map
      (fun n => JsNum.abs (JsNum.floor (completed JsNum.nan (toNumber E n))))) := by
  have hok : ∀ x ∈ xs,
      (do
        let v ← toNumber E x
        pure (JsNum.abs (JsNum.floor v)) : Except String JsNum)
      = .ok ((fun n => JsNum.abs (JsNum.floor (completed JsNum.nan (toNumber E n)))) x) := by
    intro x hx
    obtain ⟨n, hn⟩ := (toNumber_spec E x).1 (h x hx)
    simp only [hn, ok_bind, pure_eq_ok, completed]
  rw [operands, mapThrowing_ok _ _ xs hok]
  simp only [ok_bind, pure_eq_ok, List.filter_map]
  congr 2
  apply List.filter_congr
  intro x _
  exact operand_survives (completed JsNum.nan (toNumber E x))

/-- When some element is not convertible, computing the operand list throws. -/
theorem operands_of_not_convertible (E : Builtins) (xs : List JsVal)
    (h : ∃ x ∈ xs, convertible x = false) :
    operands E xs = .error typeErrorMessage := by
  have hall : ∀ x ∈ xs,
      (do
        let v ← toNumber E x
        pure (JsNum.abs (JsNum.floor v)) : Except String JsNum) = .error typeErrorMessage
      ∨ ∃ y, (do
        let v ← toNumber E x
        pure (JsNum.abs (JsNum.floor v)) : Except String JsNum) = .ok y := by
    intro x _
    cases hc : convertible x with
    | true =>
      obtain ⟨n, hn⟩ := (toNumber_spec E x).1 hc
      exact Or.inr ⟨_, by rw [hn]; rfl⟩
    | false => exact Or.inl (by rw [(toNumber_spec E x).2 hc]; rfl)
  have hex : ∃ x ∈ xs,
      (do
        let v ← toNumber E x
        pure (JsNum.abs (JsNum.floor v)) : Except String JsNum) = .error typeErrorMessage := by
    obtain ⟨x, hx, hc⟩ := h
    exact ⟨x, hx, by rw [(toNumber_spec E x).2 hc]; rfl⟩
  rw [operands, mapThrowing_error _ _ xs hall hex]
  rfl

theorem operands_filter (E : Builtins) (xs : List JsVal)
    (h : ∀ x ∈ xs, convertible x = true) :
    operands E (xs.filter (fun x => !(completed JsNum.nan (toNumber E x)).isNaN))
      = operands E xs := by
  rw [operands_of_convertible E xs h,
    operands_of_convertible E _ (fun x hx => h x (List.mem_filter.mp hx).1), List.filter_filter]
  simp

theorem operands_eq_nil_iff (E : Builtins) (xs : List JsVal)
    (h : ∀ x ∈ xs, convertible x = true) :
    operands E xs = .ok [] ↔ ∀ x ∈ xs, toNumber E x = .ok JsNum.nan := by
  rw [operands_of_convertible E xs h]
  simp only [Except.ok.injEq, List.map_eq_nil_iff, List.filter_eq_nil_iff]
  constructor
  · intro hnil x hx
    have := hnil x hx
    obtain ⟨n, hn⟩ := (toNumber_spec E x).1 (h x hx)
    rw [hn, completed] at this
    cases n with
    | nan => exact hn
    | fin q => simp [JsNum.isNaN] at this
  · intro hall x hx
    simp [hall x hx, completed, JsNum.isNaN]

theorem lcmOfArray_eq_none_iff (E : Builtins) (xs : List JsVal) (hne : xs ≠ [])
    (h : ∀ x ∈ xs, convertible x = true) :
    lcmOfArray E (.arr xs) = .ok none ↔ ∀ x ∈ xs, toNumber E x = .ok JsNum.nan := by
  have hlen : ¬ xs.length = 0 := by simpa using hne
  rw [← operands_eq_nil_iff E xs h]
  obtain ⟨nums, hnums⟩ : ∃ nums, operands E xs = .ok nums := ⟨_, operands_of_convertible E xs h⟩
  simp only [lcmOfArray, hlen, if_false, hnums, ok_bind]
  cases nums <;> simp

theorem hcfOfArray_eq_none_iff (E : Builtins) (xs : List JsVal) (hne : xs ≠ [])
    (h : ∀ x ∈ xs, convertible x = true) :
    hcfOfArray E (.arr xs) = .ok none ↔ ∀ x ∈ xs, toNumber E x = .ok JsNum.nan := by
  have hlen : ¬ xs.length = 0 := by simpa using hne
  rw [← operands_eq_nil_iff E xs h]
  obtain ⟨nums, hnums⟩ : ∃ nums, operands E xs = .ok nums := ⟨_, operands_of_convertible E xs h⟩
  simp only [hcfOfArray, hlen, if_false, hnums, ok_bind]
  cases nums <;> simp

theorem ofArray_completes (E : Builtins) (xs : List JsVal)
    (h : ∀ x ∈ xs, convertible x = true) :
    (∃ r, lcmOfArray E (.arr xs) = .ok r) ∧ ∃ r, hcfOfArray E (.arr xs) = .ok r := by
  obtain ⟨nums, hnums⟩ : ∃ nums, operands E xs = .ok nums := ⟨_, operands_of_convertible E xs h⟩
  constructor
  · simp only [lcmOfArray, hnums, ok_bind]
    split
    · exact ⟨_, rfl⟩
    · cases nums <;> exact ⟨_, rfl⟩
  · simp only [hcfOfArray, hnums, ok_bind]
    split
    · exact ⟨_, rfl⟩
    · cases nums <;> exact ⟨_, rfl⟩

theorem ofArray_throws (E : Builtins) (xs : List JsVal)
    (h : ∃ x ∈ xs, convertible x = false) :
    lcmOfArray E (.arr xs) = .error typeErrorMessage
    ∧ hcfOfArray E (.arr xs) = .error typeErrorMessage := by
  have hlen : ¬ xs.length = 0 := by
    obtain ⟨x, hx, _⟩ := h
    intro h0
    rw [List.length_eq_zero] at h0
    rw [h0] at hx
    cases hx
  constructor
  · simp only [lcmOfArray, hlen, if_false, operands_of_not_convertible E xs h, error_bind]
  · simp only [hcfOfArray, hlen, if_false, operands_of_not_convertible E xs h, error_bind]

theorem filter_coercible_ne_nil (E : Builtins) (xs : List JsVal)
    (h : ∃ x ∈ xs, ∃ n, toNumber E x = .ok n ∧ n ≠ JsNum.nan) :
    xs.filter (fun x => !(completed JsNum.nan (toNumber E x)).isNaN) ≠ [] := by
  obtain ⟨x, hx, n, hn, hne⟩ := h
  intro hnil
  have := (List.filter_eq_nil_iff.mp hnil) x hx
  rw [hn, completed] at this
  cases n with
  | nan => exact hne rfl
  | fin q => simp [JsNum.isNaN] at this

/-- The functions `lcmOfArray` and `hcfOfArray` compute over the coercible
elements only. -/
theorem ofArray_filter (E : Builtins) (xs : List JsVal)
    (hconv : ∀ x ∈ xs, convertible x = true)
    (h : ∃ x ∈ xs, ∃ n, toNumber E x = .ok n ∧ n ≠ JsNum.nan) :
    lcmOfArray E (.arr (xs.filter (fun x => !(completed JsNum.nan (toNumber E x)).isNaN)))
      = lcmOfArray E (.arr xs)
    ∧ hcfOfArray E (.arr (xs.filter (fun x => !(completed JsNum.nan (toNumber E x)).isNaN)))
        = hcfOfArray E (.arr xs) := by
  have h1 := filter_coercible_ne_nil E xs h
  have hl1 : ¬ (xs.filter (fun x => !(completed JsNum.nan (toNumber E x)).isNaN)).length = 0 := by
    simpa using h1
  have hl2 : ¬ xs.length = 0 := by
    obtain ⟨x, hx, _⟩ := h
    intro h0
    rw [List.length_eq_zero] at h0
    rw [h0] at hx
    cases hx
  constructor
  · simp only [lcmOfArray, hl1, hl2, if_false, operands_filter E xs hconv]
  · simp only [hcfOfArray, hl1, hl2, if_false, operands_filter E xs hconv]

theorem lcmBranch_outcome (email : String) (E : Builtins) (payload : JsVal) :
    (((∀ xs, payload ≠ .arr xs) ∨ payload = .arr []) →
        lcmBranch email E payload
          = .ok (failure email 400 "lcm must be a non-empty array of integers"))
    ∧ (∀ xs, payload = .arr xs → xs ≠ [] → (∀ x ∈ xs, convertible x = true) →
        ((∀ x ∈ xs, toNumber E x = .ok JsNum.nan) →
          lcmBranch email E payload
            = .ok (failure email 400 "lcm array must contain valid integers"))
        ∧ ((∃ x ∈ xs, ∃ n, toNumber E x = .ok n ∧ n ≠ JsNum.nan) →
          ∃ v, lcmOfArray E payload = .ok (some v)
            ∧ lcmOfArray E
                (.arr (xs.filter (fun x => !(completed JsNum.nan (toNumber E x)).isNaN)))
                = .ok (some v)
            ∧ lcmBranch email E payload =
                .ok { status := 200, is_success := true, official_email := email,
                      data := some (.num v), error := none }))
    ∧ (∀ xs, payload = .arr xs → (∃ x ∈ xs, convertible x = false) →
        lcmBranch email E payload = .error typeErrorMessage) := by
  refine ⟨?_, ?_, ?_⟩
  · rintro (h | rfl)
    · cases payload with
      | arr xs => exact absurd rfl (h xs)
      | _ => rfl
    · rfl
  · rintro xs rfl hne hconv
    have hnn : notNonEmptyArray (.arr xs) = false := by
      cases xs with
      | nil => exact absurd rfl hne
      | cons x r => rfl
    constructor
    · intro hall
      have := (lcmOfArray_eq_none_iff E xs hne hconv).mpr hall
      simp [lcmBranch, hnn, this]
    · intro hex
      obtain ⟨r, hr⟩ := (ofArray_completes E xs hconv).1
      cases r with
      | none =>
        obtain ⟨x, hx, n, hn, hnn2⟩ := hex
        have := (lcmOfArray_eq_none_iff E xs hne hconv).mp hr x hx
        rw [hn] at this
        cases this
        exact absurd rfl hnn2
      | some v =>
        refine ⟨v, hr, ?_, ?_⟩
        · rw [(ofArray_filter E xs hconv hex).1, hr]
        · simp [lcmBranch, hnn, hr, success]
  · rintro xs rfl hex
    have hnn : notNonEmptyArray (.arr xs) = false := by
      obtain ⟨x, hx, _⟩ := hex
      cases xs with
      | nil => cases hx
      | cons y r => rfl
    simp [lcmBranch, hnn, (ofArray_throws E xs hex).1]

theorem hcfBranch_outcome (email : String) (E : Builtins) (payload : JsVal) :
    (((∀ xs, payload ≠ .arr xs) ∨ payload = .arr []) →
        hcfBranch email E payload
          = .ok (failure email 400 "hcf must be a non-empty array of integers"))
    ∧ (∀ xs, payload = .arr xs → xs ≠ [] → (∀ x ∈ xs, convertible x = true) →
        ((∀ x ∈ xs, toNumber E x = .ok JsNum.nan) →
          hcfBranch email E payload
            = .ok (failure email 400 "hcf array must contain valid integers"))
        ∧ ((∃ x ∈ xs, ∃ n, toNumber E x = .ok n ∧ n ≠ JsNum.nan) →
          ∃ v, hcfOfArray E payload = .ok (some v)
            ∧ hcfOfArray E
                (.arr (xs.filter (fun x => !(completed JsNum.nan (toNumber E x)).isNaN)))
                = .ok (some v)
            ∧ hcfBranch email E payload =
                .ok { status := 200, is_success := true, official_email := email,
                      data := some (.num v), error := none }))
    ∧ (∀ xs, payload = .arr xs → (∃ x ∈ xs, convertible x = false) →
        hcfBranch email E payload = .error typeErrorMessage) := by
  refine ⟨?_, ?_, ?_⟩
  · rintro (h | rfl)
    · cases payload with
      | arr xs => exact absurd rfl (h xs)
      | _ => rfl
    · rfl
  · rintro xs rfl hne hconv
    have hnn : notNonEmptyArray (.arr xs) = false := by
      cases xs with
      | nil => exact absurd rfl hne
      | cons x r => rfl
    constructor
    · intro hall
      have := (hcfOfArray_eq_none_iff E xs hne hconv).mpr hall
      simp [hcfBranch, hnn, this]
    · intro hex
      obtain ⟨r, hr⟩ := (ofArray_completes E xs hconv).2
      cases r with
      | none =>
        obtain ⟨x, hx, n, hn, hnn2⟩ := hex
        have := (hcfOfArray_eq_none_iff E xs hne hconv).mp hr x hx
        rw [hn] at this
        cases this
        exact absurd rfl hnn2
      | some v =>
        refine ⟨v, hr, ?_, ?_⟩
        · rw [(ofArray_filter E xs hconv hex).2, hr]
        · simp [hcfBranch, hnn, hr, success]
  · rintro xs rfl hex
    have hnn : notNonEmptyArray (.arr xs) = false := by
      obtain ⟨x, hx, _⟩ := hex
      cases xs with
      | nil => cases hx
      | cons y r => rfl
    simp [hcfBranch, hnn, (ofArray_throws E xs hex).2]

/-- Counterexample to C10 as stated: in the non-empty array whose only element is
an object with an own property `toString`, no element coerces to a number, yet
the response is not the 400 error "lcm array must contain valid integers":
`Number(n)` throws and the handler answers with status 500 (the same holds for
`hcf`). -/
theorem lcm_hcf_toString_counterexample :
    present [("lcm", JsVal.arr [.obj [("toString", .num (JsNum.ofInt 1))]])] = ["lcm"]
    ∧ toNumber sampleBuiltins (.obj [("toString", .num (JsNum.ofInt 1))])
        = .error typeErrorMessage
    ∧ postBfhl "a@b.c" sampleBuiltins sampleResolver
        [("lcm", .arr [.obj [("toString", .num (JsNum.ofInt 1))]])]
        = failure "a@b.c" 500 "Internal server error"
    ∧ postBfhl "a@b.c" sampleBuiltins sampleResolver
        [("lcm", .arr [.obj [("toString", .num (JsNum.ofInt 1))]])]
        ≠ failure "a@b.c" 400 "lcm array must contain valid integers"
    ∧ postBfhl "a@b.c" sampleBuiltins sampleResolver
        [("hcf", .arr [.obj [("toString", .num (JsNum.ofInt 1))]])]
        = failure "a@b.c" 500 "Internal server error" := by
  have h : postBfhl "a@b.c" sampleBuiltins sampleResolver
      [("lcm", .arr [.obj [("toString", .num (JsNum.ofInt 1))]])]
      = failure "a@b.c" 500 "Internal server error" := by with_unfolding_all rfl
  refine ⟨by decide, by with_unfolding_all rfl, h, ?_, by with_unfolding_all rfl⟩
  rw [h]
  intro heq
  have := congrArg Response.status heq
  simp [failure] at this

/-- Claim C10, amended: for every request whose only recognized key is `lcm`
(respectively `hcf`): a payload that is not an array or is the empty array gives
a 400 error; a non-empty array all of whose elements are convertible (none is, or
contains inside arrays, an object with an own property `toString`) and none of
whose elements coerces to a number gives the distinct 400 error "... array must
contain valid integers"; a non-empty array of convertible elements at least one of
which coerces gives status 200 with `data = lcmOfArray(payload)` (respectively
`hcfOfArray(payload)`), computed over the coercible elements only; an array one
of whose elements is not convertible makes the coercion throw and gives the 500
error; in particular every non-empty array of integers succeeds. -/
theorem lcm_hcf_request (email : String) (E : Builtins)
    (resolver : String → Except String String) (body : List (String × JsVal))
    (payload : JsVal) :
    (present body = ["lcm"] → getProp body "lcm" = payload →
      (((∀ xs, payload ≠ .arr xs) ∨ payload = .arr []) →
          postBfhl email E resolver body
            = failure email 400 "lcm must be a non-empty array of integers")
      ∧ (∀ xs, payload = .arr xs → xs ≠ [] → (∀ x ∈ xs, convertible x = true) →
          ((∀ x ∈ xs, toNumber E x = .ok JsNum.nan) →
            postBfhl email E resolver body
              = failure email 400 "lcm array must contain valid integers")
          ∧ ((∃ x ∈ xs, ∃ n, toNumber E x = .ok n ∧ n ≠ JsNum.nan) →
            ∃ v, lcmOfArray E payload = .ok (some v)
              ∧ lcmOfArray E
                  (.arr (xs.filter (fun x => !(completed JsNum.nan (toNumber E x)).isNaN)))
                  = .ok (some v)
              ∧ postBfhl email E resolver body =
                  { status := 200, is_success := true, official_email := email,
                    data := some (.num v), error := none }))
      ∧ (∀ xs, payload = .arr xs → (∃ x ∈ xs, convertible x = false) →
          postBfhl email E resolver body = failure email 500 "Internal server error")
      ∧ (∀ zs : List ℤ, zs ≠ [] → payload = .arr (zs.map (fun z => .num (JsNum.ofInt z))) →
          (postBfhl email E resolver body).status = 200))
    ∧ (present body = ["hcf"] → getProp body "hcf" = payload →
      (((∀ xs, payload ≠ .arr xs) ∨ payload = .arr []) →
          postBfhl email E resolver body
            = failure email 400 "hcf must be a non-empty array of integers")
      ∧ (∀ xs, payload = .arr xs → xs ≠ [] → (∀ x ∈ xs, convertible x = true) →
          ((∀ x ∈ xs, toNumber E x = .ok JsNum.nan) →
            postBfhl email E resolver body
              = failure email 400 "hcf array must contain valid integers")
          ∧ ((∃ x ∈ xs, ∃ n, toNumber E x = .ok n ∧ n ≠ JsNum.nan) →
            ∃ v, hcfOfArray E payload = .ok (some v)
              ∧ hcfOfArray E
                  (.arr (xs.filter (fun x => !(completed JsNum.nan (toNumber E x)).isNaN)))
                  = .ok (some v)
              ∧ postBfhl email E resolver body =
                  { status := 200, is_success := true, official_email := email,
                    data := some (.num v), error := none }))
      ∧ (∀ xs, payload = .arr xs → (∃ x ∈ xs, convertible x = false) →
          postBfhl email E resolver body = failure email 500 "Internal server error")
      ∧ (∀ zs : List ℤ, zs ≠ [] → payload = .arr (zs.map (fun z => .num (JsNum.ofInt z))) →
          (postBfhl email E resolver body).status = 200))
    ∧ "lcm array must contain valid integers" ≠ "lcm must be a non-empty array of integers"
    ∧ "hcf array must contain valid integers" ≠ "hcf must be a non-empty array of integers" := by
  refine ⟨?_, ?_, by decide, by decide⟩
  · intro hpres hval
    have hmain := postBfhl_lcm email E resolver body hpres
    rw [hval] at hmain
    have h := lcmBranch_outcome email E payload
    refine ⟨?_, ?_, ?_, ?_⟩
    · intro hp
      rw [hmain, h.1 hp]
    · intro xs hxs hne hconv
      refine ⟨fun hall => ?_, fun hex => ?_⟩
      · rw [hmain, ((h.2.1 xs hxs hne hconv).1 hall)]
      · obtain ⟨v, h1, h2, h3⟩ := (h.2.1 xs hxs hne hconv).2 hex
        exact ⟨v, h1, h2, by rw [hmain, h3]⟩
    · intro xs hxs hex
      rw [hmain, h.2.2 xs hxs hex]
    · rintro zs hzs rfl
      have hne : zs.map (fun z => JsVal.num (JsNum.ofInt z)) ≠ [] := by simpa using hzs
      have hconv : ∀ x ∈ zs.map (fun z => JsVal.num (JsNum.ofInt z)), convertible x = true := by
        intro x hx
        obtain ⟨z, _, rfl⟩ := List.mem_map.mp hx
        rfl
      obtain ⟨z, r, rfl⟩ := List.exists_cons_of_ne_nil hzs
      obtain ⟨v, _, _, hresp⟩ := (h.2.1 _ rfl hne hconv).2
        ⟨.num (JsNum.ofInt z), by simp, JsNum.ofInt z, rfl, by simp [JsNum.ofInt]⟩
      rw [hmain, hresp]
  · intro hpres hval
    have hmain := postBfhl_hcf email E resolver body hpres
    rw [hval] at hmain
    have h := hcfBranch_outcome email E payload
    refine ⟨?_, ?_, ?_, ?_⟩
    · intro hp
      rw [hmain, h.1 hp]
    · intro xs hxs hne hconv
      refine ⟨fun hall => ?_, fun hex => ?_⟩
      · rw [hmain, ((h.2.1 xs hxs hne hconv).1 hall)]
      · obtain ⟨v, h1, h2, h3⟩ := (h.2.1 xs hxs hne hconv).2 hex
        exact ⟨v, h1, h2, by rw [hmain, h3]⟩
    · intro xs hxs hex
      rw [hmain, h.2.2 xs hxs hex]
    · rintro zs hzs rfl
      have hne : zs.map (fun z => JsVal.num (JsNum.ofInt z)) ≠ [] := by simpa using hzs
      have hconv : ∀ x ∈ zs.map (fun z => JsVal.num (JsNum.ofInt z)), convertible x = true := by
        intro x hx
        obtain ⟨z, _, rfl⟩ := List.mem_map.mp hx
        rfl
      obtain ⟨z, r, rfl⟩ := List.exists_cons_of_ne_nil hzs
      obtain ⟨v, _, _, hresp⟩ := (h.2.1 _ rfl hne hconv).2
        ⟨.num (JsNum.ofInt z), by simp, JsNum.ofInt z, rfl, by simp [JsNum.ofInt]⟩
      rw [hmain, hresp]

/-- Witness of C10 (amended) at the body with the single property
`lcm: [4, "x", 6]`. -/
theorem lcm_hcf_request_witness :
    present [("lcm", JsVal.arr [.num (JsNum.ofInt 4), .str "x", .num (JsNum.ofInt 6)])] = ["lcm"]
    ∧ getProp [("lcm", JsVal.arr [.num (JsNum.ofInt 4), .str "x", .num (JsNum.ofInt 6)])] "lcm"
        = .arr [.num (JsNum.ofInt 4), .str "x", .num (JsNum.ofInt 6)]
    ∧ (∀ x ∈ [JsVal.num (JsNum.ofInt 4), .str "x", .num (JsNum.ofInt 6)], convertible x = true)
    ∧ (∃ x ∈ [JsVal.num (JsNum.ofInt 4), .str "x", .num (JsNum.ofInt 6)],
        ∃ n, toNumber sampleBuiltins x = .ok n ∧ n ≠ JsNum.nan)
    ∧ ∃ v, lcmOfArray sampleBuiltins (.arr [.num (JsNum.ofInt 4), .str "x", .num (JsNum.ofInt 6)])
          = .ok (some v)
        ∧ lcmOfArray sampleBuiltins
            (.arr ([JsVal.num (JsNum.ofInt 4), .str "x", .num (JsNum.ofInt 6)].filter
              (fun x => !(completed JsNum.nan (toNumber sampleBuiltins x)).isNaN))) = .ok (some v)
        ∧ postBfhl "a@b.c" sampleBuiltins sampleResolver
            [("lcm", .arr [.num (JsNum.ofInt 4), .str "x", .num (JsNum.ofInt 6)])] =
              { status := 200, is_success := true, official_email := "a@b.c",
                data := some (.num v), error := none } :=
  ⟨by decide, by with_unfolding_all rfl, by decide,
    ⟨.num (JsNum.ofInt 4), by simp, JsNum.ofInt 4, rfl, by simp [JsNum.ofInt]⟩,
    (((lcm_hcf_request "a@b.c" sampleBuiltins sampleResolver
      [("lcm", .arr [.num (JsNum.ofInt 4), .str "x", .num (JsNum.ofInt 6)])]
      (.arr [.num (JsNum.ofInt 4), .str "x", .num (JsNum.ofInt 6)])).1
        (by decide) (by with_unfolding_all rfl)).2.1 _ rfl (by simp) (by decide)).2
          ⟨.num (JsNum.ofInt 4), by simp, JsNum.ofInt 4, rfl, by simp [JsNum.ofInt]⟩⟩

/-! ## Closed instances -/

/-- Witness of C4 at `xs = [12, -18, 30]`. -/
theorem hcfOfArray_greatest_common_divisor_witness :
    ([12, -18, 30] : List ℤ) ≠ []
    ∧ ∃ g : ℕ, hcfOfArray sampleBuiltins
          (.arr (([12, -18, 30] : List ℤ).map (fun x => JsVal.num (JsNum.ofInt x))))
          = .ok (some (JsNum.ofNat g))
        ∧ (∀ x ∈ ([12, -18, 30] : List ℤ), (g : ℤ) ∣ x)
        ∧ (∀ d : ℤ, (∀ x ∈ ([12, -18, 30] : List ℤ), d ∣ x) → d ∣ (g : ℤ))
        ∧ (g = 0 ↔ ∀ x ∈ ([12, -18, 30] : List ℤ), x = 0) :=
  ⟨by decide, (hcfOfArray_greatest_common_divisor sampleBuiltins [12, -18, 30] (by decide)).1⟩

/-- Witness of C5 at `xs = [4, -6, 10]`. -/
theorem lcmOfArray_least_common_multiple_witness :
    ([4, -6, 10] : List ℤ) ≠ [] ∧ productsWithin [4, -6, 10] = true
    ∧ ∃ l : ℕ, lcmOfArray sampleBuiltins
          (.arr (([4, -6, 10] : List ℤ).map (fun x => JsVal.num (JsNum.ofInt x))))
          = .ok (some (JsNum.ofNat l))
        ∧ ((∃ x ∈ ([4, -6, 10] : List ℤ), x = 0) → l = 0)
        ∧ ((∀ x ∈ ([4, -6, 10] : List ℤ), x ≠ 0) →
            0 < l ∧ (∀ x ∈ ([4, -6, 10] : List ℤ), x ∣ (l : ℤ))
              ∧ ∀ m : ℕ, 0 < m → (∀ x ∈ ([4, -6, 10] : List ℤ), x ∣ (m : ℤ)) → l ≤ m) :=
  ⟨by decide, by decide,
    (lcmOfArray_least_common_multiple sampleBuiltins [4, -6, 10] (by decide)).2.1 (by decide)⟩

/-- Witness of C6 through the handler, at the body with the single property
`prime: [1, 2, 3, 4, 17, "x"]`. -/
theorem primesFromArray_exact_witness :
    postBfhl "a@b.c" sampleBuiltins sampleResolver
      [("prime", .arr [.num (JsNum.ofInt 1), .num (JsNum.ofInt 2), .num (JsNum.ofInt 3),
        .num (JsNum.ofInt 4), .num (JsNum.ofInt 17), .str "x"])]
      = success "a@b.c" (.arr ([JsVal.num (JsNum.ofInt 1), .num (JsNum.ofInt 2),
          .num (JsNum.ofInt 3), .num (JsNum.ofInt 4), .num (JsNum.ofInt 17), .str "x"].filter
            isPrimeIntegerValue)) :=
  (primesFromArray_exact "a@b.c" sampleBuiltins sampleResolver
    [("prime", .arr [.num (JsNum.ofInt 1), .num (JsNum.ofInt 2), .num (JsNum.ofInt 3),
      .num (JsNum.ofInt 4), .num (JsNum.ofInt 17), .str "x"])]
    [.num (JsNum.ofInt 1), .num (JsNum.ofInt 2), .num (JsNum.ofInt 3),
      .num (JsNum.ofInt 4), .num (JsNum.ofInt 17), .str "x"]).2.2.2.2.2
    (by decide) (by with_unfolding_all rfl)
    (by
      intro v hv
      simp only [List.mem_cons, List.mem_singleton, List.not_mem_nil, or_false] at hv
      rcases hv with rfl | rfl | rfl | rfl | rfl | rfl
      · exact Or.inl ⟨1, rfl⟩
      · exact Or.inl ⟨2, rfl⟩
      · exact Or.inl ⟨3, rfl⟩
      · exact Or.inl ⟨4, rfl⟩
      · exact Or.inl ⟨17, rfl⟩
      · exact Or.inr (by with_unfolding_all rfl))
    (by with_unfolding_all decide)

/-- Witness of C3 at `x = 17`. -/
theorem isPrime_iff_witness :
    isPrime (JsNum.ofInt 17) = true ∧ (0 : ℤ) ≤ 17 ∧ Nat.Prime (17 : ℤ).toNat :=
  ⟨((isPrime_iff 17).2.1).mpr ⟨by decide, by show Nat.Prime 17; norm_num⟩, by decide,
    by show Nat.Prime 17; norm_num⟩

/-! ## Adequacy of the step budgets

Each loop is run on a budget of steps computed from its bound. The lemmas of this
section show that a larger budget never changes the result, for every argument:
the loops of the model stop because their condition fails, as in the source,
never because the budget is used up. -/

theorem fibonacciLoop_budget (n : JsNum) :
    ∀ (steps i : ℕ) (out : List JsNum) (extra : ℕ),
      JsNum.lt (JsNum.ofNat (i + steps)) n = false →
      fibonacciLoop n (steps + extra) i out = fibonacciLoop n steps i out := by
  intro steps
  induction steps with
  | zero =>
    intro i out extra h
    cases extra with
    | zero => rfl
    | succ k =>
      simp only [Nat.add_zero] at h
      simp [fibonacciLoop, h]
  | succ s ih =>
    intro i out extra h
    have hs : s + 1 + extra = (s + extra) + 1 := by omega
    rw [hs]
    simp only [fibonacciLoop]
    split
    · exact ih (i + 1) _ extra (by rw [← h]; congr 2; omega)
    · rfl

theorem lt_budget (n : JsNum) (i : ℕ) : JsNum.lt (JsNum.ofNat (i + JsNum.budget n)) n = false := by
  cases n with
  | nan => rfl
  | fin q =>
    simp only [JsNum.lt, JsNum.ofNat, JsNum.budget, decide_eq_false_iff_not, not_lt]
    have h1 : q ≤ ((⌈q⌉ : ℤ) : ℚ) := Int.le_ceil q
    have h2 : (⌈q⌉ : ℤ) ≤ ((⌈q⌉.toNat : ℕ) : ℤ) := Int.self_le_toNat _
    have h3 : ((⌈q⌉ : ℤ) : ℚ) ≤ ((⌈q⌉.toNat : ℕ) : ℚ) := by exact_mod_cast h2
    push_cast
    have h4 : (0 : ℚ) ≤ (i : ℚ) := Nat.cast_nonneg i
    linarith

/-- For every argument, `fibonacci` runs its loop to the end: a larger budget
gives the same list. -/
theorem fibonacci_budget_adequate (n : JsNum) (extra : ℕ) :
    fibonacciLoop n (JsNum.budget n + extra) 2 [JsNum.ofNat 0, JsNum.ofNat 1]
      = fibonacciLoop n (JsNum.budget n) 2 [JsNum.ofNat 0, JsNum.ofNat 1] :=
  fibonacciLoop_budget n (JsNum.budget n) 2 _ extra (lt_budget n 2)

/-- For every argument that passes the guard of `isPrime`, a larger budget gives
the same answer. -/
theorem isPrime_budget_adequate (num : JsNum) (extra : ℕ)
    (hguard : (JsNum.lt num (JsNum.ofNat 2) || !JsNum.isInteger num) = false) :
    isPrimeLoop num (JsNum.budget num + extra) 2 = isPrimeLoop num (JsNum.budget num) 2 := by
  cases num with
  | nan => simp [JsNum.lt] at hguard; simp [JsNum.isInteger] at hguard
  | fin q =>
    simp only [Bool.or_eq_false_iff, Bool.not_eq_false'] at hguard
    obtain ⟨hlt, hint⟩ := hguard
    have hden := (isInteger_fin_iff q).mp hint
    have hq : ((q.num : ℤ) : ℚ) = q := (Rat.den_eq_one_iff q).mp hden
    have h2 : (2 : ℚ) ≤ q := by
      simpa [JsNum.lt, JsNum.ofNat] using hlt
    have hnum : 0 ≤ q.num := by
      have : (0 : ℚ) ≤ (q.num : ℚ) := by rw [hq]; linarith
      exact_mod_cast this
    obtain ⟨N, hN⟩ := Int.eq_ofNat_of_zero_le hnum
    have hqN : JsNum.fin q = JsNum.ofNat N := by
      rw [← hq, hN]; simp [JsNum.ofNat]
    rw [hqN, JsNum.budget_ofNat]
    have e1 := isPrimeLoop_spec N (N + 1 + extra) 2 (le_refl 2) (by omega)
    have e2 := isPrimeLoop_spec N (N + 1) 2 (le_refl 2) (by omega)
    exact Bool.eq_iff_iff.mpr (e1.trans e2.symm)

theorem gcdLoop_nan (steps : ℕ) (a : JsNum) : gcdLoop steps a JsNum.nan = a := by
  cases steps <;> simp [gcdLoop, JsNum.truthy]

theorem abs_floor_cases (x : JsNum) :
    JsNum.abs (JsNum.floor x) = JsNum.nan ∨ ∃ m : ℕ, JsNum.abs (JsNum.floor x) = JsNum.ofNat m := by
  cases x with
  | nan => exact Or.inl rfl
  | fin q =>
    refine Or.inr ⟨(⌊q⌋ : ℤ).natAbs, ?_⟩
    have := abs_floor_ofInt ⌊q⌋
    simpa [JsNum.ofInt] using this

/-- For all arguments, `gcd` runs its loop to the end: a larger budget gives the
same result. -/
theorem gcd_budget_adequate (a b : JsNum) (extra : ℕ) :
    gcdLoop (JsNum.budget (JsNum.abs (JsNum.floor b)) + extra) (JsNum.abs (JsNum.floor a))
        (JsNum.abs (JsNum.floor b))
      = gcd a b := by
  simp only [gcd]
  rcases abs_floor_cases b with hb | ⟨m, hb⟩
  · simp only [hb, gcdLoop_nan]
  · simp only [hb, JsNum.budget_ofNat]
    rcases abs_floor_cases a with ha | ⟨k, ha⟩
    · rw [ha]
      by_cases hm : m = 0
      · subst hm
        have ht : JsNum.truthy (JsNum.ofNat 0) = false := by simp [JsNum.truthy, JsNum.ofNat]
        have e : 0 + 1 + extra = extra + 1 := by omega
        simp only [e, gcdLoop, ht, Bool.false_eq_true, if_false]
      · have ht : JsNum.truthy (JsNum.ofNat m) = true := by
          simp [JsNum.truthy, JsNum.ofNat, hm]
        have hmod : JsNum.mod JsNum.nan (JsNum.ofNat m) = JsNum.nan := rfl
        have e : m + 1 + extra = (m + extra) + 1 := by omega
        simp only [e, gcdLoop, ht, if_true, hmod, gcdLoop_nan]
    · rw [ha, gcdLoop_spec (m + 1 + extra) k m (by omega), gcdLoop_spec (m + 1) k m (by omega)]

/-! ## C12 and C13: provider selection in `getSingleWordAIAnswer` -/

theorem trim_empty : trim "" = "" := by decide

/-- The test `key && key.trim()` holds exactly for a variable that is set and
not blank after trimming. -/
theorem usable_iff (k : Option String) : usable k = true ↔ ∃ s, k = some s ∧ trim s ≠ "" := by
  cases k with
  | none => simp [usable]
  | some s =>
    simp only [usable, Bool.and_eq_true, bne_iff_ne, ne_eq, Option.some.injEq, exists_eq_left']
    constructor
    · intro h; exact h.2
    · intro h
      refine ⟨?_, h⟩
      intro hs
      rw [hs] at h
      exact h trim_empty

theorem isPrefixOf_of_eq_append (t rest : String) (h : t = "AIza" ++ rest) :
    "AIza".data.isPrefixOf t.data = true := by
  rw [h, String.data_append]
  exact List.isPrefixOf_iff_prefix.mpr (List.prefix_append _ _)

/-- Claim C12: for every question and every primary (`OPENROUTER_API_KEY`)
credential whose trimmed value starts with `AIza`, `getSingleWordAIAnswer` fails
with the configuration-mismatch error and issues no network request at all,
whatever the secondary (`GEMINI_API_KEY`) credential is: there is no fallback to
the secondary provider. -/
theorem key_mismatch_fails_fast (c : Credentials) (net : Network) (question : String)
    (s rest : String) (hkey : c.openRouterKey = some s) (hpre : trim s = "AIza" ++ rest) :
    (getSingleWordAIAnswer c net question).outcome = .error keyMismatchMessage
    ∧ (getSingleWordAIAnswer c net question).calls = [] := by
  have hne : trim s ≠ "" := by
    rw [hpre]
    intro h
    have := congrArg String.length h
    simp only [String.length_append] at this
    have h4 : "AIza".length = 4 := by decide
    rw [h4] at this
    have h0 : "".length = 0 := by decide
    omega
  have hus : usable c.openRouterKey = true := (usable_iff _).mpr ⟨s, hkey, hne⟩
  have hp := isPrefixOf_of_eq_append (trim s) rest hpre
  have hsel : selectedProvider c = .primary := by simp [selectedProvider, hus]
  simp only [getSingleWordAIAnswer, hsel, hkey, Option.getD_some, primaryPath, hp, if_true,
    and_self]

/-- Witness of C12 at the credential ` AIzaSyExample `, with a usable secondary
credential. -/
theorem key_mismatch_fails_fast_witness :
    (getSingleWordAIAnswer { openRouterKey := some " AIzaSyExample ", geminiKey := some "g-key" }
        { openRouterChat := fun _ _ => .reply (some "Paris"),
          geminiListModels := fun _ => .listed (some ["models/gemini-1.5"]),
          geminiGenerate := fun _ _ _ => .reply "Rome" } "capital of France?").outcome
      = .error keyMismatchMessage
    ∧ (getSingleWordAIAnswer { openRouterKey := some " AIzaSyExample ", geminiKey := some "g-key" }
        { openRouterChat := fun _ _ => .reply (some "Paris"),
          geminiListModels := fun _ => .listed (some ["models/gemini-1.5"]),
          geminiGenerate := fun _ _ _ => .reply "Rome" } "capital of France?").calls = [] :=
  key_mismatch_fails_fast _ _ _ " AIzaSyExample " "SyExample" rfl (by decide)

theorem primaryPath_calls (net : Network) (rawKey question : String) :
    (∀ call ∈ (primaryPath net rawKey question).calls,
        ∃ bearer prompt, call = NetCall.openRouterChat bearer prompt)
    ∧ (primaryPath net rawKey question).calls.length ≤ 1 := by
  unfold primaryPath
  dsimp only
  split
  · simp
  · split
    · simp
    · simp
    · split
      · simp
      · split <;> simp

theorem secondaryPath_calls (net : Network) (rawKey question : String) :
    ∀ call ∈ (secondaryPath net rawKey question).calls,
      ∀ bearer prompt, call ≠ NetCall.openRouterChat bearer prompt := by
  unfold secondaryPath
  dsimp only
  split
  · simp
  · split
    · simp
    · split <;> simp

/-- Claim C13: the primary provider (OpenRouter) is selected if and only if its
credential is set and non-blank after trimming; otherwise the secondary provider
(Gemini) is selected if and only if its credential is set and non-blank after
trimming; if both are unset or blank the call fails with the
no-provider-configured error without any network request. When the primary
provider is selected, the run is the OpenRouter block: every request of the run
goes to OpenRouter and there is at most one, so the secondary provider is never
contacted, even if the primary call fails (no retry, no fallback); when the
secondary provider is selected, no request goes to OpenRouter. -/
theorem provider_selection (c : Credentials) (net : Network) (question : String) :
    (selectedProvider c = .primary ↔ ∃ s, c.openRouterKey = some s ∧ trim s ≠ "")
    ∧ (selectedProvider c = .secondary ↔
        (¬ ∃ s, c.openRouterKey = some s ∧ trim s ≠ "") ∧ ∃ s, c.geminiKey = some s ∧ trim s ≠ "")
    ∧ (selectedProvider c = .unconfigured ↔
        (¬ ∃ s, c.openRouterKey = some s ∧ trim s ≠ "")
          ∧ ¬ ∃ s, c.geminiKey = some s ∧ trim s ≠ "")
    ∧ (selectedProvider c = .unconfigured →
        (getSingleWordAIAnswer c net question).outcome = .error noProviderMessage
          ∧ (getSingleWordAIAnswer c net question).calls = [])
    ∧ (selectedProvider c = .primary →
        getSingleWordAIAnswer c net question
            = primaryPath net (c.openRouterKey.getD "") question
          ∧ (∀ call ∈ (getSingleWordAIAnswer c net question).calls,
              ∃ bearer prompt, call = NetCall.openRouterChat bearer prompt)
          ∧ (getSingleWordAIAnswer c net question).calls.length ≤ 1)
    ∧ (selectedProvider c = .secondary →
        getSingleWordAIAnswer c net question
            = secondaryPath net (c.geminiKey.getD "") question
          ∧ ∀ call ∈ (getSingleWordAIAnswer c net question).calls,
              ∀ bearer prompt, call ≠ NetCall.openRouterChat bearer prompt) := by
  have h1 := usable_iff c.openRouterKey
  have h2 := usable_iff c.geminiKey
  refine ⟨?_, ?_, ?_, ?_, ?_, ?_⟩
  · rw [← h1]
    unfold selectedProvider
    by_cases hp : usable c.openRouterKey = true
    · simp [hp]
    · by_cases hs : usable c.geminiKey = true <;> simp [hp, hs]
  · rw [← h1, ← h2]
    unfold selectedProvider
    by_cases hp : usable c.openRouterKey = true
    · simp [hp]
    · by_cases hs : usable c.geminiKey = true <;> simp [hp, hs]
  · rw [← h1, ← h2]
    unfold selectedProvider
    by_cases hp : usable c.openRouterKey = true
    · simp [hp]
    · by_cases hs : usable c.geminiKey = true <;> simp [hp, hs]
  · intro hsel
    simp [getSingleWordAIAnswer, hsel]
  · intro hsel
    have hrun : getSingleWordAIAnswer c net question
        = primaryPath net (c.openRouterKey.getD "") question := by
      simp [getSingleWordAIAnswer, hsel]
    rw [hrun]
    exact ⟨rfl, primaryPath_calls net _ question⟩
  · intro hsel
    have hrun : getSingleWordAIAnswer c net question
        = secondaryPath net (c.geminiKey.getD "") question := by
      simp [getSingleWordAIAnswer, hsel]
    rw [hrun]
    exact ⟨rfl, secondaryPath_calls net _ question⟩

/-- Witness of C13: with a usable primary credential whose call fails, the
primary provider is selected and the only request goes to OpenRouter. -/
theorem provider_selection_witness :
    selectedProvider { openRouterKey := some "sk-or-v1-abc", geminiKey := some "g-key" }
      = .primary
    ∧ (getSingleWordAIAnswer { openRouterKey := some "sk-or-v1-abc", geminiKey := some "g-key" }
        { openRouterChat := fun _ _ => .notOk 401 "",
          geminiListModels := fun _ => .listed (some ["models/gemini-1.5"]),
          geminiGenerate := fun _ _ _ => .reply "Rome" } "capital of Italy?").calls.length ≤ 1 :=
  ⟨by decide,
    ((provider_selection { openRouterKey := some "sk-or-v1-abc", geminiKey := some "g-key" }
      { openRouterChat := fun _ _ => .notOk 401 "",
        geminiListModels := fun _ => .listed (some ["models/gemini-1.5"]),
        geminiGenerate := fun _ _ _ => .reply "Rome" } "capital of Italy?").2.2.2.2.1
          (by decide)).2.2⟩

/-! ## C14: reply normalization -/

theorem splitOnP_head (p : Char → Bool) :
    ∀ l : List Char, ∃ rest, l.splitOnP p = l.takeWhile (fun c => !p c) :: rest := by
  intro l
  induction l with
  | nil => exact ⟨[], rfl⟩
  | cons x xs ih =>
    obtain ⟨rest, hrest⟩ := ih
    rw [List.splitOnP_cons]
    by_cases hx : p x = true
    · exact ⟨xs.splitOnP p, by simp [hx]⟩
    · exact ⟨rest, by simp [hx, hrest, List.modifyHead]⟩

/-- The first character of a trimmed, non-empty string is not white space. -/
theorem trim_head (s : String) (h : trim s ≠ "") :
    ∃ c cs, (trim s).data = c :: cs ∧ isWhiteSpace c = false := by
  have hne : (trim s).data ≠ [] := by
    intro hd
    apply h
    exact String.ext hd
  obtain ⟨c, cs, hcs⟩ := List.exists_cons_of_ne_nil hne
  refine ⟨c, cs, hcs, ?_⟩
  have hpre : (trim s).data <+: s.data.dropWhile isWhiteSpace := by
    show ((s.data.dropWhile isWhiteSpace).reverse.dropWhile isWhiteSpace).reverse
      <+: s.data.dropWhile isWhiteSpace
    have := List.dropWhile_suffix (l := (s.data.dropWhile isWhiteSpace).reverse) isWhiteSpace
    have h2 := List.reverse_prefix.mpr this
    simpa using h2
  rw [hcs] at hpre
  obtain ⟨t, ht⟩ := hpre
  have hd := List.head?_dropWhile_not isWhiteSpace s.data
  rw [← ht] at hd
  simpa using hd

theorem isWordOrHyphen_eq (c : Char) :
    isWordOrHyphen c = (c.isAlphanum || c == '_' || c == '-') := by
  simp only [isWordOrHyphen, Char.isAlphanum, Char.isAlpha, Char.isUpper, Char.isLower,
    Char.isDigit]
  have e1 : ∀ a b : Char, decide (a ≤ b) = decide (a.val ≤ b.val) := fun a b => rfl
  simp only [e1]
  have ea : ('a' : Char).val = 97 := rfl
  have ez : ('z' : Char).val = 122 := rfl
  have eA : ('A' : Char).val = 65 := rfl
  have eZ : ('Z' : Char).val = 90 := rfl
  have e0 : ('0' : Char).val = 48 := rfl
  have e9 : ('9' : Char).val = 57 := rfl
  simp only [ea, ez, eA, eZ, e0, e9, ge_iff_le]
  cases decide (97 ≤ c.val) <;> cases decide (c.val ≤ 122) <;> cases decide (65 ≤ c.val)
    <;> cases decide (c.val ≤ 90) <;> cases decide (48 ≤ c.val) <;> cases decide (c.val ≤ 57)
    <;> simp

/-- On a non-blank reply, the last two statements of either provider path compute
the specified normalization. -/
theorem singleWordOf_trim (reply : String) (h : trim reply ≠ "") :
    singleWordOf (trim reply) = normalizedReply reply := by
  obtain ⟨c, cs, hcs, hc⟩ := trim_head reply h
  obtain ⟨rest, hrest⟩ := splitOnP_head isWhiteSpace (trim reply).data
  have htw : (trim reply).data.takeWhile (fun c => !isWhiteSpace c)
      = c :: cs.takeWhile (fun c => !isWhiteSpace c) := by
    rw [hcs, List.takeWhile_cons]
    simp [hc]
  have hfirst : splitFirst (trim reply) ≠ "" := by
    intro hs
    have := congrArg String.data hs
    simp only [splitFirst, htw] at this
    cases this
  have htok : (tokens (trim reply)).headD [] = (splitFirst (trim reply)).data := by
    simp only [tokens, hrest, splitFirst, htw]
    simp
  simp only [singleWordOf, if_neg hfirst, normalizedReply, htok]
  congr 1
  apply List.filter_congr
  intro ch _
  exact isWordOrHyphen_eq ch

theorem not_whiteSpace_of_word (c : Char) (h : (c.isAlphanum || c == '_' || c == '-') = true) :
    isWhiteSpace c = false := by
  have hrange : 45 ≤ c.toNat ∧ c.toNat ≤ 122 := by
    simp only [Char.isAlphanum, Char.isAlpha, Char.isUpper, Char.isLower, Char.isDigit,
      Bool.or_eq_true, Bool.and_eq_true, decide_eq_true_eq, beq_iff_eq] at h
    have hv : ∀ n : UInt32, (n ≤ c.val ↔ n.toNat ≤ c.toNat) := fun n => Iff.rfl
    have hv2 : ∀ n : UInt32, (c.val ≤ n ↔ c.toNat ≤ n.toNat) := fun n => Iff.rfl
    have h1 : (65 : UInt32).toNat = 65 := rfl
    have h2 : (90 : UInt32).toNat = 90 := rfl
    have h3 : (97 : UInt32).toNat = 97 := rfl
    have h4 : (122 : UInt32).toNat = 122 := rfl
    have h5 : (48 : UInt32).toNat = 48 := rfl
    have h6 : (57 : UInt32).toNat = 57 := rfl
    simp only [ge_iff_le, hv, hv2, h1, h2, h3, h4, h5, h6] at h
    rcases h with ((((h | h) | h) | h) | h)
    · omega
    · omega
    · omega
    · rw [h]; decide
    · rw [h]; decide
  simp only [isWhiteSpace, Bool.or_eq_false_iff, decide_eq_false_iff_not, Bool.and_eq_false_iff,
    List.mem_cons, List.mem_singleton, List.not_mem_nil, or_false]
  omega

/-- Claim C14: for every reply text that is non-blank, the value returned by
either provider path is the first whitespace-delimited token of the trimmed
reply with every character outside `[A-Za-z0-9_-]` deleted; the result contains
only characters of `[A-Za-z0-9_-]`, no white space, and may be the empty string
(for the reply `...`), which is returned without further validation; the reply
`"  Paris.\n"` normalizes to `Paris`. -/
theorem reply_normalization (net : Network) (rawKey question reply : String)
    (h : trim reply ≠ "") :
    ("AIza".data.isPrefixOf (trim rawKey).data = false →
        net.openRouterChat (trim rawKey) (promptFor question) = .reply (some reply) →
        (primaryPath net rawKey question).outcome = .ok (normalizedReply reply))
    ∧ (∀ model, chooseModel (availableModels (net.geminiListModels (trim rawKey))) = some model →
        model ≠ "" →
        net.geminiGenerate (trim rawKey) model (promptFor question) = .reply reply →
        (secondaryPath net rawKey question).outcome = .ok (normalizedReply reply))
    ∧ (∀ ch ∈ (normalizedReply reply).data,
        (ch.isAlphanum = true ∨ ch = '_' ∨ ch = '-') ∧ isWhiteSpace ch = false)
    ∧ normalizedReply "..." = ""
    ∧ (primaryPath
          { openRouterChat := fun _ _ => .reply (some "..."),
            geminiListModels := fun _ => .threw,
            geminiGenerate := fun _ _ _ => .noResponse } "sk-or-v1-abc" question).outcome = .ok ""
    ∧ normalizedReply "  Paris.\n" = "Paris" := by
  refine ⟨?_, ?_, ?_, by decide, by with_unfolding_all rfl, by decide⟩
  · intro hpre hreply
    simp only [primaryPath, hpre, hreply, h, Bool.false_eq_true, if_false,
      singleWordOf_trim reply h]
  · intro model hmodel hne hreply
    simp only [secondaryPath, hmodel, hne, hreply, if_false, singleWordOf_trim reply h]
  · intro ch hch
    simp only [normalizedReply, List.mem_filter] at hch
    refine ⟨?_, not_whiteSpace_of_word ch hch.2⟩
    have h3 : (ch.isAlphanum = true ∨ ch = '_') ∨ ch = '-' := by simpa using hch.2
    tauto

/-- Witness of C14 at the reply `"  Paris.\n"` on the primary path. -/
theorem reply_normalization_witness :
    trim "  Paris.\n" ≠ ""
    ∧ (primaryPath
          { openRouterChat := fun _ _ => .reply (some "  Paris.\n"),
            geminiListModels := fun _ => .threw,
            geminiGenerate := fun _ _ _ => .noResponse } "sk-or-v1-abc" "capital of France?").outcome
        = .ok (normalizedReply "  Paris.\n") :=
  ⟨by decide,
    (reply_normalization
      { openRouterChat := fun _ _ => .reply (some "  Paris.\n"),
        geminiListModels := fun _ => .threw,
        geminiGenerate := fun _ _ _ => .noResponse } "sk-or-v1-abc" "capital of France?"
      "  Paris.\n" (by decide)).1 (by decide) rfl⟩

/-! ## C15: the model choice of the secondary path -/

theorem availableModels_ne_empty (o : ListOutcome) : ∀ m ∈ availableModels o, m ≠ "" := by
  intro m hm
  cases o with
  | threw => cases hm
  | listed names =>
    cases names with
    | none => cases hm
    | some l =>
      simp only [availableModels, List.mem_filter, bne_iff_ne, ne_eq] at hm
      exact hm.2

theorem mem_preferred_iff (m : String) :
    preferred.contains m = true ↔
      m ∈ ["models/gemini-1.5-flash", "models/gemini-1.5", "models/gemini-1.0",
        "models/text-bison-001"] := by
  simp [preferred]

theorem chooseModel_mem (catalog : List String) (m : String)
    (h : chooseModel catalog = some m) : m ∈ catalog := by
  unfold chooseModel at h
  split at h
  · rename_i x hx
    split at h
    · exact List.mem_of_mem_head? h
    · cases h
      exact List.mem_of_find?_eq_some hx
  · exact List.mem_of_mem_head? h

theorem chooseModel_of_ne_nil (catalog : List String) (hne : catalog ≠ [])
    (hnames : ∀ m ∈ catalog, m ≠ "") : ∃ m, chooseModel catalog = some m ∧ m ≠ "" := by
  obtain ⟨x, r, rfl⟩ := List.exists_cons_of_ne_nil hne
  have hhead : (x :: r).head? = some x := rfl
  unfold chooseModel
  split
  · rename_i y hy
    have hymem := List.mem_of_find?_eq_some hy
    rw [if_neg (hnames y hymem)]
    exact ⟨y, rfl, hnames y hymem⟩
  · exact ⟨x, hhead, hnames x (List.mem_cons_self x r)⟩

/-- Claim C15: for every discovered catalog (the list of non-empty model names,
empty when the listing call fails), the chosen model is the first catalog entry,
in catalog order, that is a member of the preference list; if no catalog entry is
in the preference list it is the first catalog entry; the chosen model is always
an element of the catalog; and the call fails with the no-model-available error,
before any generate-content query, if and only if the catalog is empty. -/
theorem model_choice (net : Network) (rawKey question : String) :
    (∀ m pre post,
        availableModels (net.geminiListModels (trim rawKey)) = pre ++ m :: post →
        m ∈ ["models/gemini-1.5-flash", "models/gemini-1.5", "models/gemini-1.0",
          "models/text-bison-001"] →
        (∀ x ∈ pre, x ∉ ["models/gemini-1.5-flash", "models/gemini-1.5", "models/gemini-1.0",
          "models/text-bison-001"]) →
        chooseModel (availableModels (net.geminiListModels (trim rawKey))) = some m)
    ∧ ((∀ x ∈ availableModels (net.geminiListModels (trim rawKey)),
          x ∉ ["models/gemini-1.5-flash", "models/gemini-1.5", "models/gemini-1.0",
            "models/text-bison-001"]) →
        chooseModel (availableModels (net.geminiListModels (trim rawKey)))
          = (availableModels (net.geminiListModels (trim rawKey))).head?)
    ∧ (∀ m, chooseModel (availableModels (net.geminiListModels (trim rawKey))) = some m →
        m ∈ availableModels (net.geminiListModels (trim rawKey)))
    ∧ (availableModels (net.geminiListModels (trim rawKey)) = [] ↔
        (secondaryPath net rawKey question).outcome
            = .error (noModelMessage (availableModels (net.geminiListModels (trim rawKey))))
          ∧ (secondaryPath net rawKey question).calls = [NetCall.geminiListModels (trim rawKey)])
    ∧ (availableModels (net.geminiListModels (trim rawKey)) ≠ [] →
        ∃ m, chooseModel (availableModels (net.geminiListModels (trim rawKey))) = some m
          ∧ (secondaryPath net rawKey question).calls
              = [NetCall.geminiListModels (trim rawKey),
                  NetCall.geminiGenerate (trim rawKey) m (promptFor question)])
    ∧ (net.geminiListModels (trim rawKey) = .threw →
        availableModels (net.geminiListModels (trim rawKey)) = []) := by
  generalize hcat : availableModels (net.geminiListModels (trim rawKey)) = catalog
  have hnames : ∀ m ∈ catalog, m ≠ "" := by
    rw [← hcat]; exact availableModels_ne_empty _
  have hrun : ∀ m, chooseModel catalog = some m → m ≠ "" →
      (secondaryPath net rawKey question).calls
        = [NetCall.geminiListModels (trim rawKey),
            NetCall.geminiGenerate (trim rawKey) m (promptFor question)] := by
    intro m hm hne
    simp only [secondaryPath, hcat, hm, hne, if_false]
    cases net.geminiGenerate (trim rawKey) m (promptFor question) <;> rfl
  refine ⟨?_, ?_, ?_, ?_, ?_, ?_⟩
  · intro m pre post hsplit hm hpre
    have hfind : catalog.find? (fun m => preferred.contains m) = some m := by
      rw [hsplit, List.find?_append]
      have hnone : pre.find? (fun m => preferred.contains m) = none := by
        rw [List.find?_eq_none]
        intro x hx hc
        exact hpre x hx ((mem_preferred_iff x).mp hc)
      rw [hnone, Option.none_or, List.find?_cons_of_pos]
      exact (mem_preferred_iff m).mpr hm
    have hne : m ≠ "" := hnames m (by rw [hsplit]; simp)
    simp only [chooseModel, hfind, if_neg hne]
  · intro hall
    have hnone : catalog.find? (fun m => preferred.contains m) = none := by
      rw [List.find?_eq_none]
      intro x hx hc
      exact hall x hx ((mem_preferred_iff x).mp hc)
    simp only [chooseModel, hnone]
  · intro m hm
    exact chooseModel_mem catalog m hm
  · constructor
    · intro hnil
      subst hnil
      simp [secondaryPath, hcat, chooseModel]
    · rintro ⟨_, hcalls⟩
      by_contra hne
      obtain ⟨m, hm, hmne⟩ := chooseModel_of_ne_nil catalog hne hnames
      rw [hrun m hm hmne] at hcalls
      simp at hcalls
  · intro hne
    obtain ⟨m, hm, hmne⟩ := chooseModel_of_ne_nil catalog hne hnames
    exact ⟨m, hm, hrun m hm hmne⟩
  · intro hthrew
    rw [← hcat, hthrew]
    rfl

/-- Witness of C15: in the catalog `["models/x", "models/gemini-1.0",
"models/gemini-1.5-flash"]` the chosen model is `models/gemini-1.0`, the first
catalog entry that is in the preference list. -/
theorem model_choice_witness :
    availableModels (.listed (some ["models/x", "", "models/gemini-1.0",
        "models/gemini-1.5-flash"]))
      = ["models/x"] ++ "models/gemini-1.0" :: ["models/gemini-1.5-flash"]
    ∧ chooseModel (availableModels (.listed (some ["models/x", "", "models/gemini-1.0",
        "models/gemini-1.5-flash"]))) = some "models/gemini-1.0" :=
  ⟨by decide,
    (model_choice
      { openRouterChat := fun _ _ => .threw "unused",
        geminiListModels := fun _ =>
          .listed (some ["models/x", "", "models/gemini-1.0", "models/gemini-1.5-flash"]),
        geminiGenerate := fun _ _ _ => .reply "Rome" } "g-key" "capital of Italy?").1
      "models/gemini-1.0" ["models/x"] ["models/gemini-1.5-flash"] (by decide) (by decide)
      (by decide)⟩

/-! ## C11: the envelope invariant -/

theorem envelopeOk_failure (email : String) (code : ℕ) (msg : String)
    (h : code = 400 ∨ code = 503 ∨ code = 500) : EnvelopeOk email (failure email code msg) := by
  refine ⟨rfl, ?_, ?_⟩
  · intro hs; simp [failure] at hs
  · intro _; exact ⟨h, ⟨msg, rfl⟩, rfl⟩

theorem envelopeOk_success (email : String) (d : JsVal) (h : d ≠ JsVal.undefined) :
    EnvelopeOk email (success email d) := by
  refine ⟨rfl, ?_, ?_⟩
  · intro _; exact ⟨rfl, ⟨d, rfl, h⟩, rfl⟩
  · intro hs; simp [success] at hs

theorem envelopeOk_fibonacciBranch (email : String) (E : Builtins) (v : JsVal) (r : Response)
    (h : fibonacciBranch email E v = .ok r) : EnvelopeOk email r := by
  unfold fibonacciBranch at h
  cases hc : coerceInt E v with
  | error e => rw [hc] at h; cases h
  | ok n =>
    rw [hc] at h
    simp only [ok_bind, pure_eq_ok] at h
    split at h
    · cases h; exact envelopeOk_failure _ _ _ (Or.inl rfl)
    · cases h; exact envelopeOk_success _ _ (by simp)

theorem envelopeOk_primeBranch (email : String) (E : Builtins) (v : JsVal) (r : Response)
    (h : primeBranch email E v = .ok r) : EnvelopeOk email r := by
  unfold primeBranch at h
  split at h
  · rename_i xs
    cases hc : primeNums E xs with
    | error e => rw [hc] at h; cases h
    | ok nums =>
      rw [hc] at h
      simp only [ok_bind, pure_eq_ok] at h
      split at h
      · cases h; exact envelopeOk_failure _ _ _ (Or.inl rfl)
      · cases h; exact envelopeOk_success _ _ (by simp)
  · cases h; exact envelopeOk_failure _ _ _ (Or.inl rfl)

theorem envelopeOk_lcmBranch (email : String) (E : Builtins) (v : JsVal) (r : Response)
    (h : lcmBranch email E v = .ok r) : EnvelopeOk email r := by
  unfold lcmBranch at h
  split at h
  · cases h; exact envelopeOk_failure _ _ _ (Or.inl rfl)
  · cases hc : lcmOfArray E v with
    | error e => rw [hc] at h; cases h
    | ok val =>
      rw [hc] at h
      cases val with
      | none => cases h; exact envelopeOk_failure _ _ _ (Or.inl rfl)
      | some w => cases h; exact envelopeOk_success _ _ (by simp)

theorem envelopeOk_hcfBranch (email : String) (E : Builtins) (v : JsVal) (r : Response)
    (h : hcfBranch email E v = .ok r) : EnvelopeOk email r := by
  unfold hcfBranch at h
  split at h
  · cases h; exact envelopeOk_failure _ _ _ (Or.inl rfl)
  · cases hc : hcfOfArray E v with
    | error e => rw [hc] at h; cases h
    | ok val =>
      rw [hc] at h
      cases val with
      | none => cases h; exact envelopeOk_failure _ _ _ (Or.inl rfl)
      | some w => cases h; exact envelopeOk_success _ _ (by simp)

theorem envelopeOk_aiBranch (email : String) (resolver : String → Except String String)
    (v : JsVal) : EnvelopeOk email (aiBranch email resolver v) := by
  unfold aiBranch
  split
  · split
    · exact envelopeOk_failure _ _ _ (Or.inl rfl)
    · split
      · exact envelopeOk_failure _ _ _ (Or.inl rfl)
      · split
        · exact envelopeOk_success _ _ (by simp)
        · exact envelopeOk_failure _ _ _ (Or.inr (Or.inl rfl))
  · exact envelopeOk_failure _ _ _ (Or.inl rfl)

/-- The single entry of `present` is one of the five operation names, so the
handler's chain of `if` statements always finds a branch. -/
theorem present_mem_allowed (body : List (String × JsVal)) (k : String)
    (h : present body = [k]) :
    k = "fibonacci" ∨ k = "prime" ∨ k = "lcm" ∨ k = "hcf" ∨ k = "AI" := by
  have hk : k ∈ present body := by rw [h]; exact List.mem_singleton_self k
  simp only [present, List.mem_filter] at hk
  have := hk.2
  simpa [allowed] using this

/-- Claim C11: for every request body and every outcome of the Answer Resolver,
the response carries `official_email` equal to the configured identity string;
when `is_success` is true the status is 200 and the response has a `data` field
(a value other than `undefined`) and no `error` field; when `is_success` is false
the status is 400, 503 or 500 and the response has an `error` field and no `data`
field. -/
theorem envelope_invariant (email : String) (E : Builtins)
    (resolver : String → Except String String) (body : List (String × JsVal)) :
    (postBfhl email E resolver body).official_email = email
    ∧ ((postBfhl email E resolver body).is_success = true →
        (postBfhl email E resolver body).status = 200
          ∧ (∃ d, (postBfhl email E resolver body).data = some d ∧ d ≠ JsVal.undefined)
          ∧ (postBfhl email E resolver body).error = none)
    ∧ ((postBfhl email E resolver body).is_success = false →
        ((postBfhl email E resolver body).status = 400
            ∨ (postBfhl email E resolver body).status = 503
            ∨ (postBfhl email E resolver body).status = 500)
          ∧ (∃ e, (postBfhl email E resolver body).error = some e)
          ∧ (postBfhl email E resolver body).data = none) := by
  show EnvelopeOk email (postBfhl email E resolver body)
  cases ht : postBfhlTry email E resolver body with
  | error e =>
    rw [postBfhl_of_error email E resolver body e ht]
    exact envelopeOk_failure _ _ _ (Or.inr (Or.inr rfl))
  | ok r =>
    rw [postBfhl_of_ok email E resolver body r ht]
    by_cases hlen : (present body).length = 1
    · obtain ⟨k, hk⟩ := List.length_eq_one.mp hlen
      rw [postBfhlTry_of_present email E resolver body k hk] at ht
      have hmem := present_mem_allowed body k hk
      split_ifs at ht
      · exact envelopeOk_fibonacciBranch email E _ r ht
      · exact envelopeOk_primeBranch email E _ r ht
      · exact envelopeOk_lcmBranch email E _ r ht
      · exact envelopeOk_hcfBranch email E _ r ht
      · cases ht; exact envelopeOk_aiBranch email resolver _
      · exfalso
        rcases hmem with h | h | h | h | h <;> contradiction
    · have : postBfhlTry email E resolver body
          = .ok (failure email 400 exactlyOneError) := by
        simp [postBfhlTry, hlen, exactlyOneError]
      rw [this] at ht
      cases ht
      exact envelopeOk_failure _ _ _ (Or.inl rfl)

/-! ## C17 and C18: resolver failures and the validation short-circuit -/

/-- Claim C17: for every request that passes validation with the single key `AI`:
if the Answer Resolver fails with message `m`, the response has status 503,
`is_success` false and an error string that contains `m` (for a non-empty `m` it
is `AI service unavailable: m. Check OPENROUTER_API_KEY or GEMINI_API_KEY.`); if
the resolver returns a word `w`, the response has status 200 with `data = w`; a
resolver failure never produces status 500 or 200. -/
theorem resolver_outcome_mapping (email : String) (E : Builtins)
    (resolver : String → Except String String) (body : List (String × JsVal)) (s : String)
    (hpres : present body = ["AI"]) (hval : getProp body "AI" = .str s)
    (h1 : trim s ≠ "") (h2 : jsLength s ≤ 500) :
    (∀ m, resolver (trim s) = .error m →
        (postBfhl email E resolver body).status = 503
        ∧ (postBfhl email E resolver body).is_success = false
        ∧ (postBfhl email E resolver body).data = none
        ∧ (∃ before after,
            (postBfhl email E resolver body).error = some (before ++ m ++ after))
        ∧ (m ≠ "" → (postBfhl email E resolver body).error
            = some ("AI service unavailable: " ++ m
                ++ ". Check OPENROUTER_API_KEY or GEMINI_API_KEY."))
        ∧ (postBfhl email E resolver body).status ≠ 500
        ∧ (postBfhl email E resolver body).status ≠ 200)
    ∧ (∀ w, resolver (trim s) = .ok w →
        postBfhl email E resolver body =
          { status := 200, is_success := true, official_email := email,
            data := some (.str w), error := none }) := by
  have hmain : postBfhl email E resolver body = aiBranch email resolver (.str s) := by
    rw [postBfhl_ai email E resolver body hpres, hval]
  rw [hmain, aiBranch_valid email resolver s h1 h2]
  constructor
  · intro m hm
    rw [hm]
    refine ⟨rfl, rfl, rfl, ?_, ?_, by simp [failure], by simp [failure]⟩
    · by_cases hempty : m = ""
      · subst hempty
        exact ⟨"AI service unavailable: Unknown AI error. Check OPENROUTER_API_KEY or GEMINI_API_KEY.",
          "", by simp [failure]⟩
      · exact ⟨"AI service unavailable: ", ". Check OPENROUTER_API_KEY or GEMINI_API_KEY.",
          by simp [failure, hempty]⟩
    · intro hne
      simp [failure, hne]
  · intro w hw
    rw [hw]
    rfl

/-- Witness of C17 with a resolver that fails with the message `quota`. -/
theorem resolver_outcome_mapping_witness :
    present [("AI", JsVal.str " hi ")] = ["AI"]
    ∧ getProp [("AI", JsVal.str " hi ")] "AI" = .str " hi "
    ∧ (postBfhl "a@b.c" sampleBuiltins (fun _ => .error "quota") [("AI", .str " hi ")]).status
        = 503 :=
  ⟨by decide, by with_unfolding_all rfl,
    ((resolver_outcome_mapping "a@b.c" sampleBuiltins (fun _ => .error "quota")
      [("AI", .str " hi ")] " hi " (by decide) (by with_unfolding_all rfl) (by decide)
      (by decide)).1 "quota" rfl).1⟩

/-- Claim C18: for every request body that fails validation (zero or several
recognized keys, or an `AI` payload that is not a string, is blank, or is too
long), the response is a 400 client error and the Answer Resolver is never
invoked: the response is the same for every resolver, hence for every
configuration of provider credentials and every behaviour of the external
providers. -/
theorem validation_short_circuit (email : String) (E : Builtins)
    (resolver : String → Except String String) (body : List (String × JsVal))
    (hfail : (present body).length ≠ 1
      ∨ (present body = ["AI"]
          ∧ ((∀ s, getProp body "AI" ≠ .str s)
            ∨ ∃ s, getProp body "AI" = .str s ∧ (trim s = "" ∨ 500 < jsLength s)))) :
    (postBfhl email E resolver body).status = 400
    ∧ (∀ other : String → Except String String,
        postBfhl email E other body = postBfhl email E resolver body)
    ∧ (∀ (c1 c2 : Credentials) (net1 net2 : Network),
        handle email E c1 net1 body = handle email E c2 net2 body) := by
  have key : ∃ msg, ∀ r : String → Except String String,
      postBfhl email E r body = failure email 400 msg := by
    rcases hfail with hlen | ⟨hpres, hpay⟩
    · exact ⟨exactlyOneError, fun r => by simp [postBfhl, postBfhlTry, hlen, exactlyOneError]⟩
    · rcases hpay with hns | ⟨s, hs, hbad⟩
      · refine ⟨"AI must be a non-empty string (question)", fun r => ?_⟩
        rw [postBfhl_ai email E r body hpres]
        cases hp : getProp body "AI" with
        | str s => exact absurd hp (hns s)
        | _ => rfl
      · by_cases hblank : trim s = ""
        · refine ⟨"AI must be a non-empty string (question)", fun r => ?_⟩
          rw [postBfhl_ai email E r body hpres, hs]
          simp [aiBranch, hblank]
        · have hlong : 500 < jsLength s := by
            rcases hbad with h | h
            · exact absurd h hblank
            · exact h
          refine ⟨"AI question too long", fun r => ?_⟩
          rw [postBfhl_ai email E r body hpres, hs]
          simp [aiBranch, hblank, hlong]
  obtain ⟨msg, hmsg⟩ := key
  refine ⟨by rw [hmsg resolver]; rfl, fun other => by rw [hmsg other, hmsg resolver], ?_⟩
  intro c1 c2 net1 net2
  simp only [handle, hmsg]

/-- Witness of C18 at the body with the blank question `AI: "   "`. -/
theorem validation_short_circuit_witness :
    (present [("AI", JsVal.str "   ")] = ["AI"]
      ∧ ∃ s, getProp [("AI", JsVal.str "   ")] "AI" = .str s ∧ (trim s = "" ∨ 500 < jsLength s))
    ∧ (postBfhl "a@b.c" sampleBuiltins sampleResolver [("AI", .str "   ")]).status = 400 :=
  ⟨⟨by decide, "   ", by with_unfolding_all rfl, Or.inl (by decide)⟩,
    (validation_short_circuit "a@b.c" sampleBuiltins sampleResolver [("AI", .str "   ")]
      (Or.inr ⟨by decide, Or.inr ⟨"   ", by with_unfolding_all rfl, Or.inl (by decide)⟩⟩)).1⟩

/-! ## C16: independence of the folding order -/

theorem foldl_gcd_perm (xs ys : List ℤ) (hperm : xs.Perm ys) :
    xs.foldl (fun acc x => Nat.gcd acc x.natAbs) 0
      = ys.foldl (fun acc x => Nat.gcd acc x.natAbs) 0 := by
  apply Nat.dvd_antisymm
  · rw [dvd_foldl_gcd_iff]
    refine ⟨dvd_zero _, fun y hy => ?_⟩
    exact ((dvd_foldl_gcd_iff xs 0 _).mp (dvd_refl _)).2 y (hperm.mem_iff.mpr hy)
  · rw [dvd_foldl_gcd_iff]
    refine ⟨dvd_zero _, fun x hx => ?_⟩
    exact ((dvd_foldl_gcd_iff ys 0 _).mp (dvd_refl _)).2 x (hperm.mem_iff.mp hx)

theorem foldl_lcm_perm (xs ys : List ℤ) (hperm : xs.Perm ys) :
    xs.foldl (fun acc x => Nat.lcm acc x.natAbs) 1
      = ys.foldl (fun acc x => Nat.lcm acc x.natAbs) 1 := by
  apply Nat.dvd_antisymm
  · rw [foldl_lcm_dvd_iff]
    refine ⟨one_dvd _, fun x hx => ?_⟩
    exact ((foldl_lcm_dvd_iff ys 1 _).mp (dvd_refl _)).2 x (hperm.mem_iff.mp hx)
  · rw [foldl_lcm_dvd_iff]
    refine ⟨one_dvd _, fun y hy => ?_⟩
    exact ((foldl_lcm_dvd_iff xs 1 _).mp (dvd_refl _)).2 y (hperm.mem_iff.mpr hy)

/-- Counterexample to C16 as stated, at `xs = [3000001, 3000003, 1005]` and its
permutation `ys = [1005, 3000003, 3000001]`: `lcmOfArray(xs)` is
`3015004020001005.5`, because the product `9000012000003 * 1005` is rounded, and
`lcmOfArray(ys)` is `3015004020001005`, every product of that fold being exact. -/
theorem lcm_order_counterexample :
    ([3000001, 3000003, 1005] : List ℤ).Perm [1005, 3000003, 3000001]
    ∧ lcmOfArray sampleBuiltins
        (.arr (([3000001, 3000003, 1005] : List ℤ).map (fun x => JsVal.num (JsNum.ofInt x))))
      = .ok (some (JsNum.fin (6030008040002011 / 2)))
    ∧ lcmOfArray sampleBuiltins
        (.arr (([1005, 3000003, 3000001] : List ℤ).map (fun x => JsVal.num (JsNum.ofInt x))))
      = .ok (some (JsNum.fin 3015004020001005))
    ∧ lcmOfArray sampleBuiltins
        (.arr (([1005, 3000003, 3000001] : List ℤ).map (fun x => JsVal.num (JsNum.ofInt x))))
      ≠ lcmOfArray sampleBuiltins
        (.arr (([3000001, 3000003, 1005] : List ℤ).map (fun x => JsVal.num (JsNum.ofInt x)))) := by
  have hx := lcmOfArray_rounds sampleBuiltins
  have hy : lcmOfArray sampleBuiltins
        (.arr (([1005, 3000003, 3000001] : List ℤ).map (fun x => JsVal.num (JsNum.ofInt x))))
      = .ok (some (JsNum.fin 3015004020001005)) := by
    rw [lcmOfArray_ints sampleBuiltins [1005, 3000003, 3000001] (by decide) (by decide!)]
    have e : ([1005, 3000003, 3000001] : List ℤ).foldl (fun acc x => Nat.lcm acc x.natAbs) 1
        = 3015004020001005 := by decide!
    rw [e]
    simp [JsNum.ofNat]
  refine ⟨by decide, hx, hy, ?_⟩
  rw [hx, hy]
  intro h
  have e : JsNum.fin 3015004020001005 = JsNum.fin (6030008040002011 / 2) := by
    have := Except.ok.inj h
    exact Option.some.inj this
  have e2 : (3015004020001005 : ℚ) = 6030008040002011 / 2 := JsNum.fin.inj e
  norm_num at e2

/-- Claim C16, amended: for every non-empty list `xs` of integers and every
permutation `ys` of `xs`, `hcfOfArray(ys) = hcfOfArray(xs)`; and
`lcmOfArray(ys) = lcmOfArray(xs)` whenever some element is `0`, or every product
formed by each of the two folds is at most `2 ^ 53`, in particular whenever the
product of the absolute values of the elements is at most `2 ^ 53`. -/
theorem folding_order_independent (E : Builtins) (xs ys : List ℤ) (hne : xs ≠ [])
    (hperm : xs.Perm ys) :
    hcfOfArray E (.arr (ys.map (fun x => JsVal.num (JsNum.ofInt x))))
      = hcfOfArray E (.arr (xs.map (fun x => JsVal.num (JsNum.ofInt x))))
    ∧ ((∃ x ∈ xs, x = 0) →
        lcmOfArray E (.arr (ys.map (fun x => JsVal.num (JsNum.ofInt x))))
          = lcmOfArray E (.arr (xs.map (fun x => JsVal.num (JsNum.ofInt x)))))
    ∧ (productsWithin xs = true → productsWithin ys = true →
        lcmOfArray E (.arr (ys.map (fun x => JsVal.num (JsNum.ofInt x))))
          = lcmOfArray E (.arr (xs.map (fun x => JsVal.num (JsNum.ofInt x)))))
    ∧ ((xs.map Int.natAbs).prod ≤ 2 ^ 53 →
        lcmOfArray E (.arr (ys.map (fun x => JsVal.num (JsNum.ofInt x))))
          = lcmOfArray E (.arr (xs.map (fun x => JsVal.num (JsNum.ofInt x))))) := by
  have hne2 : ys ≠ [] := by
    intro h
    rw [h] at hperm
    exact hne hperm.eq_nil
  have hzero : (∃ x ∈ xs, x = 0) →
      lcmOfArray E (.arr (ys.map (fun x => JsVal.num (JsNum.ofInt x))))
        = lcmOfArray E (.arr (xs.map (fun x => JsVal.num (JsNum.ofInt x)))) := by
    rintro ⟨x, hx, h0⟩
    rw [lcmOfArray_zero E xs ⟨x, hx, h0⟩, lcmOfArray_zero E ys ⟨x, hperm.mem_iff.mp hx, h0⟩]
  have hexact : productsWithin xs = true → productsWithin ys = true →
      lcmOfArray E (.arr (ys.map (fun x => JsVal.num (JsNum.ofInt x))))
        = lcmOfArray E (.arr (xs.map (fun x => JsVal.num (JsNum.ofInt x)))) := by
    intro hwx hwy
    rw [lcmOfArray_ints E xs hne hwx, lcmOfArray_ints E ys hne2 hwy, foldl_lcm_perm xs ys hperm]
  refine ⟨?_, hzero, hexact, ?_⟩
  · rw [hcfOfArray_ints E xs hne, hcfOfArray_ints E ys hne2, foldl_gcd_perm xs ys hperm]
  · intro hprod
    by_cases hz : ∃ x ∈ xs, x = 0
    · exact hzero hz
    · have hall : ∀ x ∈ xs, x ≠ 0 := fun x hx h0 => hz ⟨x, hx, h0⟩
      have hall2 : ∀ y ∈ ys, y ≠ 0 := fun y hy => hall y (hperm.mem_iff.mpr hy)
      have hprod2 : (ys.map Int.natAbs).prod ≤ 2 ^ 53 := by
        rw [← (hperm.map Int.natAbs).prod_eq]
        exact hprod
      exact hexact (productsWithin_of_prod xs hall hprod) (productsWithin_of_prod ys hall2 hprod2)

/-- Witness of C16 at `xs = [12, 18, 30]` and `ys = [30, 12, 18]`. -/
theorem folding_order_independent_witness :
    ([12, 18, 30] : List ℤ) ≠ [] ∧ ([12, 18, 30] : List ℤ).Perm [30, 12, 18]
    ∧ (([12, 18, 30] : List ℤ).map Int.natAbs).prod ≤ 2 ^ 53
    ∧ hcfOfArray sampleBuiltins
        (.arr (([30, 12, 18] : List ℤ).map (fun x => JsVal.num (JsNum.ofInt x))))
      = hcfOfArray sampleBuiltins
        (.arr (([12, 18, 30] : List ℤ).map (fun x => JsVal.num (JsNum.ofInt x))))
    ∧ lcmOfArray sampleBuiltins
        (.arr (([30, 12, 18] : List ℤ).map (fun x => JsVal.num (JsNum.ofInt x))))
      = lcmOfArray sampleBuiltins
        (.arr (([12, 18, 30] : List ℤ).map (fun x => JsVal.num (JsNum.ofInt x)))) :=
  ⟨by decide, by decide, by decide,
    (folding_order_independent sampleBuiltins [12, 18, 30] [30, 12, 18] (by decide)
      (by decide)).1,
    (folding_order_independent sampleBuiltins [12, 18, 30] [30, 12, 18] (by decide)
      (by decide)).2.2.2 (by decide)⟩

/-! ## C19: floor against truncation in the `prime` branch -/

theorem primeNums_numbers (E : Builtins) (qs : List ℚ) :
    primeNums E (qs.map (fun q => JsVal.num (JsNum.fin q)))
      = .ok (qs.map (fun q => JsNum.fin ((⌊q⌋ : ℤ) : ℚ))) := by
  have hok : ∀ v ∈ qs.map (fun q => JsVal.num (JsNum.fin q)),
      coerceInt E v = .ok (completed JsNum.nan (coerceInt E v)) := by
    intro v hv
    obtain ⟨q, _, rfl⟩ := List.mem_map.mp hv
    rfl
  rw [primeNums, mapThrowing_ok _ _ _ hok]
  simp only [ok_bind, pure_eq_ok, List.map_map]
  congr 1
  rw [List.filter_eq_self.mpr]
  · apply List.map_congr_left
    intro q _
    rfl
  · intro n hn
    obtain ⟨q, _, rfl⟩ := List.mem_map.mp hn
    rfl

theorem isPrimeIntegerValue_floor (q : ℚ) :
    isPrimeIntegerValue (.num (JsNum.fin ((⌊q⌋ : ℤ) : ℚ)))
      = decide (0 ≤ truncateTowardZero q ∧ Nat.Prime (truncateTowardZero q).toNat) := by
  have h1 : isPrimeIntegerValue (.num (JsNum.fin ((⌊q⌋ : ℤ) : ℚ)))
      = decide (0 ≤ ⌊q⌋ ∧ Nat.Prime (⌊q⌋).toNat) := by
    simp [isPrimeIntegerValue]
  rw [h1]
  by_cases hq : 0 ≤ q
  · simp only [truncateTowardZero, if_pos hq]
  · have hneg : ⌊q⌋ < 0 := by
      have : q < 0 := not_le.mp hq
      exact Int.floor_lt.mpr (by exact_mod_cast this)
    have hceil : ⌈q⌉ ≤ 0 := by
      have : q ≤ ((0 : ℤ) : ℚ) := by exact_mod_cast le_of_lt (not_le.mp hq)
      exact Int.ceil_le.mpr this
    have hnp : ¬ Nat.Prime (⌈q⌉).toNat := by
      rw [Int.toNat_of_nonpos hceil]
      exact Nat.not_prime_zero
    simp only [truncateTowardZero, if_neg hq]
    have e1 : ¬ (0 ≤ ⌊q⌋ ∧ Nat.Prime (⌊q⌋).toNat) := fun h => absurd h.1 (not_le.mpr hneg)
    have e2 : ¬ (0 ≤ ⌈q⌉ ∧ Nat.Prime (⌈q⌉).toNat) := fun h => hnp h.2
    simp [e1, e2]

/-- The list kept by the `prime` branch, which floors, is the list of the
specification, which truncates toward zero. -/
theorem floor_filter_eq_spec (qs : List ℚ) :
    ((qs.map (fun q => JsNum.fin ((⌊q⌋ : ℤ) : ℚ))).map JsVal.num).filter primeElem
      = (filterPrimesSpec qs).map (fun z => JsVal.num (JsNum.ofInt z)) := by
  induction qs with
  | nil => rfl
  | cons q r ih =>
    simp only [filterPrimesSpec, List.map_cons, List.filter_cons] at ih ⊢
    rw [primeElem_eq, isPrimeIntegerValue_floor]
    by_cases hp : 0 ≤ truncateTowardZero q ∧ Nat.Prime (truncateTowardZero q).toNat
    · have hq : 0 ≤ q := by
        by_contra hq
        have hceil : ⌈q⌉ ≤ 0 := by
          have : q ≤ ((0 : ℤ) : ℚ) := by exact_mod_cast le_of_lt (not_le.mp hq)
          exact Int.ceil_le.mpr this
        have := hp.2
        simp only [truncateTowardZero, if_neg hq, Int.toNat_of_nonpos hceil] at this
        exact Nat.not_prime_zero this
      have htr : truncateTowardZero q = ⌊q⌋ := by simp only [truncateTowardZero, if_pos hq]
      have hp2 : 0 ≤ ⌊q⌋ ∧ Nat.Prime (⌊q⌋).toNat := by rw [← htr]; exact hp
      rw [htr]
      simp only [hp2, and_self, decide_True, if_true, List.map_cons, ih]
      rfl
    · simp only [hp, decide_False, Bool.false_eq_true, if_false, ih]

/-- Claim C19: for every `prime` request whose payload is an array of numbers
(integers or fractions, positive or negative), the list computed by the handler,
which coerces with `Math.floor`, equals the list obtained by truncating each
element toward zero and keeping, in input order, the results that are prime; it
is the returned data whenever the response carries data, that is, for an array of
at most 100 numbers (a longer one is rejected as too large). The array
`[2.5, -2.5, 7, 3.9, -7]` gives `[2, 7, 3]`. -/
theorem prime_floor_refines_truncation (email : String) (E : Builtins)
    (resolver : String → Except String String) (body : List (String × JsVal)) (qs : List ℚ)
    (hpres : present body = ["prime"])
    (hval : getProp body "prime" = .arr (qs.map (fun q => JsVal.num (JsNum.fin q)))) :
    primesFromArray (.arr ((completed []
        (primeNums E (qs.map (fun q => JsVal.num (JsNum.fin q))))).map .num))
      = (filterPrimesSpec qs).map (fun z => JsVal.num (JsNum.ofInt z))
    ∧ (qs.length ≤ 100 →
        postBfhl email E resolver body
          = success email (.arr ((filterPrimesSpec qs).map (fun z => JsVal.num (JsNum.ofInt z)))))
    ∧ (100 < qs.length →
        postBfhl email E resolver body = failure email 400 "prime array too large (max 100)")
    ∧ (∀ d, (postBfhl email E resolver body).data = some d →
        d = .arr ((filterPrimesSpec qs).map (fun z => JsVal.num (JsNum.ofInt z))))
    ∧ filterPrimesSpec [5 / 2, -5 / 2, 7, 39 / 10, -7] = [2, 7, 3] := by
  have hnums := primeNums_numbers E qs
  have hlist : primesFromArray (.arr ((qs.map (fun q => JsNum.fin ((⌊q⌋ : ℤ) : ℚ))).map .num))
      = (filterPrimesSpec qs).map (fun z => JsVal.num (JsNum.ofInt z)) := by
    simp only [primesFromArray]
    exact floor_filter_eq_spec qs
  have hmain := postBfhl_prime email E resolver body hpres
  rw [hval] at hmain
  have hsmall : qs.length ≤ 100 → postBfhl email E resolver body
      = success email (.arr ((filterPrimesSpec qs).map (fun z => JsVal.num (JsNum.ofInt z)))) := by
    intro hlen
    rw [hmain]
    have hcap : ¬ (qs.map (fun q => JsNum.fin ((⌊q⌋ : ℤ) : ℚ))).length > 100 := by
      simpa using hlen
    simp only [primeBranch, hnums, ok_bind, pure_eq_ok, hcap, if_false, hlist]
  have hlarge : 100 < qs.length → postBfhl email E resolver body
      = failure email 400 "prime array too large (max 100)" := by
    intro hlen
    rw [hmain]
    have hcap : (qs.map (fun q => JsNum.fin ((⌊q⌋ : ℤ) : ℚ))).length > 100 := by
      simpa using hlen
    simp only [primeBranch, hnums, ok_bind, pure_eq_ok, hcap, if_true]
  refine ⟨?_, hsmall, hlarge, ?_, by decide!⟩
  · rw [hnums, completed]
    exact hlist
  · intro d hd
    by_cases hlen : qs.length ≤ 100
    · rw [hsmall hlen] at hd
      simp only [success, Option.some.injEq] at hd
      exact hd.symm
    · rw [hlarge (by omega)] at hd
      simp [failure] at hd

/-- Witness of C19 at the body with the single property
`prime: [2.5, -2.5, 7, 3.9, -7]`. -/
theorem prime_floor_refines_truncation_witness :
    present [("prime", JsVal.arr (([5 / 2, -5 / 2, 7, 39 / 10, -7] : List ℚ).map
        (fun q => JsVal.num (JsNum.fin q))))] = ["prime"]
    ∧ postBfhl "a@b.c" sampleBuiltins sampleResolver
        [("prime", .arr (([5 / 2, -5 / 2, 7, 39 / 10, -7] : List ℚ).map
          (fun q => JsVal.num (JsNum.fin q))))]
      = success "a@b.c" (.arr ((filterPrimesSpec [5 / 2, -5 / 2, 7, 39 / 10, -7]).map
          (fun z => JsVal.num (JsNum.ofInt z)))) :=
  ⟨by with_unfolding_all rfl,
    (prime_floor_refines_truncation "a@b.c" sampleBuiltins sampleResolver
      [("prime", .arr (([5 / 2, -5 / 2, 7, 39 / 10, -7] : List ℚ).map
        (fun q => JsVal.num (JsNum.fin q))))] [5 / 2, -5 / 2, 7, 39 / 10, -7]
      (by with_unfolding_all rfl) (by with_unfolding_all rfl)).2.1 (by decide)⟩

/-! ## C20: reachability of the catch-all branch -/

theorem convertibleElems_iff (xs : List JsVal) :
    convertibleElems xs = true ↔ ∀ x ∈ xs, convertible x = true := by
  induction xs with
  | nil => simp [convertibleElems]
  | cons x r ih => simp [convertibleElems, ih]

theorem getProp_convertible (body : List (String × JsVal)) (k : String)
    (h : ∀ kv ∈ body, convertible kv.2 = true) : convertible (getProp body k) = true := by
  induction body with
  | nil => rfl
  | cons hd r ih =>
    obtain ⟨k0, v0⟩ := hd
    by_cases hk : k = k0
    · subst hk
      have := h (k, v0) (List.mem_cons_self _ _)
      simpa [getProp, List.lookup] using this
    · have hbeq : (k == k0) = false := by simpa using hk
      have := ih (fun kv hkv => h kv (List.mem_cons_of_mem _ hkv))
      simpa [getProp, List.lookup, hbeq] using this

theorem fibonacciBranch_status (email : String) (E : Builtins) (v : JsVal) :
    (∀ r, fibonacciBranch email E v = .ok r → r.status = 200 ∨ r.status = 400)
    ∧ (convertible v = true → ∃ r, fibonacciBranch email E v = .ok r) := by
  constructor
  · intro r h
    unfold fibonacciBranch at h
    cases hc : coerceInt E v with
    | error e => rw [hc] at h; cases h
    | ok n =>
      rw [hc] at h
      simp only [ok_bind, pure_eq_ok] at h
      split at h
      · cases h; exact Or.inr rfl
      · cases h; exact Or.inl rfl
  · intro hconv
    obtain ⟨n, hn⟩ := (coerceInt_spec E v).1 hconv
    unfold fibonacciBranch
    rw [hn]
    simp only [ok_bind, pure_eq_ok]
    split <;> exact ⟨_, rfl⟩

theorem primeBranch_status (email : String) (E : Builtins) (v : JsVal) :
    (∀ r, primeBranch email E v = .ok r → r.status = 200 ∨ r.status = 400)
    ∧ (convertible v = true → ∃ r, primeBranch email E v = .ok r) := by
  constructor
  · intro r h
    unfold primeBranch at h
    split at h
    · rename_i xs
      cases hc : primeNums E xs with
      | error e => rw [hc] at h; cases h
      | ok nums =>
        rw [hc] at h
        simp only [ok_bind, pure_eq_ok] at h
        split at h
        · cases h; exact Or.inr rfl
        · cases h; exact Or.inl rfl
    · cases h; exact Or.inr rfl
  · intro hconv
    unfold primeBranch
    split
    · rename_i xs
      have hx : ∀ x ∈ xs, convertible x = true := by
        rw [← convertibleElems_iff]
        simpa [convertible] using hconv
      rw [primeNums_of_convertible E xs hx]
      simp only [ok_bind, pure_eq_ok]
      split <;> exact ⟨_, rfl⟩
    · exact ⟨_, rfl⟩

theorem lcmBranch_status (email : String) (E : Builtins) (v : JsVal) :
    (∀ r, lcmBranch email E v = .ok r → r.status = 200 ∨ r.status = 400)
    ∧ (convertible v = true → ∃ r, lcmBranch email E v = .ok r) := by
  constructor
  · intro r h
    unfold lcmBranch at h
    split at h
    · cases h; exact Or.inr rfl
    · cases hc : lcmOfArray E v with
      | error e => rw [hc] at h; cases h
      | ok val =>
        rw [hc] at h
        cases val with
        | none => cases h; exact Or.inr rfl
        | some w => cases h; exact Or.inl rfl
  · intro hconv
    unfold lcmBranch
    split
    · exact ⟨_, rfl⟩
    · cases v with
      | arr xs =>
        have hx : ∀ x ∈ xs, convertible x = true := by
          rw [← convertibleElems_iff]
          simpa [convertible] using hconv
        obtain ⟨val, hval⟩ := (ofArray_completes E xs hx).1
        rw [hval]
        cases val <;> exact ⟨_, rfl⟩
      | _ => exact ⟨_, rfl⟩

theorem hcfBranch_status (email : String) (E : Builtins) (v : JsVal) :
    (∀ r, hcfBranch email E v = .ok r → r.status = 200 ∨ r.status = 400)
    ∧ (convertible v = true → ∃ r, hcfBranch email E v = .ok r) := by
  constructor
  · intro r h
    unfold hcfBranch at h
    split at h
    · cases h; exact Or.inr rfl
    · cases hc : hcfOfArray E v with
      | error e => rw [hc] at h; cases h
      | ok val =>
        rw [hc] at h
        cases val with
        | none => cases h; exact Or.inr rfl
        | some w => cases h; exact Or.inl rfl
  · intro hconv
    unfold hcfBranch
    split
    · exact ⟨_, rfl⟩
    · cases v with
      | arr xs =>
        have hx : ∀ x ∈ xs, convertible x = true := by
          rw [← convertibleElems_iff]
          simpa [convertible] using hconv
        obtain ⟨val, hval⟩ := (ofArray_completes E xs hx).2
        rw [hval]
        cases val <;> exact ⟨_, rfl⟩
      | _ => exact ⟨_, rfl⟩

/-- Outside of the `AI` operation, a `try` block that completes answers with
status 200 or 400, and it completes whenever every value of the body is
convertible. -/
theorem postBfhlTry_non_ai (email : String) (E : Builtins)
    (resolver : String → Except String String) (body : List (String × JsVal))
    (hnoai : present body ≠ ["AI"]) :
    (∀ r, postBfhlTry email E resolver body = .ok r → r.status = 200 ∨ r.status = 400)
    ∧ ((∀ kv ∈ body, convertible kv.2 = true) →
        ∃ r, postBfhlTry email E resolver body = .ok r) := by
  by_cases hlen : (present body).length = 1
  · obtain ⟨k, hk⟩ := List.length_eq_one.mp hlen
    have hkai : k ≠ "AI" := by
      intro h
      rw [h] at hk
      exact hnoai hk
    have hmem := present_mem_allowed body k hk
    rw [postBfhlTry_of_present email E resolver body k hk]
    constructor
    · intro r hr
      split_ifs at hr
      · exact (fibonacciBranch_status email E _).1 r hr
      · exact (primeBranch_status email E _).1 r hr
      · exact (lcmBranch_status email E _).1 r hr
      · exact (hcfBranch_status email E _).1 r hr
      · cases hr; exact Or.inl rfl
    · intro hconv
      split_ifs
      · exact (fibonacciBranch_status email E _).2 (getProp_convertible body _ hconv)
      · exact (primeBranch_status email E _).2 (getProp_convertible body _ hconv)
      · exact (lcmBranch_status email E _).2 (getProp_convertible body _ hconv)
      · exact (hcfBranch_status email E _).2 (getProp_convertible body _ hconv)
      · exact ⟨_, rfl⟩
  · have : postBfhlTry email E resolver body = .ok (failure email 400 exactlyOneError) := by
      simp [postBfhlTry, hlen, exactlyOneError]
    rw [this]
    exact ⟨fun r hr => by cases hr; exact Or.inr rfl, fun _ => ⟨_, rfl⟩⟩

/-- Counterexample to C20 as stated: the JSON body whose only property is
`fibonacci`, with an object that has an own property `toString` as its value,
does not select the `AI` operation, yet `parseInt(val, 10)` throws and the
catch-all branch answers with status 500. -/
theorem catch_all_reachable_counterexample :
    isJsonProps [("fibonacci", JsVal.obj [("toString", .num (JsNum.ofInt 1))])] = true
    ∧ present [("fibonacci", JsVal.obj [("toString", .num (JsNum.ofInt 1))])] = ["fibonacci"]
    ∧ postBfhlTry "a@b.c" sampleBuiltins sampleResolver
        [("fibonacci", .obj [("toString", .num (JsNum.ofInt 1))])] = .error typeErrorMessage
    ∧ postBfhl "a@b.c" sampleBuiltins sampleResolver
        [("fibonacci", .obj [("toString", .num (JsNum.ofInt 1))])]
        = failure "a@b.c" 500 "Internal server error"
    ∧ (postBfhl "a@b.c" sampleBuiltins sampleResolver
        [("fibonacci", .obj [("toString", .num (JsNum.ofInt 1))])]).status = 500 := by
  refine ⟨by with_unfolding_all rfl, by decide, by with_unfolding_all rfl,
    by with_unfolding_all rfl, by with_unfolding_all rfl⟩

/-- Claim C20, amended: for every request body that does not select the `AI`
operation, the response status is 200, 400 or 500, never 503; it is 200 or 400
whenever every value of the body is convertible (none is, or contains inside
arrays, an object with an own property `toString`); and it is 500 exactly when
the `try` block throws, which only the conversion of such an object does. -/
theorem non_ai_status (email : String) (E : Builtins)
    (resolver : String → Except String String) (body : List (String × JsVal))
    (hnoai : present body ≠ ["AI"]) :
    (((postBfhl email E resolver body).status = 200
        ∨ (postBfhl email E resolver body).status = 400
        ∨ (postBfhl email E resolver body).status = 500)
      ∧ (postBfhl email E resolver body).status ≠ 503)
    ∧ ((∀ kv ∈ body, convertible kv.2 = true) →
        (postBfhl email E resolver body).status = 200
          ∨ (postBfhl email E resolver body).status = 400)
    ∧ ((postBfhl email E resolver body).status = 500 ↔
        postBfhlTry email E resolver body = .error typeErrorMessage)
    ∧ ((postBfhl email E resolver body).status = 500 →
        ∃ kv ∈ body, convertible kv.2 = false) := by
  have h := postBfhlTry_non_ai email E resolver body hnoai
  have hround : (∀ kv ∈ body, convertible kv.2 = true) →
      (postBfhl email E resolver body).status = 200
        ∨ (postBfhl email E resolver body).status = 400 := by
    intro hconv
    obtain ⟨r, hr⟩ := h.2 hconv
    rw [postBfhl_of_ok email E resolver body r hr]
    exact h.1 r hr
  have herr : ∀ e, postBfhlTry email E resolver body = .error e → e = typeErrorMessage := by
    intro e he
    by_cases hlen : (present body).length = 1
    · obtain ⟨k, hk⟩ := List.length_eq_one.mp hlen
      rw [postBfhlTry_of_present email E resolver body k hk] at he
      split_ifs at he
      · unfold fibonacciBranch at he
        cases hc : convertible (getProp body "fibonacci") with
        | true =>
          obtain ⟨n, hn⟩ := (coerceInt_spec E _).1 hc
          rw [hn] at he
          simp only [ok_bind, pure_eq_ok] at he
          split at he <;> cases he
        | false =>
          rw [(coerceInt_spec E _).2 hc] at he
          cases he
          rfl
      · cases hv : getProp body "prime" with
        | arr xs =>
          rw [hv] at he
          simp only [primeBranch] at he
          by_cases hx : ∀ x ∈ xs, convertible x = true
          · rw [primeNums_of_convertible E xs hx] at he
            simp only [ok_bind, pure_eq_ok] at he
            split at he <;> cases he
          · have hex : ∃ x ∈ xs, convertible x = false := by
              by_contra hno
              apply hx
              intro x hxm
              cases hcx : convertible x with
              | true => rfl
              | false => exact absurd ⟨x, hxm, hcx⟩ hno
            rw [primeNums_of_not_convertible E xs hex] at he
            cases he
            rfl
        | _ => rw [hv] at he; cases he
      · unfold lcmBranch at he
        split at he
        · cases he
        · cases hv : getProp body "lcm" with
          | arr xs =>
            rw [hv] at he
            by_cases hx : ∀ x ∈ xs, convertible x = true
            · obtain ⟨val, hval⟩ := (ofArray_completes E xs hx).1
              rw [hval] at he
              cases val <;> cases he
            · have hex : ∃ x ∈ xs, convertible x = false := by
                by_contra hno
                apply hx
                intro x hxm
                cases hcx : convertible x with
                | true => rfl
                | false => exact absurd ⟨x, hxm, hcx⟩ hno
              rw [(ofArray_throws E xs hex).1] at he
              cases he
              rfl
          | _ => rw [hv] at he; cases he
      · unfold hcfBranch at he
        split at he
        · cases he
        · cases hv : getProp body "hcf" with
          | arr xs =>
            rw [hv] at he
            by_cases hx : ∀ x ∈ xs, convertible x = true
            · obtain ⟨val, hval⟩ := (ofArray_completes E xs hx).2
              rw [hval] at he
              cases val <;> cases he
            · have hex : ∃ x ∈ xs, convertible x = false := by
                by_contra hno
                apply hx
                intro x hxm
                cases hcx : convertible x with
                | true => rfl
                | false => exact absurd ⟨x, hxm, hcx⟩ hno
              rw [(ofArray_throws E xs hex).2] at he
              cases he
              rfl
          | _ => rw [hv] at he; cases he
    · have : postBfhlTry email E resolver body = .ok (failure email 400 exactlyOneError) := by
        simp [postBfhlTry, hlen, exactlyOneError]
      rw [this] at he
      cases he
  have h500 : (postBfhl email E resolver body).status = 500 ↔
      postBfhlTry email E resolver body = .error typeErrorMessage := by
    cases ht : postBfhlTry email E resolver body with
    | error e =>
      rw [postBfhl_of_error email E resolver body e ht, herr e ht]
      simp [failure]
    | ok r =>
      rw [postBfhl_of_ok email E resolver body r ht]
      rcases h.1 r ht with h2 | h4
      · simp [h2]
      · simp [h4]
  refine ⟨?_, hround, h500, ?_⟩
  · cases ht : postBfhlTry email E resolver body with
    | error e =>
      rw [postBfhl_of_error email E resolver body e ht]
      simp [failure]
    | ok r =>
      rw [postBfhl_of_ok email E resolver body r ht]
      rcases h.1 r ht with h2 | h4
      · simp [h2]
      · simp [h4]
  · intro hs
    by_contra hno
    have hall : ∀ kv ∈ body, convertible kv.2 = true := by
      intro kv hkv
      cases hc : convertible kv.2 with
      | true => rfl
      | false => exact absurd ⟨kv, hkv, hc⟩ hno
    rcases hround hall with h2 | h4
    · rw [hs] at h2; cases h2
    · rw [hs] at h4; cases h4

/-- Witness of C20 (amended) at the body with the single property
`lcm: [4, 6]`. -/
theorem non_ai_status_witness :
    present [("lcm", JsVal.arr [.num (JsNum.ofInt 4), .num (JsNum.ofInt 6)])] ≠ ["AI"]
    ∧ (∀ kv ∈ [("lcm", JsVal.arr [.num (JsNum.ofInt 4), .num (JsNum.ofInt 6)])],
        convertible kv.2 = true)
    ∧ ((postBfhl "a@b.c" sampleBuiltins sampleResolver
          [("lcm", .arr [.num (JsNum.ofInt 4), .num (JsNum.ofInt 6)])]).status = 200
        ∨ (postBfhl "a@b.c" sampleBuiltins sampleResolver
          [("lcm", .arr [.num (JsNum.ofInt 4), .num (JsNum.ofInt 6)])]).status = 400) :=
  ⟨by decide, by decide,
    (non_ai_status "a@b.c" sampleBuiltins sampleResolver
      [("lcm", .arr [.num (JsNum.ofInt 4), .num (JsNum.ofInt 6)])] (by decide)).2.1
        (by decide)⟩

end Bfhl
